import Mathlib

/-!
# PJRT executable layer: compile options, sharding flattening, handle queries

A shallow embedding of `xla/pjrt/pjrt_executable.cc`, of the two
`get_default_device_assignment` lambdas of
`xla/python/tpu_driver/client/tpu_client_extension.cc`, of
`PjRtCompiler::DeserializeLoadedExecutable` of
`xla/python/pjrt_ifrt/pjrt_compiler.cc`, of the driver version strings of
`xla/stream_executor/cuda/cuda_diagnostics.cc`, and of the literal generators
and the lowering flag of `xla/tests/test_utils.cc`.

* `StatusOr<T>` is `Except Status T`; `TF_ASSIGN_OR_RETURN` is monadic bind.
* A `std::vector` passed by mutable reference is threaded explicitly: the
  function takes the old vector and returns the new one.
* Collaborators whose code lives in other translation units (`Shape::ToProto`,
  `Shape(const ShapeProto&)`, `ExecutableBuildOptions::ToProto`,
  `ExecutableBuildOptionsFromProto`, `MultiSliceConfig::Serialize`,
  `HloSharding::ToProto`, `HloComputation::Accept`,
  `HloCostAnalysis::properties().ForEach`, `PjRtClient::DeserializeExecutable`,
  `PjRtLoadedExecutable::Create`) are parameters of the embedded functions, and
  so are the types they work on.
* A fatal `CHECK` and a thrown exception end a call without a return value:
  such a call has type `Except Abort _`.
* The Abseil string functions (`StrSplit`, `SimpleAtoi`, `StrContains`, the
  conversion `%d` of `StrFormat`) are modelled in the namespace `absl`.
* Random draws are not computed: `std::uniform_int_distribution` and
  `std::shuffle` are parameters that take and return the state of the engine.
-/

namespace xla

/-! ## Status and StatusOr -/

/-- The non-OK canonical status codes of `absl::StatusCode`. -/
inductive StatusCode where
  | kCancelled
  | kUnknown
  | kInvalidArgument
  | kDeadlineExceeded
  | kNotFound
  | kAlreadyExists
  | kPermissionDenied
  | kResourceExhausted
  | kFailedPrecondition
  | kAborted
  | kOutOfRange
  | kUnimplemented
  | kInternal
  | kUnavailable
  | kDataLoss
  | kUnauthenticated
  deriving DecidableEq, Repr

/-- A failed `Status`: its code and its message. -/
structure Status where
  code : StatusCode
  message : String
  deriving DecidableEq, Repr

/-- `StatusOr<T>`: either a failed status or a value. -/
abbrev StatusOr (α : Type) : Type := Except Status α

/-- `xla::Unimplemented(msg)` from `xla/util.h`: a status with code
`kUnimplemented` carrying the formatted message. -/
def Unimplemented (msg : String) : Status := ⟨StatusCode.kUnimplemented, msg⟩

/-- `xla::NotFound(msg)` from `xla/util.h`: a status with code `kNotFound`
carrying the formatted message. -/
def NotFound (msg : String) : Status := ⟨StatusCode.kNotFound, msg⟩

/-! ## CompileOptions and its wire record -/

/-- The fields of `CompileOptions` that `ToProto` and `FromProto` touch.
`multi_slice_config` is a raw pointer in the source; `none` is `nullptr`. -/
structure CompileOptions (Shape EBO MSC : Type) where
  argument_layouts : Option (List Shape)
  parameter_is_tupled_arguments : Bool
  executable_build_options : EBO
  compile_portable_executable : Bool
  profile_version : Int
  multi_slice_config : Option MSC
  deriving DecidableEq

/-- The message `CompileOptionsProto`: a repeated field is a list, a string
field that was never set is the empty string. -/
structure CompileOptionsProto (ShapeProto EBOProto : Type) where
  argument_layouts : List ShapeProto
  parameter_is_tupled_arguments : Bool
  executable_build_options : EBOProto
  compile_portable_executable : Bool
  profile_version : Int
  serialized_multi_slice_config : String
  deriving DecidableEq

section CompileOptionsCode

variable {Shape ShapeProto EBO EBOProto MSC : Type}

/-- `CompileOptions::ToProto` (pjrt_executable.cc:30-46).  The record is built
field by field in the source; the only early return is the failure of the
nested `executable_build_options.ToProto()`. -/
def CompileOptions.ToProto
    (shapeToProto : Shape → ShapeProto)
    (eboToProto : EBO → StatusOr EBOProto)
    (serialize : MSC → String)
    (self : CompileOptions Shape EBO MSC) :
    StatusOr (CompileOptionsProto ShapeProto EBOProto) := do
  let argument_layouts : List ShapeProto :=
    match self.argument_layouts with
    | some layouts => layouts.map shapeToProto
    | none => []
  let executable_build_options ← eboToProto self.executable_build_options
  let serialized_multi_slice_config : String :=
    match self.multi_slice_config with
    | some config => serialize config
    | none => ""
  return { argument_layouts := argument_layouts
           parameter_is_tupled_arguments := self.parameter_is_tupled_arguments
           executable_build_options := executable_build_options
           compile_portable_executable := self.compile_portable_executable
           profile_version := self.profile_version
           serialized_multi_slice_config := serialized_multi_slice_config }

/-- `CompileOptions::FromProto` (pjrt_executable.cc:48-72).  `output` starts
default-constructed: `argument_layouts` is `std::nullopt` and
`multi_slice_config` is `nullptr`; every other field is overwritten before the
function returns. -/
def CompileOptions.FromProto
    (shapeFromProto : ShapeProto → Shape)
    (ExecutableBuildOptionsFromProto : EBOProto → StatusOr EBO)
    (proto : CompileOptionsProto ShapeProto EBOProto) :
    StatusOr (CompileOptions Shape EBO MSC) :=
  if proto.serialized_multi_slice_config ≠ "" then
    Except.error
      (Unimplemented "multi_slice_config not supported in CompileOptions::FromProto.")
  else do
    let argument_layouts : Option (List Shape) :=
      if proto.argument_layouts.length > 0 then
        some (proto.argument_layouts.map shapeFromProto)
      else
        none
    let executable_build_options ←
      ExecutableBuildOptionsFromProto proto.executable_build_options
    return { argument_layouts := argument_layouts
             parameter_is_tupled_arguments := proto.parameter_is_tupled_arguments
             executable_build_options := executable_build_options
             compile_portable_executable := proto.compile_portable_executable
             profile_version := proto.profile_version
             multi_slice_config := none }

end CompileOptionsCode

/-! ## OpSharding and its flattening -/

/-- Modelled from the spec: the enum `OpSharding::Type` is declared in
`xla_data.proto`, which is not part of the sources at hand.  The data model
has "either a leaf sharding descriptor or a `TUPLE` node", and the code tells
`TUPLE` from every other value only: `NON_TUPLE k` is the `k`-th of the other
enum values. -/
inductive OpSharding_Type where
  | TUPLE
  | NON_TUPLE (k : Nat)
  deriving DecidableEq, Repr

/-- The message `OpSharding`: its `type`, its repeated `tuple_shardings`, and
all its remaining fields (tile shape, tile assignment, metadata, ...) gathered
in one payload of type `P`, which the code under study never inspects. -/
inductive OpSharding (P : Type) where
  | mk (type : OpSharding_Type) (payload : P)
      (tuple_shardings : List (OpSharding P)) : OpSharding P

namespace OpSharding

variable {P : Type}

/-- Accessor `sharding.type()`. -/
def type : OpSharding P → OpSharding_Type
  | mk t _ _ => t

/-- Everything but `type` and `tuple_shardings`. -/
def payload : OpSharding P → P
  | mk _ p _ => p

/-- Accessor `sharding.tuple_shardings()`. -/
def tuple_shardings : OpSharding P → List (OpSharding P)
  | mk _ _ cs => cs

end OpSharding

mutual

/-- `GetOpSharding(out, sharding)` (pjrt_executable.cc:74-82); the vector
`out` is threaded through, `push_back` appends at the end. -/
def GetOpSharding {P : Type} (out : List (OpSharding P)) :
    OpSharding P → List (OpSharding P)
  | OpSharding.mk t p cs =>
    if t = OpSharding_Type.TUPLE then
      GetOpSharding.loop out cs
    else
      out ++ [OpSharding.mk t p cs]

/-- The range-for loop over `sharding.tuple_shardings()` in `GetOpSharding`:
one recursive call per child, in order, each on the vector left by the
previous one. -/
def GetOpSharding.loop {P : Type} (out : List (OpSharding P)) :
    List (OpSharding P) → List (OpSharding P)
  | [] => out
  | s :: rest => GetOpSharding.loop (GetOpSharding out s) rest

end

mutual

/-- The reference flattening of the Sharding Normalizer, written after its
contract: a non-`TUPLE` sharding is a single-element result, a `TUPLE`
sharding is the concatenation of the flattenings of its children in declared
order. -/
def Flatten {P : Type} : OpSharding P → List (OpSharding P)
  | OpSharding.mk t p cs =>
    if t = OpSharding_Type.TUPLE then
      Flatten.children cs
    else
      [OpSharding.mk t p cs]

/-- Concatenation of the flattenings of a sequence of children, in order. -/
def Flatten.children {P : Type} : List (OpSharding P) → List (OpSharding P)
  | [] => []
  | c :: rest => Flatten c ++ Flatten.children rest

end

mutual

/-- All nodes of a sharding tree in depth-first, left-to-right (pre-)order.
The children of a node are its `tuple_shardings` when it is a `TUPLE`; a
non-`TUPLE` node is a leaf. -/
def OpSharding.nodes {P : Type} : OpSharding P → List (OpSharding P)
  | OpSharding.mk t p cs =>
    if t = OpSharding_Type.TUPLE then
      OpSharding.mk t p cs :: OpSharding.nodes.children cs
    else
      [OpSharding.mk t p cs]

/-- The nodes of a sequence of sibling trees, left to right. -/
def OpSharding.nodes.children {P : Type} : List (OpSharding P) → List (OpSharding P)
  | [] => []
  | c :: rest => OpSharding.nodes c ++ OpSharding.nodes.children rest

end

mutual

/-- Number of leaves (non-`TUPLE` nodes) of a sharding tree. -/
def OpSharding.leafCount {P : Type} : OpSharding P → Nat
  | OpSharding.mk t _ cs =>
    if t = OpSharding_Type.TUPLE then OpSharding.leafCount.children cs else 1

/-- Number of leaves of a sequence of sibling trees. -/
def OpSharding.leafCount.children {P : Type} : List (OpSharding P) → Nat
  | [] => 0
  | c :: rest => OpSharding.leafCount c + OpSharding.leafCount.children rest

end

mutual

/-- Height of a sharding tree: the number of nested `GetOpSharding` frames
the call on it needs. -/
def OpSharding.depth {P : Type} : OpSharding P → Nat
  | OpSharding.mk t _ cs =>
    if t = OpSharding_Type.TUPLE then OpSharding.depth.children cs + 1 else 1

/-- Largest height among a sequence of sibling trees. -/
def OpSharding.depth.children {P : Type} : List (OpSharding P) → Nat
  | [] => 0
  | c :: rest => max (OpSharding.depth c) (OpSharding.depth.children rest)

end

/-- The range-for loop of `GetOpSharding` over an arbitrary loop body that may
fail to return: the body runs on each child in order, and the loop stops
without a result as soon as one run has none. -/
def GetOpShardingFuel.loop {P : Type}
    (body : List (OpSharding P) → OpSharding P → Option (List (OpSharding P)))
    (out : List (OpSharding P)) : List (OpSharding P) → Option (List (OpSharding P))
  | [] => some out
  | s :: rest =>
    match body out s with
    | none => none
    | some out1 => GetOpShardingFuel.loop body out1 rest

/-- `GetOpSharding` run with a bound on the depth of nested calls: every
call takes one unit, a call that finds none left does not return. -/
def GetOpShardingFuel {P : Type} :
    Nat → List (OpSharding P) → OpSharding P → Option (List (OpSharding P))
  | 0, _, _ => none
  | fuel + 1, out, sharding =>
    if sharding.type = OpSharding_Type.TUPLE then
      GetOpShardingFuel.loop (GetOpShardingFuel fuel) out sharding.tuple_shardings
    else
      some (out ++ [sharding])

/-! ## The executable handle -/

/-- Modelled from the spec: `HloModule` (hlo_module.h) is not part of the
sources at hand.  The data model says a handle "exposes optional
parameter/output sharding (absent when the underlying program has no SPMD
sharding annotations)": `has_spmd_output_sharding()` is `isSome` of the
optional output sharding, likewise for the parameter shardings. -/
structure HloModule (HloSharding Comp : Type) where
  spmd_output_sharding : Option HloSharding
  spmd_parameters_shardings : Option (List HloSharding)
  entry_computation : Comp

/-- The two virtual methods of `PjRtExecutable` that the code calls, each
given by what it returns on this handle. -/
structure PjRtExecutable (HloSharding Comp : Type) where
  name : String
  GetHloModules : StatusOr (List (HloModule HloSharding Comp))

section HandleCode

variable {HloSharding Comp P : Type}

/-- `PjRtExecutable::GetOutputShardings` (pjrt_executable.cc:84-95).  The
three disjuncts of the guard are evaluated left to right with short-circuit;
`toProto` is `HloSharding::ToProto`. -/
def PjRtExecutable.GetOutputShardings (toProto : HloSharding → OpSharding P)
    (self : PjRtExecutable HloSharding Comp) : Option (List (OpSharding P)) :=
  match self.GetHloModules with
  | Except.error _ => none
  | Except.ok [] => none
  | Except.ok (module0 :: _) =>
    match module0.spmd_output_sharding with
    | none => none
    | some sharding => some (GetOpSharding [] (toProto sharding))

/-- `PjRtExecutable::GetParameterShardings` (pjrt_executable.cc:97-110): the
loop calls `GetOpSharding` on the same `out` for each parameter sharding of
the first module. -/
def PjRtExecutable.GetParameterShardings (toProto : HloSharding → OpSharding P)
    (self : PjRtExecutable HloSharding Comp) : Option (List (OpSharding P)) :=
  match self.GetHloModules with
  | Except.error _ => none
  | Except.ok [] => none
  | Except.ok (module0 :: _) =>
    match module0.spmd_parameters_shardings with
    | none => none
    | some shardings =>
      some (shardings.foldl (fun out s => GetOpSharding out (toProto s)) [])

/-- `PjRtExecutable::GetParameterShardings` (pjrt_executable.cc:97-110) as a
call on a handle held in memory.  `Handle` is the memory of the handle and
`GetHloModules handle` is one call of the virtual `GetHloModules()` on it: the
value it returns and the handle after the call (the method is `const`, but an
implementation may still write `mutable` members, a cache for instance).  The
body makes this one call, `auto modules = GetHloModules()`, and then works on
`modules` only; the pair is the returned optional and the handle after the
call. -/
def PjRtExecutable.GetParameterShardings.call {Handle : Type}
    (toProto : HloSharding → OpSharding P)
    (GetHloModules : Handle → StatusOr (List (HloModule HloSharding Comp)) × Handle)
    (handle : Handle) : Option (List (OpSharding P)) × Handle :=
  let modules := GetHloModules handle
  match modules.1 with
  | Except.error _ => (none, modules.2)
  | Except.ok [] => (none, modules.2)
  | Except.ok (module0 :: _) =>
    match module0.spmd_parameters_shardings with
    | none => (none, modules.2)
    | some shardings =>
      (some (shardings.foldl (fun out s => GetOpSharding out (toProto s)) []), modules.2)

end HandleCode

/-! ## Cost analysis -/

/-- `ret[key] = val` on an `absl::flat_hash_map` kept as an association list
with unique keys: overwrite the entry of `key` when there is one, else add
one. -/
def flat_hash_map.assign {V : Type} (ret : List (String × V)) (key : String) (val : V) :
    List (String × V) :=
  match ret with
  | [] => [(key, val)]
  | (k, v) :: rest =>
    if k = key then (k, val) :: rest else (k, v) :: flat_hash_map.assign rest key val

/-- Lookup `ret.find(key)` in the association list. -/
def flat_hash_map.find {V : Type} (ret : List (String × V)) (key : String) : Option V :=
  match ret with
  | [] => none
  | (k, v) :: rest => if k = key then some v else flat_hash_map.find rest key

/-- The value that the analyzer recorded for `key`, read off the sequence of
`(key, val)` calls of `ForEach`: the one of the last call for that key, none
when there is no such call. -/
def lastRecorded {F : Type} (calls : List (String × F)) (key : String) : Option F :=
  match calls with
  | [] => none
  | (k, v) :: rest =>
    match lastRecorded rest key with
    | some w => some w
    | none => if k = key then some v else none

section CostAnalysisCode

variable {HloSharding Comp A F V : Type}

/-- `PjRtExecutableUtil::RunHloCostAnalysis` (pjrt_executable.cc:112-136).
The analyzer is passed by pointer and mutated by the traversal, so its state
`A` is threaded: `Accept computation analyzer` is
`computation->Accept(analyzer)`, returning the status of the traversal and the
analyzer after it; `ForEach analyzer` is the sequence of `(key, val)` calls
that `analyzer->properties().ForEach` makes, `val` a `float` (`F`).
`PjRtValueType` (`V`) is declared in a header that is not at hand; `ofFloat`
is the conversion from `float` that the assignment `ret[key] = val` performs.
The result pairs the returned `StatusOr` with the analyzer as the call leaves
it. -/
def PjRtExecutableUtil.RunHloCostAnalysis
    (Accept : Comp → A → Except Status Unit × A)
    (ForEach : A → List (String × F))
    (ofFloat : F → V)
    (executable : PjRtExecutable HloSharding Comp)
    (hlo_cost_analysis : A) :
    StatusOr (List (String × V)) × A :=
  match executable.GetHloModules with
  | Except.error status => (Except.error status, hlo_cost_analysis)
  | Except.ok modules =>
    match modules with
    | [] =>
      (Except.error (NotFound ("Executable '" ++ executable.name ++
        "' did not have an HloModule to generate cost analysis with.")),
       hlo_cost_analysis)
    | module0 :: rest =>
      if (module0 :: rest).length > 1 then
        (Except.error (Unimplemented
          "GetCostAnalysis() doesn't support multiple program multiple data executables."),
         hlo_cost_analysis)
      else
        match Accept module0.entry_computation hlo_cost_analysis with
        | (Except.error status, analysis) => (Except.error status, analysis)
        | (Except.ok _, analysis) =>
          (Except.ok ((ForEach analysis).foldl
              (fun ret kv => flat_hash_map.assign ret kv.1 (ofFloat kv.2)) []),
           analysis)

end CostAnalysisCode

/-! ## Default device assignment (tpu_client_extension.cc) -/

/-- The ways in which a call of the `get_default_device_assignment` lambdas
ends without returning to its caller: the fatal `CHECK(iter != end)`, which
logs the device id and aborts the process, and the `std::length_error` that
`std::vector::resize` throws when it is handed a negative `int` (converted to
a size beyond `max_size()`). -/
inductive Abort where
  | check_failed (device_id : Int)
  | length_error
  deriving DecidableEq, Repr

/-- `DeviceAssignment`, read through its one accessor used by the code:
`device_assignment(r, p)` is the device id in the cell of replica `r` and
partition `p`. -/
abbrev DeviceAssignment : Type := Nat → Nat → Int

/-- Modelled from the spec: `PyTpuClient` (tpu_client.h) is not part of the
sources at hand.  The client is given by what its two methods used here
return: `GetDefaultDeviceAssignment(num_replicas, num_partitions)`, and the
lookup `id_to_device().find(device_id)` in "the client's device table: mapping
from device id (integer) to device handle".  Both counts are C++ `int`s and
nothing is assumed of the counts for which the client produces an
assignment. -/
structure PyTpuClient (Device : Type) where
  GetDefaultDeviceAssignment : Int → Int → StatusOr DeviceAssignment
  id_to_device : Int → Option Device

/-- A counting `for` loop that stores the value of its body for each index,
in index order, and ends with the first abort of its body. -/
def forIndices {β : Type} (body : Nat → Except Abort β) : List Nat → Except Abort (List β)
  | [] => Except.ok []
  | i :: rest =>
    match body i with
    | Except.error abort => Except.error abort
    | Except.ok b =>
      match forIndices body rest with
      | Except.error abort => Except.error abort
      | Except.ok bs => Except.ok (b :: bs)

section DeviceAssignmentCode

variable {Device : Type}

/-- The three statements shared by the loop bodies of both lambdas:
`iter = client->id_to_device().find(device_id)`, `CHECK(iter != end) <<
device_id`, and the use of `iter->second`. -/
def PyTpuClient.checked_find (client : PyTpuClient Device) (device_id : Int) :
    Except Abort Device :=
  match client.id_to_device device_id with
  | none => Except.error (Abort.check_failed device_id)
  | some device => Except.ok device

/-- The two-argument `get_default_device_assignment` lambda
(tpu_client_extension.cc:47-66).  `result.resize(num_replicas)` and
`result[r].resize(num_partitions)` throw on a negative count; the loops run
over `0 .. num_replicas - 1` and `0 .. num_partitions - 1` and fill
`result[r][p]` in that order. -/
def get_default_device_assignment (client : PyTpuClient Device)
    (num_replicas num_partitions : Int) : Except Abort (StatusOr (List (List Device))) :=
  match client.GetDefaultDeviceAssignment num_replicas num_partitions with
  | Except.error status => Except.ok (Except.error status)
  | Except.ok device_assignment =>
    if num_replicas < 0 then
      Except.error Abort.length_error
    else
      match forIndices (fun r =>
          if num_partitions < 0 then
            Except.error Abort.length_error
          else
            forIndices (fun p => client.checked_find (device_assignment r p))
              (List.range num_partitions.toNat))
          (List.range num_replicas.toNat) with
      | Except.error abort => Except.error abort
      | Except.ok result => Except.ok (Except.ok result)

/-- The legacy one-argument `get_default_device_assignment` lambda
(tpu_client_extension.cc:68-82): one `push_back` per replica. -/
def get_default_device_assignment_1d (client : PyTpuClient Device)
    (num_replicas : Int) : Except Abort (StatusOr (List Device)) :=
  match client.GetDefaultDeviceAssignment num_replicas 1 with
  | Except.error status => Except.ok (Except.error status)
  | Except.ok device_assignment =>
    match forIndices (fun i => client.checked_find (device_assignment i 0))
        (List.range num_replicas.toNat) with
    | Except.error abort => Except.error abort
    | Except.ok result => Except.ok (Except.ok result)

/-- The legacy form written as the spec wants it, a thin adapter over the 2-D
form with `numPartitions = 1`: same failure, same abort, and on success the
cells of the rows in replica order. -/
def get_default_device_assignment_adapter (client : PyTpuClient Device)
    (num_replicas : Int) : Except Abort (StatusOr (List Device)) :=
  match get_default_device_assignment client num_replicas 1 with
  | Except.error abort => Except.error abort
  | Except.ok (Except.error status) => Except.ok (Except.error status)
  | Except.ok (Except.ok grid) => Except.ok (Except.ok grid.flatten)

end DeviceAssignmentCode

/-! ## Compiler facade (pjrt_compiler.cc) -/

section CompilerCode

variable {Client PjRt Options Executable Handle World : Type}

/-- `PjRtCompiler::DeserializeLoadedExecutable` (pjrt_compiler.cc:39-48).
The two callees act on the world outside the function (they load an
executable, they create a handle), so a state `World` is threaded through
them: `DeserializeExecutable pjrt serialized options world` is
`client_->pjrt_client()->DeserializeExecutable(serialized, std::move(options))`
and `Create client executable world` is
`PjRtLoadedExecutable::Create(client_, std::move(pjrt_loaded_executble))`,
each returning its `StatusOr` and the world after the call. -/
def PjRtCompiler.DeserializeLoadedExecutable
    (pjrt_client : Client → PjRt)
    (DeserializeExecutable : PjRt → String → Options → World → StatusOr Executable × World)
    (Create : Client → Executable → World → StatusOr Handle × World)
    (client_ : Client) (serialized : String) (options : Options) (world : World) :
    StatusOr Handle × World :=
  match DeserializeExecutable (pjrt_client client_) serialized options world with
  | (Except.error status, world1) => (Except.error status, world1)
  | (Except.ok pjrt_loaded_executble, world1) => Create client_ pjrt_loaded_executble world1

end CompilerCode

end xla

/-! ## Library string functions (models of the Abseil calls in the sources) -/

namespace absl

/-- `absl::ascii_isspace`: space, `\t`, `\n`, `\v`, `\f`, `\r`. -/
def ascii_isspace (c : Char) : Bool :=
  decide (c.toNat = 32) || (decide (9 ≤ c.toNat) && decide (c.toNat ≤ 13))

/-- Splitting of a character sequence at every occurrence of `delimiter`:
the pieces between the occurrences, empty ones kept; the empty sequence gives
one empty piece. -/
def splitOnChar (delimiter : Char) : List Char → List (List Char)
  | [] => [[]]
  | c :: rest =>
    if c = delimiter then
      [] :: splitOnChar delimiter rest
    else
      match splitOnChar delimiter rest with
      | [] => [[c]]
      | piece :: pieces => (c :: piece) :: pieces

/-- `absl::StrSplit(text, delimiter)` with a single-character delimiter,
collected in a `std::vector<std::string>`. -/
def StrSplit (text : String) (delimiter : Char) : List String :=
  (splitOnChar delimiter text.toList).map String.mk

/-- The value of a decimal digit, none for any other character. -/
def digitValue (c : Char) : Option Nat :=
  if 48 ≤ c.toNat ∧ c.toNat ≤ 57 then some (c.toNat - 48) else none

/-- Reading of a run of decimal digits, most significant first, onto the value
read so far; none when a character is not a digit. -/
def parseDigits (value : Nat) : List Char → Option Nat
  | [] => some value
  | c :: rest =>
    match digitValue c with
    | none => none
    | some d => parseDigits (value * 10 + d) rest

/-- Removal of leading and trailing ASCII whitespace. -/
def StripAsciiWhitespace (text : List Char) : List Char :=
  ((text.dropWhile ascii_isspace).reverse.dropWhile ascii_isspace).reverse

/-- `absl::SimpleAtoi(str, &out)` for a 32-bit `int`: `some n` when it returns
true and stores `n`, `none` when it returns false.  The text may be
surrounded by ASCII whitespace and start with one sign; what remains must be
one decimal digit at least and nothing else, and the value must fit in 32
bits. -/
def SimpleAtoi (str : String) : Option Int :=
  match StripAsciiWhitespace str.toList with
  | [] => none
  | c :: rest =>
    if c = '-' then
      match rest with
      | [] => none
      | d :: digits =>
        match parseDigits 0 (d :: digits) with
        | none => none
        | some n => if n ≤ 2147483648 then some (-(n : Int)) else none
    else if c = '+' then
      match rest with
      | [] => none
      | d :: digits =>
        match parseDigits 0 (d :: digits) with
        | none => none
        | some n => if n ≤ 2147483647 then some (n : Int) else none
    else
      match parseDigits 0 (c :: rest) with
      | none => none
      | some n => if n ≤ 2147483647 then some (n : Int) else none

/-- The decimal digits of a natural number, most significant first; `fuel`
bounds the number of digits. -/
def formatNatFuel : Nat → Nat → List Char
  | 0, _ => []
  | fuel + 1, n =>
    if n < 10 then [Nat.digitChar n]
    else formatNatFuel fuel (n / 10) ++ [Nat.digitChar (n % 10)]

/-- The conversion `%d` of `absl::StrFormat`: the decimal digits of the
absolute value, after a `-` for a negative number. -/
def FormatInt (n : Int) : List Char :=
  if n < 0 then '-' :: formatNatFuel (n.natAbs + 1) n.natAbs
  else formatNatFuel (n.natAbs + 1) n.natAbs

/-- Substring test on character sequences: `needle` starts at some position
of `haystack`. -/
def containsChars (needle : List Char) : List Char → Bool
  | [] => needle.isPrefixOf []
  | c :: rest => needle.isPrefixOf (c :: rest) || containsChars needle rest

/-- `absl::StrContains(haystack, needle)`. -/
def StrContains (haystack needle : String) : Bool :=
  containsChars needle.toList haystack.toList

end absl

/-! ## Driver version strings (cuda_diagnostics.cc) -/

namespace stream_executor.cuda

open xla (Status StatusCode StatusOr)

/-- `DriverVersion`: `std::tuple<int, int, int>`, major, minor, patch. -/
abbrev DriverVersion : Type := Int × Int × Int

/-- `DriverVersionToString` (cuda_diagnostics.cc:55-58):
`absl::StrFormat("%d.%d.%d", ...)`. -/
def DriverVersionToString (version : DriverVersion) : String :=
  String.mk (absl.FormatInt version.1 ++ '.' :: absl.FormatInt version.2.1 ++
    '.' :: absl.FormatInt version.2.2)

/-- `StringToDriverVersion` (cuda_diagnostics.cc:68-108).  `pieces[i]` is read
only after the size check has put `i` in range. -/
def StringToDriverVersion (value : String) : StatusOr DriverVersion :=
  let pieces : List String := absl.StrSplit value '.'
  if pieces.length < 2 ∨ pieces.length > 4 then
    Except.error ⟨StatusCode.kInvalidArgument,
      "expected %d.%d, %d.%d.%d, or %d.%d.%d.%d form for driver version; got \"" ++
        value ++ "\""⟩
  else
    match absl.SimpleAtoi (pieces.getD 0 "") with
    | none =>
      Except.error ⟨StatusCode.kInvalidArgument,
        "could not parse major version number \"" ++ pieces.getD 0 "" ++
          "\" as an integer from string \"" ++ value ++ "\""⟩
    | some major =>
      match absl.SimpleAtoi (pieces.getD 1 "") with
      | none =>
        Except.error ⟨StatusCode.kInvalidArgument,
          "could not parse minor version number \"" ++ pieces.getD 1 "" ++
            "\" as an integer from string \"" ++ value ++ "\""⟩
      | some minor =>
        if pieces.length = 3 then
          match absl.SimpleAtoi (pieces.getD 2 "") with
          | none =>
            Except.error ⟨StatusCode.kInvalidArgument,
              "could not parse patch version number \"" ++ pieces.getD 2 "" ++
                "\" as an integer from string \"" ++ value ++ "\""⟩
          | some patch => Except.ok (major, minor, patch)
        else
          Except.ok (major, minor, 0)

end stream_executor.cuda

namespace xla

/-! ## Test utilities (tests/test_utils.cc) -/

/-- `IsMlirLoweringEnabled` (test_utils.cc:920-927); `xla_flags` is what
`getenv("XLA_FLAGS")` returns, `none` for the null pointer of an unset
variable. -/
def IsMlirLoweringEnabled (xla_flags : Option String) : Bool :=
  match xla_flags with
  | none => false
  | some flags =>
    !absl.StrContains flags "--xla_cpu_use_xla_runtime=false" &&
      absl.StrContains flags "--xla_cpu_use_xla_runtime"

/-- The 16-bit pattern that `PopulateWithIntNext` stores for the counter value
`next_value` (test_utils.cc:99-101 and 114-116):
`(next_value & 0xBFFF) | (exponent_msb << 1)` with
`exponent_msb = next_value & 0x4000`, computed in `int` and converted to
`uint16_t` by `bit_cast`. -/
def PopulateWithIntNext.bits (next_value : Nat) : Nat :=
  ((next_value &&& 0xBFFF) ||| ((next_value &&& 0x4000) <<< 1)) % 65536

/-- The loop of `PopulateWithIntNext` over the elements of the literal, each
overwritten with the pattern of the counter, `next_value++` wrapping as
`uint16_t`. -/
def PopulateWithIntNext.loop (next_value : Nat) : List Nat → List Nat
  | [] => []
  | _ :: rest =>
    PopulateWithIntNext.bits next_value ::
      PopulateWithIntNext.loop ((next_value + 1) % 65536) rest

/-- `PopulateWithIntNext<half>` (test_utils.cc:92-104); a literal is the list
of the 16-bit patterns of its elements. -/
def PopulateWithIntNext_half (literal : List Nat) : List Nat :=
  PopulateWithIntNext.loop 0 literal

/-- `PopulateWithIntNext<bfloat16>` (test_utils.cc:106-119): the counter
starts at `0x80`. -/
def PopulateWithIntNext_bfloat16 (literal : List Nat) : List Nat :=
  PopulateWithIntNext.loop 0x80 literal

/-- A bfloat16 pattern is a denormal when its exponent field (bits 14..7) is
zero and its mantissa (bits 6..0) is not. -/
def bfloat16_is_denormal (bits : Nat) : Bool :=
  decide ((bits >>> 7) &&& 0xFF = 0) && decide (bits &&& 0x7F ≠ 0)

/-- The element types of the integer cases of `MakeFakeLiteralInternal` that
go through the generic `PopulateWithRandomIntegralDataWithBounds<IntT>`. -/
inductive IntegralType where
  | S8 | U8 | S16 | U16 | S32 | U32 | S64 | U64
  deriving DecidableEq, Repr

/-- Width in bits of an integral element type. -/
def IntegralType.bits : IntegralType → Nat
  | S8 => 8 | U8 => 8 | S16 => 16 | U16 => 16
  | S32 => 32 | U32 => 32 | S64 => 64 | U64 => 64

/-- Signedness of an integral element type. -/
def IntegralType.signed : IntegralType → Bool
  | S8 => true | S16 => true | S32 => true | S64 => true
  | U8 => false | U16 => false | U32 => false | U64 => false

/-- `std::numeric_limits<IntT>::max()`. -/
def IntegralType.max (t : IntegralType) : Int :=
  if t.signed then (2 ^ (t.bits - 1) : Int) - 1 else (2 ^ t.bits : Int) - 1

/-- `static_cast<IntT>(x)` of an integer value: reduction modulo `2 ^ bits`
into the range of the type. -/
def IntegralType.static_cast (t : IntegralType) (x : Int) : Int :=
  if t.signed then
    (x + (2 ^ (t.bits - 1) : Int)) % (2 ^ t.bits : Int) - (2 ^ (t.bits - 1) : Int)
  else
    x % (2 ^ t.bits : Int)

section IntegralDataCode

variable {E : Type}

/-- The loop `for (IntT& value : literal->data<IntT>()) value = generator(*engine)`
(test_utils.cc:296-298): one draw per element, the engine threaded through. -/
def PopulateWithRandomIntegralDataWithBounds.draw
    (generator : Int → Int → E → Int × E) (t : IntegralType) (min max : Int) :
    List Int → E → List Int × E
  | [], engine => ([], engine)
  | _ :: rest, engine =>
    let drawn := generator min max engine
    let tail := PopulateWithRandomIntegralDataWithBounds.draw generator t min max rest drawn.2
    (t.static_cast drawn.1 :: tail.1, tail.2)

/-- `PopulateWithRandomIntegralDataWithBounds<IntT>` (test_utils.cc:281-300)
for the types of `IntegralType`.  The literal is the list of its elements;
`generator min max engine` is one call of a
`std::uniform_int_distribution(min, max)` on the engine and `shuffle` is
`std::shuffle`, both returning the engine after the call.  A distribution
built with `max < min` breaks the precondition of the standard library: the
call has no defined result (`none`).  `std::iota` counts in `int` from `0`;
the count is taken below `2 ^ 31`. -/
def PopulateWithRandomIntegralDataWithBounds
    (generator : Int → Int → E → Int × E) (shuffle : List Int → E → List Int × E)
    (t : IntegralType) (literal : List Int) (engine : E) (no_duplicates : Bool)
    (min max : Int) : Option (List Int × E) :=
  if no_duplicates ∧ (literal.length : Int) < max then
    some (shuffle
      ((List.range literal.length).map (fun i : Nat => t.static_cast (i : Int))) engine)
  else if max < min then
    none
  else
    some (PopulateWithRandomIntegralDataWithBounds.draw generator t min max literal engine)

end IntegralDataCode

/-- The opcodes that the embedded part of test_utils.cc names; `other k`
stands for the remaining values of the enum `HloOpcode`, which is declared in
a header that is not at hand. -/
inductive HloOpcode where
  | kAdd
  | kMultiply
  | kParameter
  | kDynamicSlice
  | kDynamicUpdateSlice
  | kGather
  | kScatter
  | kReduce
  | kReduceWindow
  | kSelectAndScatter
  | kSort
  | other (k : Nat)
  deriving DecidableEq, Repr

/-- `enum class ConstantType` (test_utils.cc:584). -/
inductive ConstantType where
  | kUnknown
  | kZero
  | kOne
  deriving DecidableEq, Repr

/-- What `GetInitValue` reads of an `HloComputation`: the number of
parameters, the opcode of the root, and for each operand of the root its
identity (the pointer) and its opcode. -/
structure HloComputation where
  num_parameters : Nat
  root_opcode : HloOpcode
  root_operands : List (Nat × HloOpcode)
  deriving DecidableEq, Repr

/-- `GetInitValue` (test_utils.cc:587-605). -/
def GetInitValue (computation : HloComputation) : ConstantType :=
  match computation.root_operands with
  | [operand0, operand1] =>
    if computation.num_parameters ≠ 2 ∨ operand0.2 ≠ HloOpcode.kParameter ∨
        operand1.2 ≠ HloOpcode.kParameter ∨ operand0.1 = operand1.1 then
      ConstantType.kUnknown
    else
      match computation.root_opcode with
      | HloOpcode.kAdd => ConstantType.kZero
      | HloOpcode.kMultiply => ConstantType.kOne
      | _ => ConstantType.kUnknown
  | _ => ConstantType.kUnknown

/-- What `CreateLiteralForConstrainedUses` reads of a constrained use.
`index_operands` lists, for a dynamic (update) slice, the operands from
`first_index_operand_number()` on: whether the operand is `&param`, and the
dimensions `GetDimension(indexed_shape, k)` and `GetDimension(slice_shape, k)`
at its position `k`.  `index_map_dimensions` lists, for a gather or scatter,
`operand_shape.dimensions(dim_in_operand)` for each entry of the index map.
`to_apply` and `scatter` are the computations of a reduction. -/
structure HloInstruction where
  opcode : HloOpcode
  index_operands : List (Bool × Int × Int)
  index_map_dimensions : List Int
  indices_are_sorted : Bool
  to_apply : HloComputation
  scatter : HloComputation
  ToString : String
  deriving DecidableEq, Repr

/-- `INT64_MAX`. -/
def INT64_MAX : Int := 9223372036854775807

/-- The local variables of `CreateLiteralForConstrainedUses` that its loop
updates. -/
structure ConstraintState where
  index_bound : Int
  no_duplicates : Bool
  needs_constant : Bool
  needs_sorted_indices : Bool
  constant_type : ConstantType
  deriving DecidableEq, Repr

/-- The body of the loop over `constrained_uses`
(test_utils.cc:743-803): the switch on the opcode of the use; the default
case returns `Unimplemented`. -/
def CreateLiteralForConstrainedUses.step (state : ConstraintState) (use : HloInstruction) :
    Except Status ConstraintState :=
  match use.opcode with
  | HloOpcode.kDynamicSlice | HloOpcode.kDynamicUpdateSlice =>
    Except.ok { state with
      index_bound := use.index_operands.foldl
        (fun bound operand =>
          if operand.1 then min bound (operand.2.1 - operand.2.2) else bound)
        state.index_bound }
  | HloOpcode.kGather | HloOpcode.kScatter =>
    Except.ok { state with
      index_bound := use.index_map_dimensions.foldl
        (fun bound dimension => min bound (dimension - 1)) state.index_bound
      needs_sorted_indices := state.needs_sorted_indices || use.indices_are_sorted }
  | HloOpcode.kReduce | HloOpcode.kReduceWindow =>
    Except.ok { state with
      needs_constant := true
      constant_type := GetInitValue use.to_apply }
  | HloOpcode.kSelectAndScatter =>
    Except.ok { state with
      needs_constant := true
      constant_type := GetInitValue use.scatter }
  | HloOpcode.kSort => Except.ok { state with no_duplicates := true }
  | _ =>
    Except.error (Unimplemented
      ("Constrained operand generation not implemented for " ++ use.ToString ++ "."))

/-- The loop over `constrained_uses`, left at the first `return`. -/
def CreateLiteralForConstrainedUses.loop (state : ConstraintState) :
    List HloInstruction → Except Status ConstraintState
  | [] => Except.ok state
  | use :: rest =>
    match CreateLiteralForConstrainedUses.step state use with
    | Except.error status => Except.error status
    | Except.ok state1 => CreateLiteralForConstrainedUses.loop state1 rest

section ConstrainedUsesCode

variable {Shape PrimitiveType Literal E : Type}

/-- `CreateLiteralForConstrainedUses` (test_utils.cc:733-836).  The literal
generators are parameters, with the engine threaded through the one that
draws from it: `MakeFakeLiteralInternal shape engine limit is_sorted
no_duplicates use_large_range`, `LiteralUtil::Zero` and `LiteralUtil::One` on
`param_shape.element_type()`.  The result pairs the returned `StatusOr` with
the engine as the call leaves it. -/
def CreateLiteralForConstrainedUses
    (MakeFakeLiteralInternal :
      Shape → E → Option (Int × Int) → Bool → Bool → Bool → StatusOr Literal × E)
    (Zero One : PrimitiveType → Literal) (element_type : Shape → PrimitiveType)
    (constrained_uses : List HloInstruction) (param_shape : Shape) (engine : E)
    (use_large_range : Bool) : StatusOr Literal × E :=
  match CreateLiteralForConstrainedUses.loop
      { index_bound := INT64_MAX, no_duplicates := false, needs_constant := false,
        needs_sorted_indices := false, constant_type := ConstantType.kUnknown }
      constrained_uses with
  | Except.error status => (Except.error status, engine)
  | Except.ok state =>
    let constraint_count : Nat :=
      (if state.no_duplicates then 1 else 0) +
      (if state.index_bound ≠ INT64_MAX then 1 else 0) +
      (if state.needs_constant then 1 else 0)
    if constraint_count > 1 then
      (Except.error (Unimplemented "Conflicting operand generation constraints."), engine)
    else if state.index_bound ≠ INT64_MAX then
      MakeFakeLiteralInternal param_shape engine (some (0, state.index_bound))
        state.needs_sorted_indices state.no_duplicates use_large_range
    else if state.needs_constant then
      match state.constant_type with
      | ConstantType.kZero => (Except.ok (Zero (element_type param_shape)), engine)
      | ConstantType.kOne => (Except.ok (One (element_type param_shape)), engine)
      | ConstantType.kUnknown =>
        MakeFakeLiteralInternal param_shape engine none state.needs_sorted_indices false
          use_large_range
    else
      MakeFakeLiteralInternal param_shape engine none state.needs_sorted_indices
        state.no_duplicates use_large_range

end ConstrainedUsesCode

/-! ## Lemmas on the flattening -/

section FlattenLemmas

variable {P : Type}

theorem Flatten_of_not_tuple (s : OpSharding P) (h : s.type ≠ OpSharding_Type.TUPLE) :
    Flatten s = [s] := by
  cases s with
  | mk t p cs =>
    have ht : t ≠ OpSharding_Type.TUPLE := h
    simp [Flatten, ht]

theorem Flatten_children_eq_flatten (cs : List (OpSharding P)) :
    Flatten.children cs = (cs.map Flatten).flatten := by
  induction cs with
  | nil => simp [Flatten.children]
  | cons c rest ih => simp [Flatten.children, ih]

theorem Flatten_of_tuple (s : OpSharding P) (h : s.type = OpSharding_Type.TUPLE) :
    Flatten s = (s.tuple_shardings.map Flatten).flatten := by
  cases s with
  | mk t p cs =>
    have ht : t = OpSharding_Type.TUPLE := h
    simp [Flatten, ht, OpSharding.tuple_shardings, Flatten_children_eq_flatten]

mutual

theorem GetOpSharding_append_Flatten :
    ∀ (s : OpSharding P) (out : List (OpSharding P)), GetOpSharding out s = out ++ Flatten s
  | OpSharding.mk t p cs, out => by
    by_cases ht : t = OpSharding_Type.TUPLE
    · simp [GetOpSharding, Flatten, ht, GetOpSharding_loop_append_Flatten cs out]
    · simp [GetOpSharding, Flatten, ht]

theorem GetOpSharding_loop_append_Flatten :
    ∀ (cs : List (OpSharding P)) (out : List (OpSharding P)),
      GetOpSharding.loop out cs = out ++ Flatten.children cs
  | [], out => by simp [GetOpSharding.loop, Flatten.children]
  | c :: rest, out => by
    simp [GetOpSharding.loop, Flatten.children, GetOpSharding_append_Flatten c out,
      GetOpSharding_loop_append_Flatten rest (out ++ Flatten c)]

end

mutual

theorem Flatten_not_tuple :
    ∀ (s : OpSharding P), ∀ x ∈ Flatten s, x.type ≠ OpSharding_Type.TUPLE
  | OpSharding.mk t p cs => by
    by_cases ht : t = OpSharding_Type.TUPLE
    · simpa [Flatten, ht] using Flatten_children_not_tuple cs
    · simp [Flatten, ht, OpSharding.type]

theorem Flatten_children_not_tuple :
    ∀ (cs : List (OpSharding P)), ∀ x ∈ Flatten.children cs, x.type ≠ OpSharding_Type.TUPLE
  | [] => by simp [Flatten.children]
  | c :: rest => by
    intro x hx
    simp only [Flatten.children, List.mem_append] at hx
    rcases hx with hx | hx
    · exact Flatten_not_tuple c x hx
    · exact Flatten_children_not_tuple rest x hx

end

mutual

theorem Flatten_length : ∀ (s : OpSharding P), (Flatten s).length = s.leafCount
  | OpSharding.mk t p cs => by
    by_cases ht : t = OpSharding_Type.TUPLE
    · simpa [Flatten, OpSharding.leafCount, ht] using Flatten_children_length cs
    · simp [Flatten, OpSharding.leafCount, ht]

theorem Flatten_children_length :
    ∀ (cs : List (OpSharding P)), (Flatten.children cs).length = OpSharding.leafCount.children cs
  | [] => by simp [Flatten.children, OpSharding.leafCount.children]
  | c :: rest => by
    simp [Flatten.children, OpSharding.leafCount.children, Flatten_length c,
      Flatten_children_length rest]

end

mutual

theorem Flatten_eq_filter_nodes :
    ∀ (s : OpSharding P),
      Flatten s = s.nodes.filter (fun x => decide (x.type ≠ OpSharding_Type.TUPLE))
  | OpSharding.mk t p cs => by
    by_cases ht : t = OpSharding_Type.TUPLE
    · simpa [Flatten, OpSharding.nodes, OpSharding.type, ht] using
        Flatten_children_eq_filter_nodes cs
    · simp [Flatten, OpSharding.nodes, OpSharding.type, ht]

theorem Flatten_children_eq_filter_nodes :
    ∀ (cs : List (OpSharding P)),
      Flatten.children cs =
        (OpSharding.nodes.children cs).filter (fun x => decide (x.type ≠ OpSharding_Type.TUPLE))
  | [] => by simp [Flatten.children, OpSharding.nodes.children]
  | c :: rest => by
    simp [Flatten.children, OpSharding.nodes.children, Flatten_eq_filter_nodes c,
      Flatten_children_eq_filter_nodes rest]

end

theorem OpSharding.depth_pos (s : OpSharding P) : 0 < s.depth := by
  cases s with
  | mk t p cs => by_cases ht : t = OpSharding_Type.TUPLE <;> simp [OpSharding.depth, ht]

theorem OpSharding.depth_le_children (cs : List (OpSharding P)) :
    ∀ c ∈ cs, c.depth ≤ OpSharding.depth.children cs := by
  induction cs with
  | nil => simp
  | cons d rest ih =>
    intro c hc
    simp only [OpSharding.depth.children]
    rcases List.mem_cons.mp hc with h | h
    · subst h; exact le_max_left _ _
    · exact le_trans (ih c h) (le_max_right _ _)

theorem GetOpShardingFuel_loop_eq
    (body : List (OpSharding P) → OpSharding P → Option (List (OpSharding P)))
    (cs : List (OpSharding P))
    (h : ∀ c ∈ cs, ∀ out, body out c = some (GetOpSharding out c)) :
    ∀ out, GetOpShardingFuel.loop body out cs = some (GetOpSharding.loop out cs) := by
  induction cs with
  | nil => intro out; simp [GetOpShardingFuel.loop, GetOpSharding.loop]
  | cons c rest ih =>
    intro out
    have hrest : ∀ d ∈ rest, ∀ o, body o d = some (GetOpSharding o d) :=
      fun d hd => h d (List.mem_cons_of_mem c hd)
    simp [GetOpShardingFuel.loop, GetOpSharding.loop, h c (List.mem_cons_self c rest) out,
      ih hrest]

theorem GetOpShardingFuel_eq_of_depth_le :
    ∀ (fuel : Nat) (s : OpSharding P) (out : List (OpSharding P)),
      s.depth ≤ fuel → GetOpShardingFuel fuel out s = some (GetOpSharding out s) := by
  intro fuel
  induction fuel with
  | zero =>
    intro s out h
    have := OpSharding.depth_pos s
    omega
  | succ n ih =>
    intro s out h
    cases s with
    | mk t p cs =>
      by_cases ht : t = OpSharding_Type.TUPLE
      · have hd : OpSharding.depth.children cs ≤ n := by
          simp [OpSharding.depth, ht] at h
          exact h
        have hbody : ∀ c ∈ cs, ∀ o, GetOpShardingFuel n o c = some (GetOpSharding o c) :=
          fun c hc o => ih c o (le_trans (OpSharding.depth_le_children cs c hc) hd)
        simp [GetOpShardingFuel, GetOpSharding, OpSharding.type, OpSharding.tuple_shardings, ht,
          GetOpShardingFuel_loop_eq (GetOpShardingFuel n) cs hbody out]
      · simp [GetOpShardingFuel, GetOpSharding, OpSharding.type, ht]

end FlattenLemmas

/-! ## Claims on CompileOptions -/

section CompileOptionsClaims

variable {Shape ShapeProto EBO EBOProto MSC : Type}

theorem map_roundtrip (shapeToProto : Shape → ShapeProto) (shapeFromProto : ShapeProto → Shape)
    (layouts : List Shape) (h : ∀ l ∈ layouts, shapeFromProto (shapeToProto l) = l) :
    (layouts.map shapeToProto).map shapeFromProto = layouts := by
  induction layouts with
  | nil => rfl
  | cons l rest ih =>
    simp only [List.map_cons]
    rw [h l (List.mem_cons_self l rest), ih (fun m hm => h m (List.mem_cons_of_mem l hm))]

/-- A `CompileOptions` with a present but empty `argument_layouts`, over
collaborators that convert without loss (every type its own wire type). -/
def presentEmptyLayouts : CompileOptions Nat Nat Unit :=
  { argument_layouts := some []
    parameter_is_tupled_arguments := true
    executable_build_options := 7
    compile_portable_executable := false
    profile_version := 3
    multi_slice_config := none }

/-- C1, as stated, fails: `presentEmptyLayouts` has a null `multi_slice_config`
and its nested build options convert and round-trip, yet
`FromProto(ToProto(x))` is not `x`: the present, empty `argument_layouts`
comes back absent. -/
theorem CompileOptions_roundtrip_present_empty_lost :
    presentEmptyLayouts.multi_slice_config = none ∧
    (Except.ok presentEmptyLayouts.executable_build_options : StatusOr Nat) >>= Except.ok
      = Except.ok presentEmptyLayouts.executable_build_options ∧
    (CompileOptions.ToProto id Except.ok (fun _ => "") presentEmptyLayouts >>=
        CompileOptions.FromProto id Except.ok : StatusOr (CompileOptions Nat Nat Unit))
      = Except.ok { presentEmptyLayouts with argument_layouts := none } ∧
    (CompileOptions.ToProto id Except.ok (fun _ => "") presentEmptyLayouts >>=
        CompileOptions.FromProto id Except.ok : StatusOr (CompileOptions Nat Nat Unit))
      ≠ Except.ok presentEmptyLayouts := by
  refine ⟨rfl, rfl, rfl, ?_⟩
  intro h
  have hrun : (CompileOptions.ToProto id Except.ok (fun _ => "") presentEmptyLayouts >>=
      CompileOptions.FromProto id Except.ok : StatusOr (CompileOptions Nat Nat Unit))
      = Except.ok { presentEmptyLayouts with argument_layouts := none } := rfl
  rw [hrun] at h
  have hfield := congrArg CompileOptions.argument_layouts (Except.ok.inj h)
  exact absurd hfield (by decide)

/-- C1 (amended): for every `CompileOptions` `x` with a null
`multi_slice_config`, whose nested build options convert to `eproto` and
convert back, and whose argument layouts each survive `Shape::ToProto`
followed by `Shape(ShapeProto)`: if `argument_layouts` is absent or non-empty,
`FromProto(ToProto(x))` succeeds and is `x`, field by field; if it is present
and empty, `FromProto(ToProto(x))` succeeds with `argument_layouts` absent and
every other field as in `x`. -/
theorem CompileOptions_roundtrip
    (shapeToProto : Shape → ShapeProto) (shapeFromProto : ShapeProto → Shape)
    (eboToProto : EBO → StatusOr EBOProto) (eboFromProto : EBOProto → StatusOr EBO)
    (serialize : MSC → String)
    (x : CompileOptions Shape EBO MSC) (eproto : EBOProto)
    (hmsc : x.multi_slice_config = none)
    (hto : eboToProto x.executable_build_options = Except.ok eproto)
    (hfrom : eboFromProto eproto = Except.ok x.executable_build_options)
    (hshape : ∀ layouts, x.argument_layouts = some layouts →
      ∀ l ∈ layouts, shapeFromProto (shapeToProto l) = l) :
    (x.argument_layouts ≠ some [] →
      (CompileOptions.ToProto shapeToProto eboToProto serialize x >>=
        CompileOptions.FromProto shapeFromProto eboFromProto) = Except.ok x) ∧
    (x.argument_layouts = some [] →
      (CompileOptions.ToProto shapeToProto eboToProto serialize x >>=
        CompileOptions.FromProto shapeFromProto eboFromProto)
        = Except.ok { x with argument_layouts := none }) := by
  obtain ⟨al, tup, ebo, port, pv, msc⟩ := x
  simp only at hmsc hto hfrom hshape
  subst hmsc
  constructor
  · intro hne
    cases al with
    | none =>
      simp [CompileOptions.ToProto, CompileOptions.FromProto, hto, hfrom, bind, Except.bind,
        pure, Except.pure]
    | some layouts =>
      cases layouts with
      | nil => exact absurd rfl hne
      | cons l rest =>
        have hm := map_roundtrip shapeToProto shapeFromProto (l :: rest) (hshape (l :: rest) rfl)
        simp only [List.map_cons] at hm
        simp [CompileOptions.ToProto, CompileOptions.FromProto, hto, hfrom, bind, Except.bind,
          pure, Except.pure]
        have h2 := (List.cons.inj hm).2
        rw [List.map_map] at h2
        exact ⟨(List.cons.inj hm).1, h2⟩
  · intro he
    simp only at he
    subst he
    simp [CompileOptions.ToProto, CompileOptions.FromProto, hto, hfrom, bind, Except.bind,
      pure, Except.pure]

/-- A `CompileOptions` with two argument layouts, over collaborators whose
wire types differ from the in-memory ones: a shape `n` travels as `n + 1`,
build options `n` travel as the singleton list `[n]`. -/
def twoLayouts : CompileOptions Nat Nat Unit :=
  { argument_layouts := some [4, 5]
    parameter_is_tupled_arguments := false
    executable_build_options := 9
    compile_portable_executable := true
    profile_version := -2
    multi_slice_config := none }

/-- Build options on the wire, for `twoLayouts`: only singleton lists decode. -/
def eboFromList : List Nat → StatusOr Nat
  | [n] => Except.ok n
  | _ => Except.error ⟨StatusCode.kInvalidArgument, "bad build options"⟩

/-- Witness for C1 (amended): the round trip of `twoLayouts`. -/
theorem CompileOptions_roundtrip_witness :
    twoLayouts.multi_slice_config = none ∧
    twoLayouts.argument_layouts ≠ some [] ∧
    (CompileOptions.ToProto (fun n => n + 1) (fun n => Except.ok [n]) (fun _ => "x")
        twoLayouts >>=
      CompileOptions.FromProto (fun n => n - 1) eboFromList) = Except.ok twoLayouts :=
  ⟨rfl, by decide,
    (CompileOptions_roundtrip (fun n => n + 1) (fun n => n - 1) (fun n => Except.ok [n])
      eboFromList (fun _ => "x") twoLayouts [9] rfl rfl rfl
      (by intro layouts _ l _; simp)).1 (by decide)⟩

/-- C2: `CompileOptions::FromProto` on a record whose
`serialized_multi_slice_config` is non-empty fails with `Unimplemented`,
whatever the other fields hold and whatever the nested
`ExecutableBuildOptionsFromProto` would do with the nested record, failure
included. -/
theorem CompileOptions_FromProto_multi_slice_unimplemented
    (shapeFromProto : ShapeProto → Shape) (eboFromProto : EBOProto → StatusOr EBO)
    (proto : CompileOptionsProto ShapeProto EBOProto)
    (h : proto.serialized_multi_slice_config ≠ "") :
    (CompileOptions.FromProto shapeFromProto eboFromProto proto :
        StatusOr (CompileOptions Shape EBO MSC))
      = Except.error ⟨StatusCode.kUnimplemented,
          "multi_slice_config not supported in CompileOptions::FromProto."⟩ := by
  simp [CompileOptions.FromProto, h, Unimplemented]

/-- A wire record with a non-empty multi-slice blob whose nested build
options (`[]`) do not decode with `eboFromList`. -/
def multiSliceRecord : CompileOptionsProto Nat (List Nat) :=
  { argument_layouts := [1, 2]
    parameter_is_tupled_arguments := true
    executable_build_options := []
    compile_portable_executable := false
    profile_version := 0
    serialized_multi_slice_config := "slices" }

/-- Witness for C2: `multiSliceRecord` is rejected with `Unimplemented`, not
with the failure of its nested build options. -/
theorem CompileOptions_FromProto_multi_slice_unimplemented_witness :
    multiSliceRecord.serialized_multi_slice_config ≠ "" ∧
    (∃ status, eboFromList multiSliceRecord.executable_build_options = Except.error status) ∧
    (CompileOptions.FromProto (fun n => n - 1) eboFromList multiSliceRecord :
        StatusOr (CompileOptions Nat Nat Unit))
      = Except.error ⟨StatusCode.kUnimplemented,
          "multi_slice_config not supported in CompileOptions::FromProto."⟩ :=
  ⟨by decide, ⟨_, rfl⟩,
    CompileOptions_FromProto_multi_slice_unimplemented (fun n => n - 1) eboFromList
      multiSliceRecord (by decide)⟩

end CompileOptionsClaims

/-! ## Claims on the flattening -/

section FlattenClaims

variable {P : Type}

/-- Four leaves and the nested tuple `[A, B, [C, D]]` over them, with natural
numbers as payloads. -/
def leafA : OpSharding Nat := OpSharding.mk (OpSharding_Type.NON_TUPLE 0) 1 []

/-- Leaf `B`. -/
def leafB : OpSharding Nat := OpSharding.mk (OpSharding_Type.NON_TUPLE 1) 2 []

/-- Leaf `C`. -/
def leafC : OpSharding Nat := OpSharding.mk (OpSharding_Type.NON_TUPLE 2) 3 []

/-- Leaf `D`. -/
def leafD : OpSharding Nat := OpSharding.mk (OpSharding_Type.NON_TUPLE 3) 4 []

/-- The tuple sharding `[A, B, [C, D]]`. -/
def nestedTuple : OpSharding Nat :=
  OpSharding.mk OpSharding_Type.TUPLE 0
    [leafA, leafB, OpSharding.mk OpSharding_Type.TUPLE 0 [leafC, leafD]]

/-- C3: after `GetOpSharding(out, s)` the vector is the old `out` followed by
`Flatten(s)`, where `Flatten(s)` is `[s]` when `s.type` is not `TUPLE` and the
concatenation of `Flatten(c)` over the children `c` of `s.tuple_shardings`, in
declared order, when it is. -/
theorem GetOpSharding_eq_out_append_Flatten (out : List (OpSharding P)) (s : OpSharding P) :
    GetOpSharding out s = out ++ Flatten s ∧
    (s.type ≠ OpSharding_Type.TUPLE → Flatten s = [s]) ∧
    (s.type = OpSharding_Type.TUPLE → Flatten s = (s.tuple_shardings.map Flatten).flatten) :=
  ⟨GetOpSharding_append_Flatten s out, Flatten_of_not_tuple s, Flatten_of_tuple s⟩

/-- Witness for C3: appending the flattening of `[A, B, [C, D]]` to `[D]`. -/
theorem GetOpSharding_eq_out_append_Flatten_witness :
    nestedTuple.type = OpSharding_Type.TUPLE ∧
    GetOpSharding [leafD] nestedTuple = [leafD] ++ Flatten nestedTuple ∧
    Flatten nestedTuple = (nestedTuple.tuple_shardings.map Flatten).flatten ∧
    leafA.type ≠ OpSharding_Type.TUPLE ∧ Flatten leafA = [leafA] :=
  ⟨rfl, (GetOpSharding_eq_out_append_Flatten [leafD] nestedTuple).1,
    (GetOpSharding_eq_out_append_Flatten [leafD] nestedTuple).2.2 rfl,
    by decide, (GetOpSharding_eq_out_append_Flatten [] leafA).2.1 (by decide)⟩

/-- C4: the flattening that `GetOpSharding` produces for a sharding tree `s`
lists the non-`TUPLE` nodes of the tree, each once, in depth-first
left-to-right order (it is the depth-first node sequence with the `TUPLE`
nodes dropped); none of its elements has type `TUPLE`; its length is the
number of leaves; and for leaves `A`, `B`, `C`, `D` the nested tuple
`[A, B, [C, D]]` flattens to `[A, B, C, D]`. -/
theorem GetOpSharding_lists_leaves (s A B C D : OpSharding P) (p q : P)
    (hA : A.type ≠ OpSharding_Type.TUPLE) (hB : B.type ≠ OpSharding_Type.TUPLE)
    (hC : C.type ≠ OpSharding_Type.TUPLE) (hD : D.type ≠ OpSharding_Type.TUPLE) :
    GetOpSharding [] s = s.nodes.filter (fun x => decide (x.type ≠ OpSharding_Type.TUPLE)) ∧
    (∀ x ∈ GetOpSharding [] s, x.type ≠ OpSharding_Type.TUPLE) ∧
    (GetOpSharding [] s).length = s.leafCount ∧
    GetOpSharding []
        (OpSharding.mk OpSharding_Type.TUPLE p
          [A, B, OpSharding.mk OpSharding_Type.TUPLE q [C, D]])
      = [A, B, C, D] := by
  have hs : GetOpSharding [] s = Flatten s := by
    simpa using GetOpSharding_append_Flatten s []
  refine ⟨?_, ?_, ?_, ?_⟩
  · rw [hs]; exact Flatten_eq_filter_nodes s
  · rw [hs]; exact Flatten_not_tuple s
  · rw [hs]; exact Flatten_length s
  · rw [GetOpSharding_append_Flatten]
    simp [Flatten, Flatten.children, Flatten_of_not_tuple A hA, Flatten_of_not_tuple B hB,
      Flatten_of_not_tuple C hC, Flatten_of_not_tuple D hD]

/-- Witness for C4: the tree `[A, B, [C, D]]` over the four concrete leaves. -/
theorem GetOpSharding_lists_leaves_witness :
    leafA.type ≠ OpSharding_Type.TUPLE ∧ leafB.type ≠ OpSharding_Type.TUPLE ∧
    leafC.type ≠ OpSharding_Type.TUPLE ∧ leafD.type ≠ OpSharding_Type.TUPLE ∧
    (GetOpSharding [] nestedTuple).length = nestedTuple.leafCount ∧
    nestedTuple.leafCount = 4 ∧
    GetOpSharding [] nestedTuple = [leafA, leafB, leafC, leafD] :=
  ⟨by decide, by decide, by decide, by decide,
    (GetOpSharding_lists_leaves nestedTuple leafA leafB leafC leafD 0 0
      (by decide) (by decide) (by decide) (by decide)).2.2.1,
    rfl,
    (GetOpSharding_lists_leaves nestedTuple leafA leafB leafC leafD 0 0
      (by decide) (by decide) (by decide) (by decide)).2.2.2⟩

/-- C5: `GetOpSharding` returns on every sharding tree.  Run with a bound on
the depth of nested calls, it returns as soon as the bound reaches the height
of the tree (each recursive call descends into a child, whose height is
smaller), and what it returns is the value of the total function
`GetOpSharding`, a plain vector: the function has no error result. -/
theorem GetOpSharding_total (fuel : Nat) (out : List (OpSharding P)) (s : OpSharding P)
    (h : s.depth ≤ fuel) :
    GetOpShardingFuel fuel out s = some (GetOpSharding out s) :=
  GetOpShardingFuel_eq_of_depth_le fuel s out h

/-- Witness for C5: the tree `[A, B, [C, D]]` has height 3 and the call
returns with 3 nested frames, not with 2. -/
theorem GetOpSharding_total_witness :
    nestedTuple.depth ≤ 3 ∧
    GetOpShardingFuel 3 [] nestedTuple = some (GetOpSharding [] nestedTuple) ∧
    GetOpShardingFuel 2 [] nestedTuple = none :=
  ⟨by decide, GetOpSharding_total 3 [] nestedTuple (by decide), rfl⟩

end FlattenClaims

/-! ## Claims on the handle queries -/

section HandleClaims

variable {HloSharding Comp P A F V : Type}

theorem GetOpSharding_foldl_eq (toProto : HloSharding → OpSharding P)
    (shardings : List HloSharding) :
    ∀ out : List (OpSharding P),
      shardings.foldl (fun out s => GetOpSharding out (toProto s)) out
        = out ++ (shardings.map (fun s => GetOpSharding [] (toProto s))).flatten := by
  induction shardings with
  | nil => intro out; simp
  | cons s rest ih =>
    intro out
    simp only [List.foldl_cons, List.map_cons, List.flatten_cons]
    rw [ih, GetOpSharding_append_Flatten (toProto s) out,
      GetOpSharding_append_Flatten (toProto s) []]
    simp

/-- A module with an output sharding `[A, B, [C, D]]` and two parameter
shardings; shardings are their own `ToProto` image. -/
def shardedModule : HloModule (OpSharding Nat) Nat :=
  { spmd_output_sharding := some nestedTuple
    spmd_parameters_shardings := some [nestedTuple, leafD]
    entry_computation := 11 }

/-- A module without SPMD annotations. -/
def plainModule : HloModule (OpSharding Nat) Nat :=
  { spmd_output_sharding := none
    spmd_parameters_shardings := none
    entry_computation := 12 }

/-- C6: `GetOutputShardings` returns absent exactly when `GetHloModules`
fails, or returns an empty list, or the first module has no SPMD output
sharding; a handle whose first module has none gets absent, not a present
empty sequence. -/
theorem GetOutputShardings_absent_iff (toProto : HloSharding → OpSharding P)
    (self : PjRtExecutable HloSharding Comp) :
    (self.GetOutputShardings toProto = none ↔
      ((∃ status, self.GetHloModules = Except.error status) ∨
        self.GetHloModules = Except.ok [] ∨
        (∃ module0 rest, self.GetHloModules = Except.ok (module0 :: rest) ∧
          module0.spmd_output_sharding = none))) ∧
    (∀ module0 rest, self.GetHloModules = Except.ok (module0 :: rest) →
      module0.spmd_output_sharding = none →
      self.GetOutputShardings toProto = none ∧ self.GetOutputShardings toProto ≠ some []) := by
  obtain ⟨name, modules⟩ := self
  constructor
  · cases modules with
    | error status => simp [PjRtExecutable.GetOutputShardings]
    | ok ms =>
      cases ms with
      | nil => simp [PjRtExecutable.GetOutputShardings]
      | cons m rest =>
        cases hs : m.spmd_output_sharding with
        | none => simp [PjRtExecutable.GetOutputShardings, hs]
        | some sharding => simp [PjRtExecutable.GetOutputShardings, hs]
  · intro m rest hm hs
    simp only at hm
    subst hm
    simp [PjRtExecutable.GetOutputShardings, hs]

/-- Witness for C6: a handle over `plainModule` followed by `shardedModule`
returns absent; a handle over `shardedModule` alone does not. -/
theorem GetOutputShardings_absent_iff_witness :
    PjRtExecutable.GetOutputShardings id
        (⟨"plain", Except.ok [plainModule, shardedModule]⟩ : PjRtExecutable (OpSharding Nat) Nat)
      = none ∧
    PjRtExecutable.GetOutputShardings id
        (⟨"sharded", Except.ok [shardedModule]⟩ : PjRtExecutable (OpSharding Nat) Nat)
      ≠ none :=
  ⟨((GetOutputShardings_absent_iff id
        (⟨"plain", Except.ok [plainModule, shardedModule]⟩ :
          PjRtExecutable (OpSharding Nat) Nat)).2 plainModule [shardedModule] rfl rfl).1,
    by simp [PjRtExecutable.GetOutputShardings, shardedModule]⟩

/-- C7: when `GetHloModules` succeeds with a non-empty list whose first
module has an SPMD output sharding, `GetOutputShardings` returns present with
the flattening (`GetOpSharding` from the empty vector, equal to `Flatten`) of
that sharding; and two handles whose module lists have the same first module
return equal results, whatever follows it. -/
theorem GetOutputShardings_first_module (toProto : HloSharding → OpSharding P)
    (self : PjRtExecutable HloSharding Comp)
    (module0 : HloModule HloSharding Comp) (rest : List (HloModule HloSharding Comp))
    (sharding : HloSharding)
    (hm : self.GetHloModules = Except.ok (module0 :: rest))
    (hs : module0.spmd_output_sharding = some sharding) :
    self.GetOutputShardings toProto = some (GetOpSharding [] (toProto sharding)) ∧
    self.GetOutputShardings toProto = some (Flatten (toProto sharding)) ∧
    (∀ (other : PjRtExecutable HloSharding Comp) (rest1 : List (HloModule HloSharding Comp)),
      other.GetHloModules = Except.ok (module0 :: rest1) →
      other.GetOutputShardings toProto = self.GetOutputShardings toProto) := by
  obtain ⟨name, modules⟩ := self
  simp only at hm
  subst hm
  have hrun : PjRtExecutable.GetOutputShardings toProto
      (⟨name, Except.ok (module0 :: rest)⟩ : PjRtExecutable HloSharding Comp)
      = some (GetOpSharding [] (toProto sharding)) := by
    simp [PjRtExecutable.GetOutputShardings, hs]
  refine ⟨hrun, ?_, ?_⟩
  · rw [hrun, GetOpSharding_append_Flatten]; simp
  · intro other rest1 ho
    obtain ⟨name1, modules1⟩ := other
    simp only at ho
    subst ho
    rw [hrun]
    simp [PjRtExecutable.GetOutputShardings, hs]

/-- Witness for C7: the handle over `shardedModule` followed by `plainModule`
returns the four leaves of `[A, B, [C, D]]`. -/
theorem GetOutputShardings_first_module_witness :
    shardedModule.spmd_output_sharding = some nestedTuple ∧
    PjRtExecutable.GetOutputShardings id
        (⟨"sharded", Except.ok [shardedModule, plainModule]⟩ :
          PjRtExecutable (OpSharding Nat) Nat)
      = some (GetOpSharding [] nestedTuple) ∧
    GetOpSharding [] nestedTuple = [leafA, leafB, leafC, leafD] :=
  ⟨rfl,
    (GetOutputShardings_first_module id
      (⟨"sharded", Except.ok [shardedModule, plainModule]⟩ :
        PjRtExecutable (OpSharding Nat) Nat)
      shardedModule [plainModule] nestedTuple rfl rfl).1,
    rfl⟩

/-- C8: `GetParameterShardings` mirrors `GetOutputShardings`: it returns
absent exactly when `GetHloModules` fails, or returns an empty list, or the
first module has no SPMD parameter shardings; otherwise it returns the
concatenation, in parameter order, of the flattenings of the first module's
parameter shardings, each flattened on its own. -/
theorem GetParameterShardings_spec (toProto : HloSharding → OpSharding P)
    (self : PjRtExecutable HloSharding Comp) :
    (self.GetParameterShardings toProto = none ↔
      ((∃ status, self.GetHloModules = Except.error status) ∨
        self.GetHloModules = Except.ok [] ∨
        (∃ module0 rest, self.GetHloModules = Except.ok (module0 :: rest) ∧
          module0.spmd_parameters_shardings = none))) ∧
    (∀ module0 rest shardings, self.GetHloModules = Except.ok (module0 :: rest) →
      module0.spmd_parameters_shardings = some shardings →
      self.GetParameterShardings toProto
          = some (shardings.map (fun s => GetOpSharding [] (toProto s))).flatten ∧
      self.GetParameterShardings toProto
          = some (shardings.map (fun s => Flatten (toProto s))).flatten) := by
  obtain ⟨name, modules⟩ := self
  constructor
  · cases modules with
    | error status => simp [PjRtExecutable.GetParameterShardings]
    | ok ms =>
      cases ms with
      | nil => simp [PjRtExecutable.GetParameterShardings]
      | cons m rest =>
        cases hs : m.spmd_parameters_shardings with
        | none => simp [PjRtExecutable.GetParameterShardings, hs]
        | some shardings => simp [PjRtExecutable.GetParameterShardings, hs]
  · intro m rest shardings hm hs
    simp only at hm
    subst hm
    have hrun : PjRtExecutable.GetParameterShardings toProto
        (⟨name, Except.ok (m :: rest)⟩ : PjRtExecutable HloSharding Comp)
        = some (shardings.map (fun s => GetOpSharding [] (toProto s))).flatten := by
      simp [PjRtExecutable.GetParameterShardings, hs, GetOpSharding_foldl_eq]
    refine ⟨hrun, ?_⟩
    rw [hrun]
    have hfun : (fun s => GetOpSharding [] (toProto s)) = fun s => Flatten (toProto s) := by
      funext s
      rw [GetOpSharding_append_Flatten]; simp
    rw [hfun]

/-- Witness for C8: the parameters `[A, B, [C, D]]` and `D` of
`shardedModule` flatten to `A, B, C, D, D`; over `plainModule` the result is
absent. -/
theorem GetParameterShardings_spec_witness :
    PjRtExecutable.GetParameterShardings id
        (⟨"sharded", Except.ok [shardedModule, plainModule]⟩ :
          PjRtExecutable (OpSharding Nat) Nat)
      = some ([nestedTuple, leafD].map (fun s => GetOpSharding [] (id s))).flatten ∧
    ([nestedTuple, leafD].map (fun s => GetOpSharding [] (id s))).flatten
      = [leafA, leafB, leafC, leafD, leafD] ∧
    PjRtExecutable.GetParameterShardings id
        (⟨"plain", Except.ok [plainModule]⟩ : PjRtExecutable (OpSharding Nat) Nat)
      = none :=
  ⟨((GetParameterShardings_spec id
      (⟨"sharded", Except.ok [shardedModule, plainModule]⟩ :
        PjRtExecutable (OpSharding Nat) Nat)).2 shardedModule [plainModule]
        [nestedTuple, leafD] rfl rfl).1,
    rfl, rfl⟩

theorem PjRtExecutable.GetParameterShardings.call_eq {Handle : Type}
    (toProto : HloSharding → OpSharding P)
    (GetHloModules : Handle → StatusOr (List (HloModule HloSharding Comp)) × Handle)
    (handle : Handle) (name : String) :
    PjRtExecutable.GetParameterShardings.call toProto GetHloModules handle
      = (PjRtExecutable.GetParameterShardings toProto
          (⟨name, (GetHloModules handle).1⟩ : PjRtExecutable HloSharding Comp),
         (GetHloModules handle).2) := by
  simp only [PjRtExecutable.GetParameterShardings.call, PjRtExecutable.GetParameterShardings]
  cases (GetHloModules handle).1 with
  | error status => rfl
  | ok ms =>
    cases ms with
    | nil => rfl
    | cons m rest =>
      cases hs : m.spmd_parameters_shardings with
      | none => simp only [hs]
      | some shardings => simp only [hs]

/-- C9: `GetParameterShardings` is read-only on the handle and deterministic.
A call leaves the handle as its one call of `GetHloModules` left it, so that
it leaves the handle untouched when `GetHloModules` does, and it returns the
parameter shardings of the modules that this call of `GetHloModules` returned;
and when the handle is unchanged between two calls, in that `GetHloModules`
returns on the handle left by the first call what it returned during the first
call, the second call returns what the first returned: absent both times, or
present with the same sequence both times. -/
theorem GetParameterShardings_idempotent {Handle : Type}
    (toProto : HloSharding → OpSharding P)
    (GetHloModules : Handle → StatusOr (List (HloModule HloSharding Comp)) × Handle)
    (handle : Handle)
    (hunchanged : (GetHloModules (GetHloModules handle).2).1 = (GetHloModules handle).1) :
    (PjRtExecutable.GetParameterShardings.call toProto GetHloModules
        (PjRtExecutable.GetParameterShardings.call toProto GetHloModules handle).2).1
      = (PjRtExecutable.GetParameterShardings.call toProto GetHloModules handle).1 ∧
    (((PjRtExecutable.GetParameterShardings.call toProto GetHloModules handle).1 = none ∧
        (PjRtExecutable.GetParameterShardings.call toProto GetHloModules
          (PjRtExecutable.GetParameterShardings.call toProto GetHloModules handle).2).1
          = none) ∨
      (∃ out,
        (PjRtExecutable.GetParameterShardings.call toProto GetHloModules handle).1 = some out ∧
        (PjRtExecutable.GetParameterShardings.call toProto GetHloModules
          (PjRtExecutable.GetParameterShardings.call toProto GetHloModules handle).2).1
          = some out)) ∧
    (PjRtExecutable.GetParameterShardings.call toProto GetHloModules handle).2
      = (GetHloModules handle).2 ∧
    (∀ name, (PjRtExecutable.GetParameterShardings.call toProto GetHloModules handle).1
      = PjRtExecutable.GetParameterShardings toProto
          (⟨name, (GetHloModules handle).1⟩ : PjRtExecutable HloSharding Comp)) ∧
    ((∀ h, (GetHloModules h).2 = h) →
      (PjRtExecutable.GetParameterShardings.call toProto GetHloModules handle).2 = handle ∧
      (PjRtExecutable.GetParameterShardings.call toProto GetHloModules
        (PjRtExecutable.GetParameterShardings.call toProto GetHloModules handle).2).2
        = handle) := by
  have hstate : (PjRtExecutable.GetParameterShardings.call toProto GetHloModules handle).2
      = (GetHloModules handle).2 := by
    rw [PjRtExecutable.GetParameterShardings.call_eq toProto GetHloModules handle ""]
  have heq : (PjRtExecutable.GetParameterShardings.call toProto GetHloModules
        (PjRtExecutable.GetParameterShardings.call toProto GetHloModules handle).2).1
      = (PjRtExecutable.GetParameterShardings.call toProto GetHloModules handle).1 := by
    rw [hstate, PjRtExecutable.GetParameterShardings.call_eq toProto GetHloModules _ "",
      PjRtExecutable.GetParameterShardings.call_eq toProto GetHloModules handle "", hunchanged]
  refine ⟨heq, ?_, hstate, ?_, ?_⟩
  · cases hr : (PjRtExecutable.GetParameterShardings.call toProto GetHloModules handle).1 with
    | none => left; exact ⟨rfl, heq.trans hr⟩
    | some out => right; exact ⟨out, rfl, heq.trans hr⟩
  · intro name
    rw [PjRtExecutable.GetParameterShardings.call_eq toProto GetHloModules handle name]
  · intro hconst
    have h1 : (PjRtExecutable.GetParameterShardings.call toProto GetHloModules handle).2
        = handle := hstate.trans (hconst handle)
    refine ⟨h1, ?_⟩
    rw [h1]
    exact h1

/-- A handle that counts in a `mutable` member how many times its
`GetHloModules` was called and always returns `shardedModule`. -/
def countingGetHloModules (calls : Nat) :
    StatusOr (List (HloModule (OpSharding Nat) Nat)) × Nat :=
  (Except.ok [shardedModule], calls + 1)

/-- A handle that is changed between calls: it gives `shardedModule` up on its
first call of `GetHloModules` and has no module afterwards. -/
def releasingGetHloModules (calls : Nat) :
    StatusOr (List (HloModule (OpSharding Nat) Nat)) × Nat :=
  (if calls = 0 then Except.ok [shardedModule] else Except.ok [], calls + 1)

/-- Witness for C9: on the counting handle the first call returns the five
leaves and leaves the count at one, so the handle as `GetHloModules` left it,
and the second call returns the same; on the handle that changes between the
calls, which the hypothesis excludes, the second call returns absent. -/
theorem GetParameterShardings_idempotent_witness :
    (countingGetHloModules (countingGetHloModules 0).2).1 = (countingGetHloModules 0).1 ∧
    (PjRtExecutable.GetParameterShardings.call id countingGetHloModules
        (PjRtExecutable.GetParameterShardings.call id countingGetHloModules 0).2).1
      = (PjRtExecutable.GetParameterShardings.call id countingGetHloModules 0).1 ∧
    PjRtExecutable.GetParameterShardings.call id countingGetHloModules 0
      = (some [leafA, leafB, leafC, leafD, leafD], 1) ∧
    PjRtExecutable.GetParameterShardings.call id releasingGetHloModules 0
      = (some [leafA, leafB, leafC, leafD, leafD], 1) ∧
    PjRtExecutable.GetParameterShardings.call id releasingGetHloModules 1 = (none, 2) :=
  ⟨rfl, (GetParameterShardings_idempotent id countingGetHloModules 0 rfl).1, rfl, rfl, rfl⟩

/-- An analyzer that only counts how many times it was run: its state is the
count, every traversal succeeds and adds one. -/
def countingAccept (_computation : Nat) (runs : Nat) : Except Status Unit × Nat :=
  (Except.ok (), runs + 1)

/-- The counting analyzer reports its count as the single property `runs`. -/
def countingForEach (runs : Nat) : List (String × Nat) := [("runs", runs)]

/-- C10: when `GetHloModules` succeeds with an empty list,
`RunHloCostAnalysis` fails with `NotFound` and leaves the analyzer as it was,
whatever the traversal `Accept` would do: the analyzer is not run. -/
theorem RunHloCostAnalysis_not_found
    (Accept : Comp → A → Except Status Unit × A) (ForEach : A → List (String × F))
    (ofFloat : F → V)
    (executable : PjRtExecutable HloSharding Comp) (hlo_cost_analysis : A)
    (h : executable.GetHloModules = Except.ok []) :
    PjRtExecutableUtil.RunHloCostAnalysis Accept ForEach ofFloat executable hlo_cost_analysis
      = (Except.error ⟨StatusCode.kNotFound,
          "Executable '" ++ executable.name ++
            "' did not have an HloModule to generate cost analysis with."⟩,
         hlo_cost_analysis) := by
  simp [PjRtExecutableUtil.RunHloCostAnalysis, h, NotFound]

/-- Witness for C10: on a handle without modules the counting analyzer still
shows zero runs after the call, and the call fails with `NotFound`; on a
handle with one module it shows one run. -/
theorem RunHloCostAnalysis_not_found_witness :
    PjRtExecutableUtil.RunHloCostAnalysis countingAccept countingForEach Int.ofNat
        (⟨"empty", Except.ok []⟩ : PjRtExecutable (OpSharding Nat) Nat) 0
      = (Except.error ⟨StatusCode.kNotFound,
          "Executable 'empty' did not have an HloModule to generate cost analysis with."⟩,
         0) ∧
    (PjRtExecutableUtil.RunHloCostAnalysis countingAccept countingForEach Int.ofNat
        (⟨"one", Except.ok [plainModule]⟩ : PjRtExecutable (OpSharding Nat) Nat) 0).2 = 1 :=
  ⟨RunHloCostAnalysis_not_found countingAccept countingForEach Int.ofNat
      (⟨"empty", Except.ok []⟩ : PjRtExecutable (OpSharding Nat) Nat) 0 rfl,
    rfl⟩

end HandleClaims

/-! ## Claims on cost analysis -/

section CostAnalysisClaims

variable {HloSharding Comp A F V : Type}

theorem flat_hash_map.find_assign (ret : List (String × V)) (key : String) (val : V)
    (k : String) :
    flat_hash_map.find (flat_hash_map.assign ret key val) k
      = if key = k then some val else flat_hash_map.find ret k := by
  induction ret with
  | nil => simp [flat_hash_map.assign, flat_hash_map.find]
  | cons e rest ih =>
    obtain ⟨k0, v0⟩ := e
    by_cases h0 : k0 = key
    · subst h0
      by_cases h1 : k0 = k <;> simp [flat_hash_map.assign, flat_hash_map.find, h1]
    · by_cases h1 : k0 = k
      · subst h1
        have h2 : ¬ key = k0 := fun h => h0 h.symm
        simp [flat_hash_map.assign, flat_hash_map.find, h0, h2]
      · simp [flat_hash_map.assign, flat_hash_map.find, h0, h1, ih]

theorem flat_hash_map.keys_assign (ret : List (String × V)) (key : String) (val : V) :
    (flat_hash_map.assign ret key val).map Prod.fst
      = if key ∈ ret.map Prod.fst then ret.map Prod.fst else ret.map Prod.fst ++ [key] := by
  induction ret with
  | nil => simp [flat_hash_map.assign]
  | cons e rest ih =>
    obtain ⟨k0, v0⟩ := e
    by_cases h0 : k0 = key
    · subst h0
      simp [flat_hash_map.assign]
    · have h2 : ¬ key = k0 := fun h => h0 h.symm
      by_cases hm : key ∈ rest.map Prod.fst
      · simp only [flat_hash_map.assign, h0, if_false, List.map_cons, ih, hm, if_true,
          List.mem_cons, or_true]
      · simp only [flat_hash_map.assign, h0, if_false, List.map_cons, ih, hm,
          List.mem_cons, h2, or_self, List.cons_append]

theorem flat_hash_map.nodup_keys_assign (ret : List (String × V)) (key : String) (val : V)
    (h : (ret.map Prod.fst).Nodup) :
    ((flat_hash_map.assign ret key val).map Prod.fst).Nodup := by
  rw [flat_hash_map.keys_assign]
  by_cases hm : key ∈ ret.map Prod.fst
  · simpa [hm] using h
  · simp only [hm, if_false]
    exact List.Nodup.append h (List.nodup_singleton key) (by simpa using hm)

theorem flat_hash_map.mem_keys_assign (ret : List (String × V)) (key : String) (val : V)
    (k : String) :
    k ∈ (flat_hash_map.assign ret key val).map Prod.fst ↔ k ∈ ret.map Prod.fst ∨ k = key := by
  rw [flat_hash_map.keys_assign]
  by_cases hm : key ∈ ret.map Prod.fst
  · simp only [hm, if_true]
    constructor
    · intro h; exact Or.inl h
    · rintro (h | h)
      · exact h
      · subst h; exact hm
  · simp [hm]

theorem foldl_assign_spec (ofFloat : F → V) (calls : List (String × F)) :
    ∀ init : List (String × V), (init.map Prod.fst).Nodup →
      ((calls.foldl (fun ret kv => flat_hash_map.assign ret kv.1 (ofFloat kv.2)) init).map
          Prod.fst).Nodup ∧
      (∀ k, k ∈ (calls.foldl (fun ret kv => flat_hash_map.assign ret kv.1 (ofFloat kv.2))
            init).map Prod.fst ↔ k ∈ init.map Prod.fst ∨ k ∈ calls.map Prod.fst) ∧
      (∀ k, flat_hash_map.find
          (calls.foldl (fun ret kv => flat_hash_map.assign ret kv.1 (ofFloat kv.2)) init) k
        = match lastRecorded calls k with
          | some v => some (ofFloat v)
          | none => flat_hash_map.find init k) := by
  induction calls with
  | nil => intro init h; simp [lastRecorded, h]
  | cons c rest ih =>
    intro init h
    obtain ⟨k0, v0⟩ := c
    obtain ⟨h1, h2, h3⟩ := ih (flat_hash_map.assign init k0 (ofFloat v0))
      (flat_hash_map.nodup_keys_assign init k0 (ofFloat v0) h)
    refine ⟨h1, ?_, ?_⟩
    · intro k
      simp only [List.foldl_cons, h2, flat_hash_map.mem_keys_assign, List.map_cons,
        List.mem_cons]
      tauto
    · intro k
      simp only [List.foldl_cons, h3, lastRecorded]
      cases lastRecorded rest k with
      | some w => rfl
      | none =>
        simp only [flat_hash_map.find_assign]
        by_cases hk : k0 = k <;> simp [hk]

theorem lastRecorded_eq_none_iff (calls : List (String × F)) (key : String) :
    lastRecorded calls key = none ↔ key ∉ calls.map Prod.fst := by
  induction calls with
  | nil => simp [lastRecorded]
  | cons c rest ih =>
    obtain ⟨k0, v0⟩ := c
    simp only [lastRecorded, List.map_cons, List.mem_cons, not_or]
    cases hr : lastRecorded rest key with
    | some w =>
      have : ¬ (key ∉ rest.map Prod.fst) := fun hn => by
        rw [ih.mpr hn] at hr; cases hr
      constructor
      · intro h; simp at h
      · rintro ⟨_, hn⟩; exact absurd hn this
    | none =>
      have hn : key ∉ rest.map Prod.fst := ih.mp hr
      by_cases hk : k0 = key
      · subst hk; simp
      · have hk2 : ¬ key = k0 := fun h => hk h.symm
        simp [hk, hk2, hn]

theorem lastRecorded_of_mem (calls : List (String × F))
    (hnodup : (calls.map Prod.fst).Nodup) (key : String) (val : F)
    (hmem : (key, val) ∈ calls) :
    lastRecorded calls key = some val := by
  induction calls with
  | nil => cases hmem
  | cons c rest ih =>
    obtain ⟨k0, v0⟩ := c
    simp only [List.map_cons, List.nodup_cons] at hnodup
    rcases List.mem_cons.mp hmem with h | h
    · cases h
      have hr : lastRecorded rest key = none :=
        (lastRecorded_eq_none_iff rest key).mpr hnodup.1
      simp [lastRecorded, hr]
    · simp [lastRecorded, ih hnodup.2 h]

/-- Two modules for the cost-analysis examples, told apart by their entry
computations. -/
def moduleA : HloModule (OpSharding Nat) Nat :=
  { spmd_output_sharding := none, spmd_parameters_shardings := none, entry_computation := 5 }

/-- The second module. -/
def moduleB : HloModule (OpSharding Nat) Nat :=
  { spmd_output_sharding := none, spmd_parameters_shardings := none, entry_computation := 6 }

/-- C11: when `GetHloModules` succeeds with two or more modules,
`RunHloCostAnalysis` fails with `Unimplemented` and leaves the analyzer as it
was, whatever the traversal `Accept` would do on any of the modules: the
analyzer is not run. -/
theorem RunHloCostAnalysis_unimplemented
    (Accept : Comp → A → Except Status Unit × A) (ForEach : A → List (String × F))
    (ofFloat : F → V)
    (executable : PjRtExecutable HloSharding Comp) (hlo_cost_analysis : A)
    (modules : List (HloModule HloSharding Comp))
    (h : executable.GetHloModules = Except.ok modules) (hlen : 2 ≤ modules.length) :
    PjRtExecutableUtil.RunHloCostAnalysis Accept ForEach ofFloat executable hlo_cost_analysis
      = (Except.error ⟨StatusCode.kUnimplemented,
          "GetCostAnalysis() doesn't support multiple program multiple data executables."⟩,
         hlo_cost_analysis) := by
  cases modules with
  | nil => simp at hlen
  | cons m rest =>
    have hgt : (m :: rest).length > 1 := hlen
    simp only [PjRtExecutableUtil.RunHloCostAnalysis, h, hgt, if_true, Unimplemented]

/-- Witness for C11: on a handle with two modules the counting analyzer shows
zero runs after the call, and the call fails with `Unimplemented`. -/
theorem RunHloCostAnalysis_unimplemented_witness :
    2 ≤ [moduleA, moduleB].length ∧
    PjRtExecutableUtil.RunHloCostAnalysis countingAccept countingForEach Int.ofNat
        (⟨"two", Except.ok [moduleA, moduleB]⟩ : PjRtExecutable (OpSharding Nat) Nat) 0
      = (Except.error ⟨StatusCode.kUnimplemented,
          "GetCostAnalysis() doesn't support multiple program multiple data executables."⟩,
         0) :=
  ⟨by decide,
    RunHloCostAnalysis_unimplemented countingAccept countingForEach Int.ofNat
      (⟨"two", Except.ok [moduleA, moduleB]⟩ : PjRtExecutable (OpSharding Nat) Nat) 0
      [moduleA, moduleB] rfl (by decide)⟩

/-- An analyzer whose state is the list of properties recorded so far: the
traversal of computation `0` fails, the traversal of any other computation `c`
records `flops = c` and `bytes accessed = 2 * c`. -/
def recordingAccept (computation : Nat) (recorded : List (String × Nat)) :
    Except Status Unit × List (String × Nat) :=
  if computation = 0 then
    (Except.error ⟨StatusCode.kInternal, "empty computation"⟩, recorded)
  else
    (Except.ok (), recorded ++ [("flops", computation), ("bytes accessed", 2 * computation)])

/-- C12: on a handle with exactly one module, `RunHloCostAnalysis` runs the
analyzer over that module's entry computation and leaves the analyzer as the
traversal left it.  If the traversal fails, its status is returned unchanged.
If it succeeds, the call succeeds with a mapping whose keys are pairwise
distinct and are exactly the property names that the analyzer's `ForEach`
enumerates, each mapped to the value recorded for it (the last one, should a
name be enumerated more than once; the one recorded, when every name is
enumerated once). -/
theorem RunHloCostAnalysis_single_module
    (Accept : Comp → A → Except Status Unit × A) (ForEach : A → List (String × F))
    (ofFloat : F → V)
    (executable : PjRtExecutable HloSharding Comp) (hlo_cost_analysis : A)
    (module0 : HloModule HloSharding Comp)
    (h : executable.GetHloModules = Except.ok [module0]) :
    (PjRtExecutableUtil.RunHloCostAnalysis Accept ForEach ofFloat executable
        hlo_cost_analysis).2 = (Accept module0.entry_computation hlo_cost_analysis).2 ∧
    (∀ status, (Accept module0.entry_computation hlo_cost_analysis).1 = Except.error status →
      (PjRtExecutableUtil.RunHloCostAnalysis Accept ForEach ofFloat executable
        hlo_cost_analysis).1 = Except.error status) ∧
    ((Accept module0.entry_computation hlo_cost_analysis).1 = Except.ok () →
      ∃ ret : List (String × V),
        (PjRtExecutableUtil.RunHloCostAnalysis Accept ForEach ofFloat executable
          hlo_cost_analysis).1 = Except.ok ret ∧
        (ret.map Prod.fst).Nodup ∧
        (∀ key, key ∈ ret.map Prod.fst ↔
          key ∈ (ForEach (Accept module0.entry_computation hlo_cost_analysis).2).map Prod.fst) ∧
        (∀ key, flat_hash_map.find ret key =
          (lastRecorded (ForEach (Accept module0.entry_computation hlo_cost_analysis).2)
            key).map ofFloat) ∧
        (((ForEach (Accept module0.entry_computation hlo_cost_analysis).2).map
            Prod.fst).Nodup →
          ∀ key val,
            (key, val) ∈ ForEach (Accept module0.entry_computation hlo_cost_analysis).2 →
            flat_hash_map.find ret key = some (ofFloat val))) := by
  cases hacc : Accept module0.entry_computation hlo_cost_analysis with
  | mk result analysis =>
    cases result with
    | error status =>
      refine ⟨?_, ?_, ?_⟩
      · simp [PjRtExecutableUtil.RunHloCostAnalysis, h, hacc]
      · intro status1 hs
        have hst : status = status1 := Except.error.inj hs
        simp [PjRtExecutableUtil.RunHloCostAnalysis, h, hacc, hst]
      · intro hok; simp at hok
    | ok u =>
      obtain ⟨h1, h2, h3⟩ := foldl_assign_spec ofFloat (ForEach analysis) []
        (by simp : (([] : List (String × V)).map Prod.fst).Nodup)
      refine ⟨?_, ?_, ?_⟩
      · simp [PjRtExecutableUtil.RunHloCostAnalysis, h, hacc]
      · intro status1 hs; simp at hs
      · intro _
        refine ⟨(ForEach analysis).foldl
          (fun ret kv => flat_hash_map.assign ret kv.1 (ofFloat kv.2)) [], ?_, h1, ?_, ?_, ?_⟩
        · simp [PjRtExecutableUtil.RunHloCostAnalysis, h, hacc]
        · intro key; simpa using h2 key
        · intro key
          rw [h3 key]
          cases lastRecorded (ForEach analysis) key <;> simp [flat_hash_map.find]
        · intro hnodup key val hmem
          rw [h3 key, lastRecorded_of_mem (ForEach analysis) hnodup key val hmem]

/-- Witness for C12: over the single module `moduleA` (entry computation 5)
the recording analyzer ends with `flops = 5` and `bytes accessed = 10`, and
the returned mapping holds exactly these two entries. -/
theorem RunHloCostAnalysis_single_module_witness :
    (recordingAccept moduleA.entry_computation []).1 = Except.ok () ∧
    (PjRtExecutableUtil.RunHloCostAnalysis recordingAccept id Int.ofNat
        (⟨"one", Except.ok [moduleA]⟩ : PjRtExecutable (OpSharding Nat) Nat) []).2
      = [("flops", 5), ("bytes accessed", 10)] ∧
    (PjRtExecutableUtil.RunHloCostAnalysis recordingAccept id Int.ofNat
        (⟨"one", Except.ok [moduleA]⟩ : PjRtExecutable (OpSharding Nat) Nat) []).1
      = Except.ok [("flops", 5), ("bytes accessed", 10)] ∧
    (∃ ret : List (String × Int),
      (PjRtExecutableUtil.RunHloCostAnalysis recordingAccept id Int.ofNat
        (⟨"one", Except.ok [moduleA]⟩ : PjRtExecutable (OpSharding Nat) Nat) []).1
        = Except.ok ret ∧
      (ret.map Prod.fst).Nodup) :=
  ⟨rfl, rfl, rfl,
    ((RunHloCostAnalysis_single_module recordingAccept id Int.ofNat
      (⟨"one", Except.ok [moduleA]⟩ : PjRtExecutable (OpSharding Nat) Nat) []
      moduleA rfl).2.2 rfl).imp (fun _ hret => ⟨hret.1, hret.2.1⟩)⟩

end CostAnalysisClaims

/-! ## Claims on the wire format of CompileOptions -/

section WireClaims

variable {Shape ShapeProto EBO EBOProto MSC : Type}

theorem CompileOptions.ToProto_of_ok
    (shapeToProto : Shape → ShapeProto) (eboToProto : EBO → StatusOr EBOProto)
    (serialize : MSC → String) (x : CompileOptions Shape EBO MSC) (e : EBOProto)
    (h : eboToProto x.executable_build_options = Except.ok e) :
    CompileOptions.ToProto shapeToProto eboToProto serialize x
      = Except.ok
          { argument_layouts :=
              match x.argument_layouts with
              | some layouts => layouts.map shapeToProto
              | none => []
            parameter_is_tupled_arguments := x.parameter_is_tupled_arguments
            executable_build_options := e
            compile_portable_executable := x.compile_portable_executable
            profile_version := x.profile_version
            serialized_multi_slice_config :=
              match x.multi_slice_config with
              | some config => serialize config
              | none => "" } := by
  simp [CompileOptions.ToProto, h, bind, Except.bind, pure, Except.pure]

theorem CompileOptions.ToProto_of_error
    (shapeToProto : Shape → ShapeProto) (eboToProto : EBO → StatusOr EBOProto)
    (serialize : MSC → String) (x : CompileOptions Shape EBO MSC) (status : Status)
    (h : eboToProto x.executable_build_options = Except.error status) :
    CompileOptions.ToProto shapeToProto eboToProto serialize x = Except.error status := by
  simp [CompileOptions.ToProto, h, bind, Except.bind]

theorem CompileOptions.FromProto_of_ok
    (shapeFromProto : ShapeProto → Shape) (eboFromProto : EBOProto → StatusOr EBO)
    (proto : CompileOptionsProto ShapeProto EBOProto) (ebo : EBO)
    (hblob : proto.serialized_multi_slice_config = "")
    (h : eboFromProto proto.executable_build_options = Except.ok ebo) :
    (CompileOptions.FromProto shapeFromProto eboFromProto proto :
        StatusOr (CompileOptions Shape EBO MSC))
      = Except.ok
          { argument_layouts :=
              if proto.argument_layouts.length > 0 then
                some (proto.argument_layouts.map shapeFromProto)
              else none
            parameter_is_tupled_arguments := proto.parameter_is_tupled_arguments
            executable_build_options := ebo
            compile_portable_executable := proto.compile_portable_executable
            profile_version := proto.profile_version
            multi_slice_config := none } := by
  simp [CompileOptions.FromProto, hblob, h, bind, Except.bind, pure, Except.pure]

theorem CompileOptions.FromProto_of_error
    (shapeFromProto : ShapeProto → Shape) (eboFromProto : EBOProto → StatusOr EBO)
    (proto : CompileOptionsProto ShapeProto EBOProto) (status : Status)
    (hblob : proto.serialized_multi_slice_config = "")
    (h : eboFromProto proto.executable_build_options = Except.error status) :
    (CompileOptions.FromProto shapeFromProto eboFromProto proto :
        StatusOr (CompileOptions Shape EBO MSC)) = Except.error status := by
  simp [CompileOptions.FromProto, hblob, h, bind, Except.bind]

/-- Build options for the examples: `0` does not convert, any other `n`
travels as `[n]`. -/
def eboToList : Nat → StatusOr (List Nat)
  | 0 => Except.error ⟨StatusCode.kInvalidArgument, "no build options"⟩
  | n + 1 => Except.ok [n + 1]

/-- A `CompileOptions` whose build options (`0`) do not convert with
`eboToList`, with a multi-slice configuration. -/
def badBuildOptions : CompileOptions Nat Nat String :=
  { argument_layouts := some [1]
    parameter_is_tupled_arguments := false
    executable_build_options := 0
    compile_portable_executable := false
    profile_version := 1
    multi_slice_config := some "topology" }

/-- C13: `CompileOptions::ToProto` fails exactly when the nested
`executable_build_options.ToProto()` fails, and then with that same status; in
every other case it succeeds, whatever `argument_layouts` and
`multi_slice_config` are. -/
theorem CompileOptions_ToProto_fails_iff
    (shapeToProto : Shape → ShapeProto) (eboToProto : EBO → StatusOr EBOProto)
    (serialize : MSC → String) (x : CompileOptions Shape EBO MSC) :
    ((∃ status, CompileOptions.ToProto shapeToProto eboToProto serialize x
          = Except.error status) ↔
      ∃ status, eboToProto x.executable_build_options = Except.error status) ∧
    (∀ status, eboToProto x.executable_build_options = Except.error status →
      CompileOptions.ToProto shapeToProto eboToProto serialize x = Except.error status) ∧
    (∀ e, eboToProto x.executable_build_options = Except.ok e →
      ∃ proto, CompileOptions.ToProto shapeToProto eboToProto serialize x
        = Except.ok proto) := by
  refine ⟨?_, ?_, ?_⟩
  · cases he : eboToProto x.executable_build_options with
    | error status =>
      rw [CompileOptions.ToProto_of_error shapeToProto eboToProto serialize x status he]
      simp
    | ok e =>
      rw [CompileOptions.ToProto_of_ok shapeToProto eboToProto serialize x e he]
      simp
  · intro status he
    exact CompileOptions.ToProto_of_error shapeToProto eboToProto serialize x status he
  · intro e he
    exact ⟨_, CompileOptions.ToProto_of_ok shapeToProto eboToProto serialize x e he⟩

/-- Witness for C13: `badBuildOptions` fails with the status of its build
options; `twoLayouts`, whose build options convert, succeeds. -/
theorem CompileOptions_ToProto_fails_iff_witness :
    CompileOptions.ToProto (fun n => n + 1) eboToList id badBuildOptions
      = Except.error ⟨StatusCode.kInvalidArgument, "no build options"⟩ ∧
    (∃ proto, CompileOptions.ToProto (fun n => n + 1) eboToList (fun _ => "x") twoLayouts
      = Except.ok proto) :=
  ⟨(CompileOptions_ToProto_fails_iff (fun n => n + 1) eboToList id badBuildOptions).2.1
      ⟨StatusCode.kInvalidArgument, "no build options"⟩ rfl,
    (CompileOptions_ToProto_fails_iff (fun n => n + 1) eboToList (fun _ => "x")
      twoLayouts).2.2 [9] rfl⟩

/-- C14: for a record with an empty `serialized_multi_slice_config`,
`CompileOptions::FromProto` fails exactly when
`ExecutableBuildOptionsFromProto` fails on the nested record, and then with
that same status; otherwise it succeeds with `parameter_is_tupled_arguments`,
`compile_portable_executable` and `profile_version` as in the record,
`executable_build_options` the reconstructed nested value, and
`argument_layouts` holding the record's layouts, each through
`Shape(ShapeProto)`, in order (present exactly when the record has one layout
at least). -/
theorem CompileOptions_FromProto_empty_multi_slice
    (shapeFromProto : ShapeProto → Shape) (eboFromProto : EBOProto → StatusOr EBO)
    (proto : CompileOptionsProto ShapeProto EBOProto)
    (hblob : proto.serialized_multi_slice_config = "") :
    ((∃ status, (CompileOptions.FromProto shapeFromProto eboFromProto proto :
          StatusOr (CompileOptions Shape EBO MSC)) = Except.error status) ↔
      ∃ status, eboFromProto proto.executable_build_options = Except.error status) ∧
    (∀ status, eboFromProto proto.executable_build_options = Except.error status →
      (CompileOptions.FromProto shapeFromProto eboFromProto proto :
          StatusOr (CompileOptions Shape EBO MSC)) = Except.error status) ∧
    (∀ ebo, eboFromProto proto.executable_build_options = Except.ok ebo →
      ∃ out : CompileOptions Shape EBO MSC,
        CompileOptions.FromProto shapeFromProto eboFromProto proto = Except.ok out ∧
        out.parameter_is_tupled_arguments = proto.parameter_is_tupled_arguments ∧
        out.executable_build_options = ebo ∧
        out.compile_portable_executable = proto.compile_portable_executable ∧
        out.profile_version = proto.profile_version ∧
        out.argument_layouts.getD [] = proto.argument_layouts.map shapeFromProto ∧
        (out.argument_layouts.isSome = true ↔ proto.argument_layouts ≠ [])) := by
  refine ⟨?_, ?_, ?_⟩
  · cases he : eboFromProto proto.executable_build_options with
    | error status =>
      rw [CompileOptions.FromProto_of_error shapeFromProto eboFromProto proto status hblob he]
      simp
    | ok ebo =>
      rw [CompileOptions.FromProto_of_ok shapeFromProto eboFromProto proto ebo hblob he]
      simp
  · intro status he
    exact CompileOptions.FromProto_of_error shapeFromProto eboFromProto proto status hblob he
  · intro ebo he
    refine ⟨_, CompileOptions.FromProto_of_ok shapeFromProto eboFromProto proto ebo hblob he,
      rfl, rfl, rfl, rfl, ?_, ?_⟩
    · cases hl : proto.argument_layouts with
      | nil => simp
      | cons l rest => simp
    · cases hl : proto.argument_layouts with
      | nil => simp
      | cons l rest => simp

/-- A wire record without a multi-slice blob, with two layouts and build
options `[9]`. -/
def plainRecord : CompileOptionsProto Nat (List Nat) :=
  { argument_layouts := [5, 6]
    parameter_is_tupled_arguments := false
    executable_build_options := [9]
    compile_portable_executable := true
    profile_version := -2
    serialized_multi_slice_config := "" }

/-- Witness for C14: `plainRecord` decodes to `twoLayouts`; the same record
with undecodable build options fails with their status. -/
theorem CompileOptions_FromProto_empty_multi_slice_witness :
    plainRecord.serialized_multi_slice_config = "" ∧
    (CompileOptions.FromProto (fun n => n - 1) eboFromList plainRecord :
        StatusOr (CompileOptions Nat Nat Unit)) = Except.ok twoLayouts ∧
    (CompileOptions.FromProto (fun n => n - 1) eboFromList
        { plainRecord with executable_build_options := [] } :
        StatusOr (CompileOptions Nat Nat Unit))
      = Except.error ⟨StatusCode.kInvalidArgument, "bad build options"⟩ :=
  ⟨rfl, rfl,
    (CompileOptions_FromProto_empty_multi_slice (fun n => n - 1) eboFromList
      { plainRecord with executable_build_options := [] } rfl).2.1
      ⟨StatusCode.kInvalidArgument, "bad build options"⟩ rfl⟩

/-- A `CompileOptions` that leaves its argument layouts to be inferred. -/
def inferLayouts : CompileOptions Nat Nat Unit :=
  { argument_layouts := none
    parameter_is_tupled_arguments := true
    executable_build_options := 4
    compile_portable_executable := false
    profile_version := 8
    multi_slice_config := none }

/-- C15: the "infer" meaning of an absent `argument_layouts` survives the wire
format.  `ToProto` of a `CompileOptions` with absent `argument_layouts` (its
build options converting) gives a record with no `argument_layouts` entry; and
`FromProto` of a record with no `argument_layouts` entry (no multi-slice blob,
its build options decoding) gives a `CompileOptions` whose `argument_layouts`
is absent. -/
theorem argument_layouts_absent_survives
    (shapeToProto : Shape → ShapeProto) (shapeFromProto : ShapeProto → Shape)
    (eboToProto : EBO → StatusOr EBOProto) (eboFromProto : EBOProto → StatusOr EBO)
    (serialize : MSC → String) :
    (∀ (x : CompileOptions Shape EBO MSC) (e : EBOProto),
      x.argument_layouts = none →
      eboToProto x.executable_build_options = Except.ok e →
      ∃ proto, CompileOptions.ToProto shapeToProto eboToProto serialize x = Except.ok proto ∧
        proto.argument_layouts = []) ∧
    (∀ (proto : CompileOptionsProto ShapeProto EBOProto) (ebo : EBO),
      proto.argument_layouts = [] →
      proto.serialized_multi_slice_config = "" →
      eboFromProto proto.executable_build_options = Except.ok ebo →
      ∃ out : CompileOptions Shape EBO MSC,
        CompileOptions.FromProto shapeFromProto eboFromProto proto = Except.ok out ∧
        out.argument_layouts = none) := by
  constructor
  · intro x e hnone he
    refine ⟨_, CompileOptions.ToProto_of_ok shapeToProto eboToProto serialize x e he, ?_⟩
    simp [hnone]
  · intro proto ebo hnil hblob he
    refine ⟨_, CompileOptions.FromProto_of_ok shapeFromProto eboFromProto proto ebo hblob he,
      ?_⟩
    simp [hnil]

/-- Witness for C15: `inferLayouts` goes to a record without layouts and
comes back with its layouts absent. -/
theorem argument_layouts_absent_survives_witness :
    inferLayouts.argument_layouts = none ∧
    (∃ proto, CompileOptions.ToProto (fun n => n + 1) eboToList (fun _ => "") inferLayouts
        = Except.ok proto ∧ proto.argument_layouts = []) ∧
    (∃ out : CompileOptions Nat Nat Unit,
      CompileOptions.FromProto (fun n => n - 1) eboFromList
        { plainRecord with argument_layouts := [] } = Except.ok out ∧
      out.argument_layouts = none) :=
  ⟨rfl,
    (argument_layouts_absent_survives (fun n => n + 1) (fun n => n - 1) eboToList eboFromList
      (fun _ => "")).1 inferLayouts [4] rfl rfl,
    (argument_layouts_absent_survives (fun n => n + 1) (fun n => n - 1) eboToList eboFromList
      (fun (_ : Unit) => "")).2 { plainRecord with argument_layouts := [] } 9 rfl rfl rfl⟩

/-- A `CompileOptions` with a multi-slice configuration and build options
that convert. -/
def multiSliceOptions : CompileOptions Nat Nat String :=
  { argument_layouts := none
    parameter_is_tupled_arguments := false
    executable_build_options := 2
    compile_portable_executable := false
    profile_version := 0
    multi_slice_config := some "topology" }

/-- C16: `multi_slice_config` goes one way.  For a `CompileOptions` with a
non-null `multi_slice_config` (its build options converting), `ToProto` stores
`multi_slice_config->Serialize()` in `serialized_multi_slice_config`; and when
that blob is non-empty, `FromProto(ToProto(x))` fails with `Unimplemented`. -/
theorem multi_slice_config_one_way
    (shapeToProto : Shape → ShapeProto) (shapeFromProto : ShapeProto → Shape)
    (eboToProto : EBO → StatusOr EBOProto) (eboFromProto : EBOProto → StatusOr EBO)
    (serialize : MSC → String)
    (x : CompileOptions Shape EBO MSC) (config : MSC) (e : EBOProto)
    (hconfig : x.multi_slice_config = some config)
    (he : eboToProto x.executable_build_options = Except.ok e) :
    (∃ proto, CompileOptions.ToProto shapeToProto eboToProto serialize x = Except.ok proto ∧
      proto.serialized_multi_slice_config = serialize config) ∧
    (serialize config ≠ "" →
      (CompileOptions.ToProto shapeToProto eboToProto serialize x >>=
        CompileOptions.FromProto shapeFromProto eboFromProto :
          StatusOr (CompileOptions Shape EBO MSC))
        = Except.error ⟨StatusCode.kUnimplemented,
            "multi_slice_config not supported in CompileOptions::FromProto."⟩) := by
  have hto := CompileOptions.ToProto_of_ok shapeToProto eboToProto serialize x e he
  constructor
  · refine ⟨_, hto, ?_⟩
    simp [hconfig]
  · intro hne
    rw [hto]
    simp [bind, Except.bind, CompileOptions.FromProto, hconfig, hne, Unimplemented]

/-- Witness for C16: `multiSliceOptions`, serialized by the identity, carries
the blob `topology` on the wire and does not come back. -/
theorem multi_slice_config_one_way_witness :
    multiSliceOptions.multi_slice_config = some "topology" ∧
    (∃ proto, CompileOptions.ToProto (fun n => n + 1) eboToList id multiSliceOptions
        = Except.ok proto ∧ proto.serialized_multi_slice_config = "topology") ∧
    (CompileOptions.ToProto (fun n => n + 1) eboToList id multiSliceOptions >>=
        CompileOptions.FromProto (fun n => n - 1) eboFromList :
          StatusOr (CompileOptions Nat Nat String))
      = Except.error ⟨StatusCode.kUnimplemented,
          "multi_slice_config not supported in CompileOptions::FromProto."⟩ :=
  ⟨rfl,
    (multi_slice_config_one_way (fun n => n + 1) (fun n => n - 1) eboToList eboFromList id
      multiSliceOptions "topology" [2] rfl rfl).1,
    (multi_slice_config_one_way (fun n => n + 1) (fun n => n - 1) eboToList eboFromList id
      multiSliceOptions "topology" [2] rfl rfl).2 (by decide)⟩

end WireClaims

/-! ## Claims on the default device assignment -/

section DeviceAssignmentClaims

variable {Device : Type}

theorem forIndices_error_mem {β : Type} (body : Nat → Except Abort β) (abort : Abort) :
    ∀ l : List Nat, forIndices body l = Except.error abort →
      ∃ i ∈ l, body i = Except.error abort := by
  intro l
  induction l with
  | nil => intro h; simp [forIndices] at h
  | cons i rest ih =>
    intro h
    cases hb : body i with
    | error a =>
      simp only [forIndices, hb] at h
      exact ⟨i, List.mem_cons_self i rest, by rw [hb, ← Except.error.inj h]⟩
    | ok b =>
      cases hr : forIndices body rest with
      | error a =>
        simp only [forIndices, hb, hr] at h
        obtain ⟨j, hj, hbj⟩ := ih (by rw [hr, ← Except.error.inj h])
        exact ⟨j, List.mem_cons_of_mem i hj, hbj⟩
      | ok bs => simp [forIndices, hb, hr] at h

theorem forIndices_error_of_mem {β : Type} (body : Nat → Except Abort β) :
    ∀ l : List Nat, (∃ i ∈ l, ∃ abort, body i = Except.error abort) →
      ∃ abort, forIndices body l = Except.error abort := by
  intro l
  induction l with
  | nil => rintro ⟨i, hi, _⟩; cases hi
  | cons j rest ih =>
    rintro ⟨i, hi, abort, hbi⟩
    cases hb : body j with
    | error a => exact ⟨a, by simp [forIndices, hb]⟩
    | ok b =>
      have hrest : i ∈ rest := by
        rcases List.mem_cons.mp hi with h | h
        · subst h; rw [hb] at hbi; cases hbi
        · exact h
      obtain ⟨a, ha⟩ := ih ⟨i, hrest, abort, hbi⟩
      exact ⟨a, by simp [forIndices, hb, ha]⟩

theorem forIndices_ok_spec {β : Type} (body : Nat → Except Abort β) :
    ∀ l : List Nat, (∀ i ∈ l, ∃ b, body i = Except.ok b) →
      ∃ bs, forIndices body l = Except.ok bs ∧ bs.length = l.length ∧
        ∀ k i : Nat, l[k]? = some i → ∃ b, bs[k]? = some b ∧ body i = Except.ok b := by
  intro l
  induction l with
  | nil => intro _; exact ⟨[], rfl, rfl, by simp⟩
  | cons j rest ih =>
    intro h
    obtain ⟨b, hb⟩ := h j (List.mem_cons_self j rest)
    obtain ⟨bs, hbs, hlen, hcell⟩ := ih (fun i hi => h i (List.mem_cons_of_mem j hi))
    refine ⟨b :: bs, by simp [forIndices, hb, hbs], by simp [hlen], ?_⟩
    intro k i hk
    cases k with
    | zero =>
      simp only [List.getElem?_cons_zero, Option.some.injEq] at hk
      subst hk
      exact ⟨b, by simp, hb⟩
    | succ k =>
      simp only [List.getElem?_cons_succ] at hk
      obtain ⟨c, hc, hbc⟩ := hcell k i hk
      exact ⟨c, by simpa using hc, hbc⟩

theorem forIndices_ok_mem {β : Type} (body : Nat → Except Abort β) :
    ∀ (l : List Nat) (bs : List β), forIndices body l = Except.ok bs →
      ∀ b ∈ bs, ∃ i ∈ l, body i = Except.ok b := by
  intro l
  induction l with
  | nil =>
    intro bs h b hb
    simp only [forIndices, Except.ok.injEq] at h
    subst h
    cases hb
  | cons j rest ih =>
    intro bs h b hb
    cases hj : body j with
    | error a => simp [forIndices, hj] at h
    | ok c =>
      cases hr : forIndices body rest with
      | error a => simp [forIndices, hj, hr] at h
      | ok cs =>
        simp only [forIndices, hj, hr, Except.ok.injEq] at h
        subst h
        rcases List.mem_cons.mp hb with hbc | hbc
        · subst hbc; exact ⟨j, List.mem_cons_self j rest, hj⟩
        · obtain ⟨i, hi, hbi⟩ := ih cs hr b hbc
          exact ⟨i, List.mem_cons_of_mem j hi, hbi⟩

theorem PyTpuClient.checked_find_eq_ok (client : PyTpuClient Device) (device_id : Int)
    (device : Device) :
    client.checked_find device_id = Except.ok device ↔
      client.id_to_device device_id = some device := by
  cases h : client.id_to_device device_id <;> simp [PyTpuClient.checked_find, h]

theorem PyTpuClient.checked_find_eq_error (client : PyTpuClient Device) (device_id : Int)
    (abort : Abort) :
    client.checked_find device_id = Except.error abort ↔
      (client.id_to_device device_id = none ∧ abort = Abort.check_failed device_id) := by
  cases h : client.id_to_device device_id with
  | none =>
    simp only [PyTpuClient.checked_find, h, Except.error.injEq, true_and]
    exact eq_comm
  | some d => simp [PyTpuClient.checked_find, h]

theorem resolve_row_spec (client : PyTpuClient Device) (assignment : DeviceAssignment)
    (r numPartitions : Nat)
    (h : ∀ p, p < numPartitions → ∃ device, client.id_to_device (assignment r p) = some device) :
    ∃ row, forIndices (fun p => client.checked_find (assignment r p)) (List.range numPartitions)
        = Except.ok row ∧ row.length = numPartitions ∧
      ∀ p, p < numPartitions →
        ∃ device, row[p]? = some device ∧
          client.id_to_device (assignment r p) = some device := by
  obtain ⟨row, hrow, hlen, hcell⟩ :=
    forIndices_ok_spec (fun p => client.checked_find (assignment r p)) (List.range numPartitions)
      (fun p hp => by
        obtain ⟨d, hd⟩ := h p (List.mem_range.mp hp)
        exact ⟨d, (client.checked_find_eq_ok _ d).mpr hd⟩)
  refine ⟨row, hrow, by simpa using hlen, ?_⟩
  intro p hp
  obtain ⟨d, hd, hfind⟩ := hcell p p (by simp [List.getElem?_range, hp])
  exact ⟨d, hd, (client.checked_find_eq_ok _ d).mp hfind⟩

/-- C17: when the client produces a device assignment for
`(numReplicas, numPartitions)` and the device id in every cell of the logical
grid has an entry in `id_to_device`, the two-argument
`get_default_device_assignment` returns successfully a grid of exactly
`numReplicas` rows with exactly `numPartitions` cells each, whose cell
`(r, p)` is the table entry for `assignment(r, p)`. -/
theorem get_default_device_assignment_grid (client : PyTpuClient Device)
    (numReplicas numPartitions : Nat) (assignment : DeviceAssignment)
    (hassign : client.GetDefaultDeviceAssignment numReplicas numPartitions
      = Except.ok assignment)
    (hreg : ∀ r p, r < numReplicas → p < numPartitions →
      ∃ device, client.id_to_device (assignment r p) = some device) :
    ∃ grid : List (List Device),
      get_default_device_assignment client numReplicas numPartitions
        = Except.ok (Except.ok grid) ∧
      grid.length = numReplicas ∧
      (∀ row ∈ grid, row.length = numPartitions) ∧
      (∀ r p, r < numReplicas → p < numPartitions →
        ∃ row, grid[r]? = some row ∧
          ∃ device, row[p]? = some device ∧
            client.id_to_device (assignment r p) = some device) := by
  have hR : ¬ ((numReplicas : Int) < 0) := by omega
  have hP : ¬ ((numPartitions : Int) < 0) := by omega
  obtain ⟨grid, hgrid, hlen, hcell⟩ :=
    forIndices_ok_spec
      (fun r => forIndices (fun p => client.checked_find (assignment r p))
        (List.range numPartitions))
      (List.range numReplicas)
      (fun r hr => by
        obtain ⟨row, hrow, _⟩ := resolve_row_spec client assignment r numPartitions
          (fun p hp => hreg r p (List.mem_range.mp hr) hp)
        exact ⟨row, hrow⟩)
  refine ⟨grid, ?_, by simpa using hlen, ?_, ?_⟩
  · simp only [get_default_device_assignment, hassign, hR, hP, if_false, Int.toNat_ofNat,
      hgrid]
  · intro row hmem
    obtain ⟨r, hr, hbody⟩ := forIndices_ok_mem _ _ grid hgrid row hmem
    obtain ⟨row1, hrow1, hlen1, _⟩ := resolve_row_spec client assignment r numPartitions
      (fun p hp => hreg r p (List.mem_range.mp hr) hp)
    rw [hrow1] at hbody
    rw [← Except.ok.inj hbody]
    exact hlen1
  · intro r p hr hp
    obtain ⟨row, hrow, hbody⟩ := hcell r r (by simp [List.getElem?_range, hr])
    obtain ⟨row1, hrow1, _, hcell1⟩ := resolve_row_spec client assignment r numPartitions
      (fun q hq => hreg r q hr hq)
    rw [hrow1] at hbody
    obtain ⟨d, hd, hfind⟩ := hcell1 p hp
    refine ⟨row, hrow, d, ?_, hfind⟩
    rw [← Except.ok.inj hbody]
    exact hd

/-- The assignment that puts device id `10 + 3 r + p` in cell `(r, p)`. -/
def rowMajorAssignment : DeviceAssignment := fun r p => 10 + 3 * (r : Int) + (p : Int)

/-- A client with six devices, ids `10 .. 15`, device `id` being handle
`id - 10`; its default assignment for up to six cells is
`rowMajorAssignment`. -/
def sixDeviceClient : PyTpuClient Int :=
  { GetDefaultDeviceAssignment := fun num_replicas num_partitions =>
      if 0 ≤ num_replicas ∧ 0 ≤ num_partitions ∧ num_replicas * num_partitions ≤ 6 then
        Except.ok rowMajorAssignment
      else
        Except.error ⟨StatusCode.kInvalidArgument, "too many devices requested"⟩
    id_to_device := fun device_id =>
      if 10 ≤ device_id ∧ device_id < 16 then some (device_id - 10) else none }

/-- Witness for C17: for `numReplicas = 2`, `numPartitions = 3` the six-device
client gives a 2x3 grid with no missing cell. -/
theorem get_default_device_assignment_grid_witness :
    sixDeviceClient.GetDefaultDeviceAssignment (2 : Nat) (3 : Nat)
      = Except.ok rowMajorAssignment ∧
    (∃ grid : List (List Int),
      get_default_device_assignment sixDeviceClient (2 : Nat) (3 : Nat)
        = Except.ok (Except.ok grid) ∧
      grid.length = 2 ∧ (∀ row ∈ grid, row.length = 3)) ∧
    get_default_device_assignment sixDeviceClient 2 3
      = Except.ok (Except.ok [[0, 1, 2], [3, 4, 5]]) :=
  ⟨rfl,
    (get_default_device_assignment_grid sixDeviceClient 2 3 rowMajorAssignment rfl
      (by
        intro r p hr hp
        interval_cases r <;> interval_cases p <;> exact ⟨_, rfl⟩)).imp
      (fun _ h => ⟨h.1, h.2.1, h.2.2.1⟩),
    rfl⟩

theorem resolve_grid_error (client : PyTpuClient Device) (assignment : DeviceAssignment)
    (numReplicas numPartitions : Nat) (abort : Abort)
    (h : forIndices (fun r => forIndices (fun p => client.checked_find (assignment r p))
          (List.range numPartitions)) (List.range numReplicas) = Except.error abort) :
    ∃ r p, r < numReplicas ∧ p < numPartitions ∧
      client.id_to_device (assignment r p) = none ∧
      abort = Abort.check_failed (assignment r p) := by
  obtain ⟨r, hr, hrow⟩ := forIndices_error_mem _ abort _ h
  obtain ⟨p, hp, hcell⟩ := forIndices_error_mem _ abort _ hrow
  obtain ⟨hnone, habort⟩ := (client.checked_find_eq_error _ abort).mp hcell
  exact ⟨r, p, List.mem_range.mp hr, List.mem_range.mp hp, hnone, habort⟩

theorem resolve_grid_error_of_missing (client : PyTpuClient Device)
    (assignment : DeviceAssignment) (numReplicas numPartitions : Nat)
    (h : ∃ r p, r < numReplicas ∧ p < numPartitions ∧
      client.id_to_device (assignment r p) = none) :
    ∃ abort, forIndices (fun r => forIndices (fun p => client.checked_find (assignment r p))
        (List.range numPartitions)) (List.range numReplicas) = Except.error abort := by
  obtain ⟨r, p, hr, hp, hnone⟩ := h
  have hcell : client.checked_find (assignment r p)
      = Except.error (Abort.check_failed (assignment r p)) :=
    (client.checked_find_eq_error _ _).mpr ⟨hnone, rfl⟩
  obtain ⟨a, ha⟩ := forIndices_error_of_mem
    (fun q => client.checked_find (assignment r q)) (List.range numPartitions)
    ⟨p, List.mem_range.mpr hp, _, hcell⟩
  exact forIndices_error_of_mem _ (List.range numReplicas) ⟨r, List.mem_range.mpr hr, a, ha⟩

theorem get_default_device_assignment_of_ok (client : PyTpuClient Device)
    (num_replicas num_partitions : Int) (assignment : DeviceAssignment)
    (hassign : client.GetDefaultDeviceAssignment num_replicas num_partitions
      = Except.ok assignment)
    (h0 : 0 ≤ num_replicas) (h1 : 0 ≤ num_partitions) :
    get_default_device_assignment client num_replicas num_partitions
      = match forIndices (fun r => forIndices
            (fun p => client.checked_find (assignment r p))
            (List.range num_partitions.toNat)) (List.range num_replicas.toNat) with
        | Except.error abort => Except.error abort
        | Except.ok result => Except.ok (Except.ok result) := by
  have hR : ¬ (num_replicas < 0) := by omega
  have hP : ¬ (num_partitions < 0) := by omega
  simp only [get_default_device_assignment, hassign, hR, hP, if_false]

/-- C18: when the client has produced the assignment and some cell `(r, p)` of
the logical grid holds a device id without entry in `id_to_device`, the
two-argument `get_default_device_assignment` neither returns an error status
nor a grid: it ends in the fatal `CHECK`, on a device id of the grid that has
no entry.  It ends in the fatal `CHECK` exactly when there is such a cell. -/
theorem get_default_device_assignment_fatal_iff (client : PyTpuClient Device)
    (num_replicas num_partitions : Int) (assignment : DeviceAssignment)
    (hassign : client.GetDefaultDeviceAssignment num_replicas num_partitions
      = Except.ok assignment) :
    ((∃ device_id, get_default_device_assignment client num_replicas num_partitions
        = Except.error (Abort.check_failed device_id)) ↔
      ∃ r p : Nat, (r : Int) < num_replicas ∧ (p : Int) < num_partitions ∧
        client.id_to_device (assignment r p) = none) ∧
    (∀ device_id, get_default_device_assignment client num_replicas num_partitions
        = Except.error (Abort.check_failed device_id) →
      client.id_to_device device_id = none) ∧
    ((∃ r p : Nat, (r : Int) < num_replicas ∧ (p : Int) < num_partitions ∧
        client.id_to_device (assignment r p) = none) →
      ∀ returned, get_default_device_assignment client num_replicas num_partitions
        ≠ Except.ok returned) := by
  have hfatal : ∀ abort, get_default_device_assignment client num_replicas num_partitions
      = Except.error abort →
      abort = Abort.length_error ∨
      ∃ r p : Nat, (r : Int) < num_replicas ∧ (p : Int) < num_partitions ∧
        client.id_to_device (assignment r p) = none ∧
        abort = Abort.check_failed (assignment r p) := by
    intro abort h
    simp only [get_default_device_assignment, hassign] at h
    by_cases hR : num_replicas < 0
    · rw [if_pos hR] at h
      exact Or.inl (Except.error.inj h).symm
    · rw [if_neg hR] at h
      by_cases hP : num_partitions < 0
      · simp only [if_pos hP] at h
        cases hloop : forIndices (fun _ : Nat =>
            (Except.error Abort.length_error : Except Abort (List Device)))
            (List.range num_replicas.toNat) with
        | ok result => rw [hloop] at h; cases h
        | error a =>
          rw [hloop] at h
          have ha : a = abort := Except.error.inj h
          subst ha
          obtain ⟨r, _, hrow⟩ := forIndices_error_mem _ a _ hloop
          exact Or.inl (Except.error.inj hrow).symm
      · simp only [if_neg hP] at h
        cases hloop : forIndices (fun r => forIndices
            (fun p => client.checked_find (assignment r p))
            (List.range num_partitions.toNat)) (List.range num_replicas.toNat) with
        | ok result => rw [hloop] at h; cases h
        | error a =>
          rw [hloop] at h
          have ha : a = abort := Except.error.inj h
          subst ha
          obtain ⟨r, p, hr, hp, hnone, habort⟩ :=
            resolve_grid_error client assignment _ _ a hloop
          exact Or.inr ⟨r, p, by omega, by omega, hnone, habort⟩
  have hcheck : ∀ device_id, get_default_device_assignment client num_replicas num_partitions
      = Except.error (Abort.check_failed device_id) →
      ∃ r p : Nat, (r : Int) < num_replicas ∧ (p : Int) < num_partitions ∧
        client.id_to_device (assignment r p) = none ∧
        device_id = assignment r p := by
    intro device_id h
    rcases hfatal _ h with hlen | ⟨r, p, hr, hp, hnone, habort⟩
    · cases hlen
    · exact ⟨r, p, hr, hp, hnone, Abort.check_failed.inj habort⟩
  have hmissing : (∃ r p : Nat, (r : Int) < num_replicas ∧ (p : Int) < num_partitions ∧
      client.id_to_device (assignment r p) = none) →
      ∃ device_id, get_default_device_assignment client num_replicas num_partitions
        = Except.error (Abort.check_failed device_id) := by
    rintro ⟨r, p, hr, hp, hnone⟩
    have h0 : 0 ≤ num_replicas := by omega
    have h1 : 0 ≤ num_partitions := by omega
    have hrun := get_default_device_assignment_of_ok client num_replicas num_partitions
      assignment hassign h0 h1
    obtain ⟨a, ha⟩ := resolve_grid_error_of_missing client assignment
      num_replicas.toNat num_partitions.toNat ⟨r, p, by omega, by omega, hnone⟩
    have hres : get_default_device_assignment client num_replicas num_partitions
        = Except.error a := by rw [hrun, ha]
    obtain ⟨r1, p1, _, _, _, habort⟩ := resolve_grid_error client assignment _ _ a ha
    exact ⟨assignment r1 p1, by rw [hres, habort]⟩
  refine ⟨⟨?_, hmissing⟩, ?_, ?_⟩
  · rintro ⟨device_id, h⟩
    obtain ⟨r, p, hr, hp, hnone, _⟩ := hcheck _ h
    exact ⟨r, p, hr, hp, hnone⟩
  · intro device_id h
    obtain ⟨r, p, _, _, hnone, hid⟩ := hcheck _ h
    rw [hid]; exact hnone
  · intro hex returned hret
    obtain ⟨device_id, h⟩ := hmissing hex
    rw [h] at hret
    cases hret

/-- A client like `sixDeviceClient` whose table lacks device id `15`. -/
def fiveDeviceClient : PyTpuClient Int :=
  { GetDefaultDeviceAssignment := sixDeviceClient.GetDefaultDeviceAssignment
    id_to_device := fun device_id =>
      if 10 ≤ device_id ∧ device_id < 15 then some (device_id - 10) else none }

/-- Witness for C18: with id `15` of cell `(1, 2)` missing from the table, the
2x3 call ends in the fatal `CHECK` on `15`; with all six ids present it does
not. -/
theorem get_default_device_assignment_fatal_iff_witness :
    fiveDeviceClient.id_to_device (rowMajorAssignment 1 2) = none ∧
    (∃ device_id, get_default_device_assignment fiveDeviceClient 2 3
      = Except.error (Abort.check_failed device_id)) ∧
    get_default_device_assignment fiveDeviceClient 2 3
      = Except.error (Abort.check_failed 15) ∧
    get_default_device_assignment sixDeviceClient 2 3
      = Except.ok (Except.ok [[0, 1, 2], [3, 4, 5]]) :=
  ⟨rfl,
    (get_default_device_assignment_fatal_iff fiveDeviceClient 2 3 rowMajorAssignment rfl).1.mpr
      ⟨1, 2, by decide, by decide, rfl⟩,
    rfl, rfl⟩

theorem flatten_map_singleton {β : Type} (flat : List β) :
    (flat.map (fun d => [d])).flatten = flat := by
  induction flat with
  | nil => rfl
  | cons d rest ih => simp [ih]

theorem forIndices_single_column {β : Type} (f : Nat → Nat → Except Abort β) :
    ∀ l : List Nat,
      forIndices (fun r => forIndices (fun p => f r p) [0]) l
        = match forIndices (fun i => f i 0) l with
          | Except.error abort => Except.error abort
          | Except.ok flat => Except.ok (flat.map (fun d => [d])) := by
  intro l
  induction l with
  | nil => rfl
  | cons i rest ih =>
    cases hi : f i 0 with
    | error a => simp [forIndices, hi]
    | ok d =>
      cases hr : forIndices (fun i => f i 0) rest with
      | error a =>
        rw [hr] at ih
        simp only [forIndices] at ih
        simp [forIndices, hi, hr, ih]
      | ok flat =>
        rw [hr] at ih
        simp only [forIndices] at ih
        simp [forIndices, hi, hr, ih]

/-- A client that hands out `rowMajorAssignment` for every pair of counts,
negative ones included, over the device table of `sixDeviceClient`. -/
def anyCountClient : PyTpuClient Int :=
  { GetDefaultDeviceAssignment := fun _ _ => Except.ok rowMajorAssignment
    id_to_device := sixDeviceClient.id_to_device }

/-- C19 as stated fails at `numReplicas = -1` on a client that produces an
assignment for it: the loop of the legacy form runs zero times and the form
returns an empty sequence, while `result.resize(-1)` of the two-argument form
throws `std::length_error`, and so does an adapter over it. -/
theorem get_default_device_assignment_1d_negative_count :
    anyCountClient.GetDefaultDeviceAssignment (-1) 1 = Except.ok rowMajorAssignment ∧
    get_default_device_assignment_1d anyCountClient (-1) = Except.ok (Except.ok []) ∧
    get_default_device_assignment anyCountClient (-1) 1 = Except.error Abort.length_error ∧
    get_default_device_assignment_adapter anyCountClient (-1)
      = Except.error Abort.length_error ∧
    get_default_device_assignment_1d anyCountClient (-1)
      ≠ get_default_device_assignment_adapter anyCountClient (-1) := by
  have h1 : get_default_device_assignment_1d anyCountClient (-1)
      = Except.ok (Except.ok []) := rfl
  have h2 : get_default_device_assignment anyCountClient (-1) 1
      = Except.error Abort.length_error := rfl
  have h3 : get_default_device_assignment_adapter anyCountClient (-1)
      = Except.error Abort.length_error := rfl
  refine ⟨rfl, h1, h2, h3, ?_⟩
  rw [h1, h3]
  intro h
  cases h

theorem get_default_device_assignment_of_negative (client : PyTpuClient Device)
    (num_replicas : Int) (assignment : DeviceAssignment)
    (hassign : client.GetDefaultDeviceAssignment num_replicas 1 = Except.ok assignment)
    (hneg : num_replicas < 0) :
    get_default_device_assignment_1d client num_replicas = Except.ok (Except.ok []) ∧
    get_default_device_assignment client num_replicas 1
      = Except.error Abort.length_error := by
  have hzero : num_replicas.toNat = 0 := by omega
  constructor
  · simp [get_default_device_assignment_1d, hassign, hzero, forIndices]
  · simp [get_default_device_assignment, hassign, hneg]

/-- C19, amended: for every client and every `numReplicas` that is
non-negative, or for which the client produces no assignment, the legacy
one-argument `get_default_device_assignment` behaves as a thin adapter over the
two-argument form called with `numPartitions = 1`: it returns the same error
status, ends in the same abort, or succeeds, exactly when the two-argument form
does; and on success every row of the 2-D result has one cell and the flat
result is the sequence of these cells in replica order. -/
theorem get_default_device_assignment_1d_eq_adapter_of_nonneg (client : PyTpuClient Device)
    (num_replicas : Int)
    (hcount : 0 ≤ num_replicas ∨
      ∃ status, client.GetDefaultDeviceAssignment num_replicas 1 = Except.error status) :
    get_default_device_assignment_1d client num_replicas
      = get_default_device_assignment_adapter client num_replicas ∧
    (∀ grid, get_default_device_assignment client num_replicas 1
        = Except.ok (Except.ok grid) →
      (∀ row ∈ grid, row.length = 1) ∧
      get_default_device_assignment_1d client num_replicas
        = Except.ok (Except.ok grid.flatten)) ∧
    (∀ flat, get_default_device_assignment_1d client num_replicas
        = Except.ok (Except.ok flat) →
      get_default_device_assignment client num_replicas 1
        = Except.ok (Except.ok (flat.map (fun d => [d])))) := by
  cases hassign : client.GetDefaultDeviceAssignment num_replicas 1 with
  | error status =>
    have h2 : get_default_device_assignment client num_replicas 1
        = Except.ok (Except.error status) := by
      simp [get_default_device_assignment, hassign]
    have h1 : get_default_device_assignment_1d client num_replicas
        = Except.ok (Except.error status) := by
      simp [get_default_device_assignment_1d, hassign]
    refine ⟨?_, ?_, ?_⟩
    · rw [h1]; simp [get_default_device_assignment_adapter, h2]
    · intro grid hg; rw [h2] at hg; cases hg
    · intro flat hf; rw [h1] at hf; cases hf
  | ok assignment =>
    have h0 : 0 ≤ num_replicas := by
      rcases hcount with h0 | ⟨status, hstatus⟩
      · exact h0
      · rw [hassign] at hstatus; cases hstatus
    have h2 := get_default_device_assignment_of_ok client num_replicas 1 assignment hassign
      h0 (by decide)
    have hone : List.range (1 : Int).toNat = [0] := rfl
    rw [hone, forIndices_single_column
      (fun r p => client.checked_find (assignment r p))] at h2
    have h1 : get_default_device_assignment_1d client num_replicas
        = match forIndices (fun i => client.checked_find (assignment i 0))
            (List.range num_replicas.toNat) with
          | Except.error abort => Except.error abort
          | Except.ok result => Except.ok (Except.ok result) := by
      simp only [get_default_device_assignment_1d, hassign]
    cases hloop : forIndices (fun i => client.checked_find (assignment i 0))
        (List.range num_replicas.toNat) with
    | error abort =>
      rw [hloop] at h1 h2
      simp only at h1 h2
      refine ⟨?_, ?_, ?_⟩
      · rw [h1]; simp [get_default_device_assignment_adapter, h2]
      · intro grid hg; rw [h2] at hg; cases hg
      · intro flat hf; rw [h1] at hf; cases hf
    | ok flat =>
      rw [hloop] at h1 h2
      simp only at h1 h2
      refine ⟨?_, ?_, ?_⟩
      · rw [h1]
        simp [get_default_device_assignment_adapter, h2, flatten_map_singleton]
      · intro grid hg
        rw [h2] at hg
        have hgrid : flat.map (fun d => [d]) = grid := Except.ok.inj (Except.ok.inj hg)
        subst hgrid
        refine ⟨?_, ?_⟩
        · intro row hrow
          obtain ⟨d, _, hd⟩ := List.mem_map.mp hrow
          rw [← hd]; rfl
        · rw [h1, flatten_map_singleton]
      · intro flat1 hf
        rw [h1] at hf
        have hflat : flat = flat1 := Except.ok.inj (Except.ok.inj hf)
        subst hflat
        exact h2

/-- Witness for the amended C19: for two replicas both forms succeed on the
six-device client, the 2-D one with the rows `[0]` and `[3]`, the legacy one
with `[0, 3]`; for minus one replica that client has no assignment and both
forms return its status. -/
theorem get_default_device_assignment_1d_eq_adapter_of_nonneg_witness :
    get_default_device_assignment_1d sixDeviceClient 2
      = get_default_device_assignment_adapter sixDeviceClient 2 ∧
    get_default_device_assignment sixDeviceClient 2 1 = Except.ok (Except.ok [[0], [3]]) ∧
    get_default_device_assignment_1d sixDeviceClient 2 = Except.ok (Except.ok [0, 3]) ∧
    get_default_device_assignment_1d sixDeviceClient (-1)
      = get_default_device_assignment_adapter sixDeviceClient (-1) ∧
    get_default_device_assignment_1d sixDeviceClient (-1)
      = Except.ok (Except.error ⟨StatusCode.kInvalidArgument, "too many devices requested"⟩) :=
  ⟨(get_default_device_assignment_1d_eq_adapter_of_nonneg sixDeviceClient 2
      (Or.inl (by decide))).1,
    rfl,
    ((get_default_device_assignment_1d_eq_adapter_of_nonneg sixDeviceClient 2
      (Or.inl (by decide))).2.1 [[0], [3]] rfl).2,
    (get_default_device_assignment_1d_eq_adapter_of_nonneg sixDeviceClient (-1)
      (Or.inr ⟨⟨StatusCode.kInvalidArgument, "too many devices requested"⟩,
        by simp [sixDeviceClient]⟩)).1,
    by simp [get_default_device_assignment_1d, sixDeviceClient]⟩

end DeviceAssignmentClaims

/-! ## Claims on the compiler facade -/

section CompilerClaims

variable {Client PjRt Options Executable Handle World : Type}

/-- A native deserialization that fails on the empty blob and otherwise loads
an executable identified by the length of the blob; the world counts the
handles created so far and is left alone by it. -/
def lengthDeserialize (_pjrt : Unit) (serialized : String) (_options : Nat) (handles : Nat) :
    StatusOr Nat × Nat :=
  if serialized = "" then
    (Except.error ⟨StatusCode.kInvalidArgument, "empty blob"⟩, handles)
  else
    (Except.ok serialized.length, handles)

/-- A handle constructor that fails on executable `0` and otherwise creates
one more handle. -/
def countingCreate (_client : Unit) (executable : Nat) (handles : Nat) : StatusOr Nat × Nat :=
  if executable = 0 then
    (Except.error ⟨StatusCode.kInternal, "no executable"⟩, handles)
  else
    (Except.ok executable, handles + 1)

/-- C20: `PjRtCompiler::DeserializeLoadedExecutable` passes the serialized
blob and the options as they are to the client's native
`DeserializeExecutable`.  If that call fails, its status is returned unchanged
and the world is as the call left it, whatever `Create` would do: no handle is
created.  If it succeeds, the result is what `PjRtLoadedExecutable::Create`
returns for the deserialized executable, a failure included. -/
theorem DeserializeLoadedExecutable_forwards
    (pjrt_client : Client → PjRt)
    (DeserializeExecutable : PjRt → String → Options → World → StatusOr Executable × World)
    (Create : Client → Executable → World → StatusOr Handle × World)
    (client_ : Client) (serialized : String) (options : Options) (world : World) :
    (∀ status world1,
      DeserializeExecutable (pjrt_client client_) serialized options world
        = (Except.error status, world1) →
      PjRtCompiler.DeserializeLoadedExecutable pjrt_client DeserializeExecutable Create
        client_ serialized options world = (Except.error status, world1)) ∧
    (∀ executable world1,
      DeserializeExecutable (pjrt_client client_) serialized options world
        = (Except.ok executable, world1) →
      PjRtCompiler.DeserializeLoadedExecutable pjrt_client DeserializeExecutable Create
        client_ serialized options world = Create client_ executable world1) := by
  constructor
  · intro status world1 h
    simp [PjRtCompiler.DeserializeLoadedExecutable, h]
  · intro executable world1 h
    simp [PjRtCompiler.DeserializeLoadedExecutable, h]

/-- Witness for C20: the empty blob fails with the status of the native
deserialization and no handle is created; a four-byte blob gives the handle
that `Create` builds, and one handle more in the world. -/
theorem DeserializeLoadedExecutable_forwards_witness :
    PjRtCompiler.DeserializeLoadedExecutable id lengthDeserialize countingCreate () "" 0 0
      = (Except.error ⟨StatusCode.kInvalidArgument, "empty blob"⟩, 0) ∧
    PjRtCompiler.DeserializeLoadedExecutable id lengthDeserialize countingCreate () "blob" 0 0
      = countingCreate () 4 0 ∧
    countingCreate () 4 0 = (Except.ok 4, 1) :=
  ⟨(DeserializeLoadedExecutable_forwards id lengthDeserialize countingCreate () "" 0 0).1
      ⟨StatusCode.kInvalidArgument, "empty blob"⟩ 0 rfl,
    (DeserializeLoadedExecutable_forwards id lengthDeserialize countingCreate () "blob" 0 0).2
      4 0 rfl,
    rfl⟩

end CompilerClaims

end xla

/-! ## Lemmas on the library string functions -/

namespace absl

theorem digitValue_digitChar (d : Nat) (h : d < 10) :
    digitValue (Nat.digitChar d) = some d := by
  interval_cases d <;> rfl

theorem toNat_digitChar (d : Nat) (h : d < 10) :
    48 ≤ (Nat.digitChar d).toNat ∧ (Nat.digitChar d).toNat ≤ 57 := by
  interval_cases d <;> decide

theorem parseDigits_append (digits : List Char) (c : Char) :
    ∀ value, parseDigits value (digits ++ [c])
      = match parseDigits value digits with
        | none => none
        | some v =>
          match digitValue c with
          | none => none
          | some d => some (v * 10 + d) := by
  induction digits with
  | nil =>
    intro value
    cases hc : digitValue c <;> simp [parseDigits, hc]
  | cons x rest ih =>
    intro value
    cases hx : digitValue x with
    | none => simp [parseDigits, hx]
    | some d => simp [parseDigits, hx, ih]

theorem parseDigits_formatNatFuel :
    ∀ fuel n, n < fuel → parseDigits 0 (formatNatFuel fuel n) = some n := by
  intro fuel
  induction fuel with
  | zero => intro n h; omega
  | succ fuel ih =>
    intro n h
    by_cases hn : n < 10
    · simp [formatNatFuel, hn, parseDigits, digitValue_digitChar n hn]
    · have hdiv : n / 10 < fuel := by omega
      have hmod : n % 10 < 10 := Nat.mod_lt n (by decide)
      simp only [formatNatFuel, hn, if_false, parseDigits_append, ih (n / 10) hdiv,
        digitValue_digitChar (n % 10) hmod]
      congr 1
      omega

theorem formatNatFuel_digits :
    ∀ fuel n, ∀ c ∈ formatNatFuel fuel n, 48 ≤ c.toNat ∧ c.toNat ≤ 57 := by
  intro fuel
  induction fuel with
  | zero => intro n c hc; simp [formatNatFuel] at hc
  | succ fuel ih =>
    intro n c hc
    by_cases hn : n < 10
    · simp only [formatNatFuel, hn, if_true, List.mem_singleton] at hc
      rw [hc]; exact toNat_digitChar n hn
    · simp only [formatNatFuel, hn, if_false, List.mem_append, List.mem_singleton] at hc
      rcases hc with hc | hc
      · exact ih (n / 10) c hc
      · rw [hc]; exact toNat_digitChar (n % 10) (Nat.mod_lt n (by decide))

theorem formatNatFuel_ne_nil (fuel n : Nat) : formatNatFuel (fuel + 1) n ≠ [] := by
  by_cases hn : n < 10 <;> simp [formatNatFuel, hn]

theorem dropWhile_eq_self_of_forall {α : Type} (p : α → Bool) (l : List α)
    (h : ∀ x ∈ l, p x = false) : l.dropWhile p = l := by
  cases l with
  | nil => rfl
  | cons x rest => simp [List.dropWhile, h x (List.mem_cons_self x rest)]

theorem StripAsciiWhitespace_eq_self (text : List Char)
    (h : ∀ c ∈ text, ascii_isspace c = false) : StripAsciiWhitespace text = text := by
  unfold StripAsciiWhitespace
  rw [dropWhile_eq_self_of_forall ascii_isspace text h,
    dropWhile_eq_self_of_forall ascii_isspace text.reverse
      (fun c hc => h c (List.mem_reverse.mp hc)),
    List.reverse_reverse]

theorem splitOnChar_ne_nil (delimiter : Char) (text : List Char) :
    splitOnChar delimiter text ≠ [] := by
  cases text with
  | nil => simp [splitOnChar]
  | cons c rest =>
    by_cases hc : c = delimiter
    · simp [splitOnChar, hc]
    · cases hr : splitOnChar delimiter rest <;> simp [splitOnChar, hc, hr]

theorem splitOnChar_of_not_mem (delimiter : Char) (piece : List Char)
    (h : delimiter ∉ piece) : splitOnChar delimiter piece = [piece] := by
  induction piece with
  | nil => rfl
  | cons c rest ih =>
    have hc : ¬ c = delimiter := fun e => h (by rw [e]; exact List.mem_cons_self _ _)
    have hrest : delimiter ∉ rest := fun m => h (List.mem_cons_of_mem c m)
    simp [splitOnChar, hc, ih hrest]

theorem splitOnChar_append (delimiter : Char) (piece rest : List Char)
    (h : delimiter ∉ piece) :
    splitOnChar delimiter (piece ++ delimiter :: rest)
      = piece :: splitOnChar delimiter rest := by
  induction piece with
  | nil => simp [splitOnChar]
  | cons c tail ih =>
    have hc : ¬ c = delimiter := fun e => h (by rw [e]; exact List.mem_cons_self _ _)
    have htail : delimiter ∉ tail := fun m => h (List.mem_cons_of_mem c m)
    simp [splitOnChar, hc, ih htail]

theorem FormatInt_not_mem_dot (n : Int) : '.' ∉ FormatInt n := by
  intro hmem
  have hdigit : ∀ c ∈ formatNatFuel (n.natAbs + 1) n.natAbs, c ≠ '.' := by
    intro c hc e
    have := formatNatFuel_digits _ _ c hc
    rw [e] at this
    revert this
    decide
  unfold FormatInt at hmem
  by_cases hn : n < 0
  · simp only [hn, if_true, List.mem_cons] at hmem
    rcases hmem with hmem | hmem
    · revert hmem; decide
    · exact hdigit _ hmem rfl
  · simp only [hn, if_false] at hmem
    exact hdigit _ hmem rfl

theorem FormatInt_no_space (n : Int) : ∀ c ∈ FormatInt n, ascii_isspace c = false := by
  have hdigit : ∀ c ∈ formatNatFuel (n.natAbs + 1) n.natAbs, ascii_isspace c = false := by
    intro c hc
    have := formatNatFuel_digits _ _ c hc
    simp only [ascii_isspace, Bool.or_eq_false_iff, Bool.and_eq_false_iff,
      decide_eq_false_iff_not]
    omega
  intro c hc
  unfold FormatInt at hc
  by_cases hn : n < 0
  · simp only [hn, if_true, List.mem_cons] at hc
    rcases hc with hc | hc
    · rw [hc]; decide
    · exact hdigit c hc
  · simp only [hn, if_false] at hc
    exact hdigit c hc

theorem SimpleAtoi_FormatInt (n : Int) (hlo : -2147483648 ≤ n) (hhi : n ≤ 2147483647) :
    SimpleAtoi (String.mk (FormatInt n)) = some n := by
  have hstrip : StripAsciiWhitespace (String.mk (FormatInt n)).toList = FormatInt n :=
    StripAsciiWhitespace_eq_self _ (FormatInt_no_space n)
  have hparse := parseDigits_formatNatFuel (n.natAbs + 1) n.natAbs (Nat.lt_succ_self _)
  have hne := formatNatFuel_ne_nil n.natAbs n.natAbs
  cases hfmt : formatNatFuel (n.natAbs + 1) n.natAbs with
  | nil => exact absurd hfmt hne
  | cons d digits =>
    rw [hfmt] at hparse
    have hd : 48 ≤ d.toNat ∧ d.toNat ≤ 57 :=
      formatNatFuel_digits _ _ d (by rw [hfmt]; exact List.mem_cons_self _ _)
    unfold SimpleAtoi
    rw [hstrip]
    by_cases hn : n < 0
    · have habs : n.natAbs ≤ 2147483648 := by omega
      simp [FormatInt, hn, hfmt, hparse, habs]
      rw [abs_of_neg hn, neg_neg]
    · have habs : n.natAbs ≤ 2147483647 := by omega
      have hval : (n.natAbs : Int) = n := by omega
      have hminus : ¬ d = '-' := by
        intro e; rw [e] at hd; revert hd; decide
      have hplus : ¬ d = '+' := by
        intro e; rw [e] at hd; revert hd; decide
      simp [FormatInt, hn, hfmt, hparse, habs, hval, hminus, hplus]

end absl

/-! ## Claims on the driver version strings -/

namespace stream_executor.cuda

open xla (Status StatusCode StatusOr)

theorem StringToDriverVersion_of_bad_size (value : String)
    (hsize : (absl.StrSplit value '.').length < 2 ∨ (absl.StrSplit value '.').length > 4) :
    StringToDriverVersion value = Except.error ⟨StatusCode.kInvalidArgument,
      "expected %d.%d, %d.%d.%d, or %d.%d.%d.%d form for driver version; got \"" ++
        value ++ "\""⟩ := by
  simp only [StringToDriverVersion, if_pos hsize]

theorem StringToDriverVersion_of_bad_major (value : String)
    (hsize : ¬ ((absl.StrSplit value '.').length < 2 ∨ (absl.StrSplit value '.').length > 4))
    (h0 : absl.SimpleAtoi ((absl.StrSplit value '.').getD 0 "") = none) :
    StringToDriverVersion value = Except.error ⟨StatusCode.kInvalidArgument,
      "could not parse major version number \"" ++ (absl.StrSplit value '.').getD 0 "" ++
        "\" as an integer from string \"" ++ value ++ "\""⟩ := by
  simp only [StringToDriverVersion, if_neg hsize, h0]

theorem StringToDriverVersion_of_bad_minor (value : String) (major : Int)
    (hsize : ¬ ((absl.StrSplit value '.').length < 2 ∨ (absl.StrSplit value '.').length > 4))
    (h0 : absl.SimpleAtoi ((absl.StrSplit value '.').getD 0 "") = some major)
    (h1 : absl.SimpleAtoi ((absl.StrSplit value '.').getD 1 "") = none) :
    StringToDriverVersion value = Except.error ⟨StatusCode.kInvalidArgument,
      "could not parse minor version number \"" ++ (absl.StrSplit value '.').getD 1 "" ++
        "\" as an integer from string \"" ++ value ++ "\""⟩ := by
  simp only [StringToDriverVersion, if_neg hsize, h0, h1]

theorem StringToDriverVersion_of_bad_patch (value : String) (major minor : Int)
    (hsize : ¬ ((absl.StrSplit value '.').length < 2 ∨ (absl.StrSplit value '.').length > 4))
    (h0 : absl.SimpleAtoi ((absl.StrSplit value '.').getD 0 "") = some major)
    (h1 : absl.SimpleAtoi ((absl.StrSplit value '.').getD 1 "") = some minor)
    (h3 : (absl.StrSplit value '.').length = 3)
    (h2 : absl.SimpleAtoi ((absl.StrSplit value '.').getD 2 "") = none) :
    StringToDriverVersion value = Except.error ⟨StatusCode.kInvalidArgument,
      "could not parse patch version number \"" ++ (absl.StrSplit value '.').getD 2 "" ++
        "\" as an integer from string \"" ++ value ++ "\""⟩ := by
  simp only [StringToDriverVersion, if_neg hsize, h0, h1, if_pos h3, h2]

theorem StringToDriverVersion_of_three (value : String) (major minor patch : Int)
    (hsize : ¬ ((absl.StrSplit value '.').length < 2 ∨ (absl.StrSplit value '.').length > 4))
    (h0 : absl.SimpleAtoi ((absl.StrSplit value '.').getD 0 "") = some major)
    (h1 : absl.SimpleAtoi ((absl.StrSplit value '.').getD 1 "") = some minor)
    (h3 : (absl.StrSplit value '.').length = 3)
    (h2 : absl.SimpleAtoi ((absl.StrSplit value '.').getD 2 "") = some patch) :
    StringToDriverVersion value = Except.ok (major, minor, patch) := by
  simp only [StringToDriverVersion, if_neg hsize, h0, h1, if_pos h3, h2]

theorem StringToDriverVersion_of_not_three (value : String) (major minor : Int)
    (hsize : ¬ ((absl.StrSplit value '.').length < 2 ∨ (absl.StrSplit value '.').length > 4))
    (h0 : absl.SimpleAtoi ((absl.StrSplit value '.').getD 0 "") = some major)
    (h1 : absl.SimpleAtoi ((absl.StrSplit value '.').getD 1 "") = some minor)
    (h3 : ¬ (absl.StrSplit value '.').length = 3) :
    StringToDriverVersion value = Except.ok (major, minor, 0) := by
  simp only [StringToDriverVersion, if_neg hsize, h0, h1, if_neg h3]

/-- C22: `StringToDriverVersion` fails with `InvalidArgument` only, and it
fails exactly when the input split at `.` has fewer than 2 or more than 4
pieces, or the first piece is not a decimal integer (`absl::SimpleAtoi`
rejects it), or the second piece is not, or there are exactly 3 pieces and the
third is not. -/
theorem StringToDriverVersion_fails_iff (value : String) :
    (∀ status, StringToDriverVersion value = Except.error status →
      status.code = StatusCode.kInvalidArgument) ∧
    ((∃ status, StringToDriverVersion value = Except.error status) ↔
      ((absl.StrSplit value '.').length < 2 ∨ (absl.StrSplit value '.').length > 4 ∨
        absl.SimpleAtoi ((absl.StrSplit value '.').getD 0 "") = none ∨
        absl.SimpleAtoi ((absl.StrSplit value '.').getD 1 "") = none ∨
        ((absl.StrSplit value '.').length = 3 ∧
          absl.SimpleAtoi ((absl.StrSplit value '.').getD 2 "") = none))) := by
  have hfail : ∀ (code : StatusCode) (message : String),
      code = StatusCode.kInvalidArgument →
      StringToDriverVersion value = Except.error ⟨code, message⟩ →
      (∀ status, StringToDriverVersion value = Except.error status →
        status.code = StatusCode.kInvalidArgument) ∧
      ∃ status, StringToDriverVersion value = Except.error status := by
    intro code message hcode hrun
    refine ⟨?_, ⟨_, hrun⟩⟩
    intro status h
    rw [hrun] at h
    rw [← Except.error.inj h]
    exact hcode
  have hok : ∀ version, StringToDriverVersion value = Except.ok version →
      (∀ status, StringToDriverVersion value = Except.error status →
        status.code = StatusCode.kInvalidArgument) ∧
      ¬ ∃ status, StringToDriverVersion value = Except.error status := by
    intro version hrun
    refine ⟨?_, ?_⟩
    · intro status h; rw [hrun] at h; cases h
    · rintro ⟨status, h⟩; rw [hrun] at h; cases h
  by_cases hsize : (absl.StrSplit value '.').length < 2 ∨ (absl.StrSplit value '.').length > 4
  · obtain ⟨hc, he⟩ := hfail _ _ rfl (StringToDriverVersion_of_bad_size value hsize)
    refine ⟨hc, ⟨fun _ => ?_, fun _ => he⟩⟩
    rcases hsize with h | h
    · exact Or.inl h
    · exact Or.inr (Or.inl h)
  · have hlo : ¬ (absl.StrSplit value '.').length < 2 := fun h => hsize (Or.inl h)
    have hhi : ¬ (absl.StrSplit value '.').length > 4 := fun h => hsize (Or.inr h)
    cases h0 : absl.SimpleAtoi ((absl.StrSplit value '.').getD 0 "") with
    | none =>
      obtain ⟨hc, he⟩ := hfail _ _ rfl (StringToDriverVersion_of_bad_major value hsize h0)
      exact ⟨hc, ⟨fun _ => Or.inr (Or.inr (Or.inl rfl)), fun _ => he⟩⟩
    | some major =>
      cases h1 : absl.SimpleAtoi ((absl.StrSplit value '.').getD 1 "") with
      | none =>
        obtain ⟨hc, he⟩ := hfail _ _ rfl
          (StringToDriverVersion_of_bad_minor value major hsize h0 h1)
        exact ⟨hc, ⟨fun _ => Or.inr (Or.inr (Or.inr (Or.inl rfl))), fun _ => he⟩⟩
      | some minor =>
        by_cases h3 : (absl.StrSplit value '.').length = 3
        · cases h2 : absl.SimpleAtoi ((absl.StrSplit value '.').getD 2 "") with
          | none =>
            obtain ⟨hc, he⟩ := hfail _ _ rfl
              (StringToDriverVersion_of_bad_patch value major minor hsize h0 h1 h3 h2)
            exact ⟨hc, ⟨fun _ => Or.inr (Or.inr (Or.inr (Or.inr ⟨h3, rfl⟩))), fun _ => he⟩⟩
          | some patch =>
            obtain ⟨hc, hne⟩ := hok _
              (StringToDriverVersion_of_three value major minor patch hsize h0 h1 h3 h2)
            refine ⟨hc, ⟨fun h => absurd h hne, ?_⟩⟩
            rintro (h | h | h | h | ⟨_, h⟩)
            · exact absurd h hlo
            · exact absurd h hhi
            · cases h
            · cases h
            · cases h
        · obtain ⟨hc, hne⟩ := hok _
            (StringToDriverVersion_of_not_three value major minor hsize h0 h1 h3)
          refine ⟨hc, ⟨fun h => absurd h hne, ?_⟩⟩
          rintro (h | h | h | h | ⟨h, _⟩)
          · exact absurd h hlo
          · exact absurd h hhi
          · cases h
          · cases h
          · exact absurd h h3

/-- Witness for C22: `7` has one piece, `1.x` has a second piece that is no
integer, `1.2.x` a third one; each fails with `InvalidArgument`. -/
theorem StringToDriverVersion_fails_iff_witness :
    (∃ status, StringToDriverVersion "7" = Except.error status) ∧
    (∃ status, StringToDriverVersion "1.x" = Except.error status ∧
      status.code = StatusCode.kInvalidArgument) ∧
    StringToDriverVersion "1.2.x" = Except.error ⟨StatusCode.kInvalidArgument,
      "could not parse patch version number \"x\" as an integer from string \"1.2.x\""⟩ ∧
    StringToDriverVersion "470.57.02" = Except.ok (470, 57, 2) :=
  ⟨(StringToDriverVersion_fails_iff "7").2.mpr (Or.inl (by decide)),
    ⟨_, rfl, (StringToDriverVersion_fails_iff "1.x").1 _ rfl⟩,
    rfl, rfl⟩

/-- C23: on success `StringToDriverVersion` returns `(major, minor, patch)`
with `major` and `minor` the integer values of the first two pieces and
`patch` the value of the third piece when there are exactly 3 pieces, `0`
otherwise.  With exactly 4 pieces the result is `(major, minor, 0)` as soon as
the first two pieces are integers, whatever the third and the fourth are:
`1.2.x.y` and `1.2.3.4` both give `(1, 2, 0)`. -/
theorem StringToDriverVersion_value (value : String) :
    (∀ version, StringToDriverVersion value = Except.ok version →
      absl.SimpleAtoi ((absl.StrSplit value '.').getD 0 "") = some version.1 ∧
      absl.SimpleAtoi ((absl.StrSplit value '.').getD 1 "") = some version.2.1 ∧
      ((absl.StrSplit value '.').length = 3 →
        absl.SimpleAtoi ((absl.StrSplit value '.').getD 2 "") = some version.2.2) ∧
      ((absl.StrSplit value '.').length ≠ 3 → version.2.2 = 0)) ∧
    (∀ major minor, (absl.StrSplit value '.').length = 4 →
      absl.SimpleAtoi ((absl.StrSplit value '.').getD 0 "") = some major →
      absl.SimpleAtoi ((absl.StrSplit value '.').getD 1 "") = some minor →
      StringToDriverVersion value = Except.ok (major, minor, 0)) ∧
    StringToDriverVersion "1.2.x.y" = Except.ok (1, 2, 0) ∧
    StringToDriverVersion "1.2.3.4" = Except.ok (1, 2, 0) := by
  refine ⟨?_, ?_, rfl, rfl⟩
  · intro version hrun
    by_cases hsize : (absl.StrSplit value '.').length < 2 ∨ (absl.StrSplit value '.').length > 4
    · rw [StringToDriverVersion_of_bad_size value hsize] at hrun; cases hrun
    · cases h0 : absl.SimpleAtoi ((absl.StrSplit value '.').getD 0 "") with
      | none => rw [StringToDriverVersion_of_bad_major value hsize h0] at hrun; cases hrun
      | some major =>
        cases h1 : absl.SimpleAtoi ((absl.StrSplit value '.').getD 1 "") with
        | none =>
          rw [StringToDriverVersion_of_bad_minor value major hsize h0 h1] at hrun; cases hrun
        | some minor =>
          by_cases h3 : (absl.StrSplit value '.').length = 3
          · cases h2 : absl.SimpleAtoi ((absl.StrSplit value '.').getD 2 "") with
            | none =>
              rw [StringToDriverVersion_of_bad_patch value major minor hsize h0 h1 h3 h2]
                at hrun
              cases hrun
            | some patch =>
              rw [StringToDriverVersion_of_three value major minor patch hsize h0 h1 h3 h2]
                at hrun
              have hv : (major, minor, patch) = version := Except.ok.inj hrun
              subst hv
              exact ⟨rfl, rfl, fun _ => rfl, fun h => absurd h3 h⟩
          · rw [StringToDriverVersion_of_not_three value major minor hsize h0 h1 h3] at hrun
            have hv : (major, minor, 0) = version := Except.ok.inj hrun
            subst hv
            exact ⟨rfl, rfl, fun h => absurd h h3, fun _ => rfl⟩
  · intro major minor h4 h0 h1
    have hsize : ¬ ((absl.StrSplit value '.').length < 2 ∨
        (absl.StrSplit value '.').length > 4) := by omega
    have h3 : ¬ (absl.StrSplit value '.').length = 3 := by omega
    exact StringToDriverVersion_of_not_three value major minor hsize h0 h1 h3

/-- Witness for C23: `525.60.13` has three pieces and patch `13`; `12.4` has
two pieces and patch `0`; `7.5.rc1.x` has four pieces and patch `0`. -/
theorem StringToDriverVersion_value_witness :
    StringToDriverVersion "525.60.13" = Except.ok (525, 60, 13) ∧
    absl.SimpleAtoi ((absl.StrSplit "525.60.13" '.').getD 2 "") = some 13 ∧
    StringToDriverVersion "12.4" = Except.ok (12, 4, 0) ∧
    StringToDriverVersion "7.5.rc1.x" = Except.ok (7, 5, 0) :=
  ⟨rfl,
    ((StringToDriverVersion_value "525.60.13").1 (525, 60, 13) rfl).2.2.1 rfl,
    rfl,
    (StringToDriverVersion_value "7.5.rc1.x").2.1 7 5 rfl rfl rfl⟩

theorem StrSplit_DriverVersionToString (version : DriverVersion) :
    absl.StrSplit (DriverVersionToString version) '.'
      = [String.mk (absl.FormatInt version.1), String.mk (absl.FormatInt version.2.1),
          String.mk (absl.FormatInt version.2.2)] := by
  have hlist : (DriverVersionToString version).toList
      = absl.FormatInt version.1 ++ '.' :: (absl.FormatInt version.2.1 ++
          '.' :: absl.FormatInt version.2.2) := by
    simp [DriverVersionToString]
  unfold absl.StrSplit
  rw [hlist, absl.splitOnChar_append _ _ _ (absl.FormatInt_not_mem_dot _),
    absl.splitOnChar_append _ _ _ (absl.FormatInt_not_mem_dot _),
    absl.splitOnChar_of_not_mem _ _ (absl.FormatInt_not_mem_dot _)]
  rfl

/-- C24: printing and parsing a driver version round-trip: for every
`DriverVersion` of 32-bit `int` components, negative ones included,
`StringToDriverVersion(DriverVersionToString(v))` succeeds and is `v`. -/
theorem DriverVersion_roundtrip (major minor patch : Int)
    (hmajor : -2147483648 ≤ major ∧ major ≤ 2147483647)
    (hminor : -2147483648 ≤ minor ∧ minor ≤ 2147483647)
    (hpatch : -2147483648 ≤ patch ∧ patch ≤ 2147483647) :
    StringToDriverVersion (DriverVersionToString (major, minor, patch))
      = Except.ok (major, minor, patch) := by
  have hsplit := StrSplit_DriverVersionToString (major, minor, patch)
  have hsize : ¬ ((absl.StrSplit (DriverVersionToString (major, minor, patch)) '.').length < 2 ∨
      (absl.StrSplit (DriverVersionToString (major, minor, patch)) '.').length > 4) := by
    rw [hsplit]; simp
  apply StringToDriverVersion_of_three _ major minor patch hsize
  · rw [hsplit]; exact absl.SimpleAtoi_FormatInt major hmajor.1 hmajor.2
  · rw [hsplit]; exact absl.SimpleAtoi_FormatInt minor hminor.1 hminor.2
  · rw [hsplit]; rfl
  · rw [hsplit]; exact absl.SimpleAtoi_FormatInt patch hpatch.1 hpatch.2

/-- Witness for C24: the version `(-2147483648, -1, 2147483647)` is printed as
`-2147483648.-1.2147483647` and parsed back. -/
theorem DriverVersion_roundtrip_witness :
    DriverVersionToString (-2147483648, -1, 2147483647) = "-2147483648.-1.2147483647" ∧
    StringToDriverVersion (DriverVersionToString (-2147483648, -1, 2147483647))
      = Except.ok (-2147483648, -1, 2147483647) :=
  ⟨by decide,
    DriverVersion_roundtrip (-2147483648) (-1) 2147483647 (by decide) (by decide) (by decide)⟩

end stream_executor.cuda

namespace xla

/-! ## Claim on the propagation of failures -/

section PropagationClaims

variable {Shape ShapeProto EBO EBOProto MSC HloSharding Comp P A F V : Type}
variable {Client PjRt Options Executable Handle World : Type}

/-- A handle whose `GetHloModules` fails. -/
def failingHandle : PjRtExecutable (OpSharding Nat) Nat :=
  { name := "failing"
    GetHloModules := Except.error ⟨StatusCode.kInternal, "modules unavailable"⟩ }

/-- C21, as stated, fails for the sharding queries: on `failingHandle`, whose
`GetHloModules` fails, `GetOutputShardings` and `GetParameterShardings` return
absent, the very result they return on a healthy handle over a module without
SPMD annotations; the status of the failure does not reach the caller. -/
theorem sharding_queries_swallow_failure :
    failingHandle.GetHloModules
      = Except.error ⟨StatusCode.kInternal, "modules unavailable"⟩ ∧
    PjRtExecutable.GetOutputShardings id failingHandle = none ∧
    PjRtExecutable.GetParameterShardings id failingHandle = none ∧
    PjRtExecutable.GetOutputShardings id
        (⟨"healthy", Except.ok [plainModule]⟩ : PjRtExecutable (OpSharding Nat) Nat)
      = PjRtExecutable.GetOutputShardings id failingHandle ∧
    PjRtExecutable.GetParameterShardings id
        (⟨"healthy", Except.ok [plainModule]⟩ : PjRtExecutable (OpSharding Nat) Nat)
      = PjRtExecutable.GetParameterShardings id failingHandle :=
  ⟨rfl, rfl, rfl, rfl, rfl⟩

/-- C21 (amended): `CompileOptions::ToProto`, `CompileOptions::FromProto` (on
a record without multi-slice blob, the one case in which it calls the nested
conversion), `RunHloCostAnalysis` and `DeserializeLoadedExecutable` hand the
failure of a collaborator they call to their caller, unchanged: the nested
build-options conversion, `GetHloModules`, the analyzer traversal, the native
deserialization and the creation of the handle.  `GetOutputShardings` and
`GetParameterShardings` have no failure result: they answer a failure of
`GetHloModules` with absent. -/
theorem collaborator_failures_propagate
    (shapeToProto : Shape → ShapeProto) (shapeFromProto : ShapeProto → Shape)
    (eboToProto : EBO → StatusOr EBOProto) (eboFromProto : EBOProto → StatusOr EBO)
    (serialize : MSC → String) (toProto : HloSharding → OpSharding P)
    (Accept : Comp → A → Except Status Unit × A) (ForEach : A → List (String × F))
    (ofFloat : F → V)
    (pjrt_client : Client → PjRt)
    (DeserializeExecutable : PjRt → String → Options → World → StatusOr Executable × World)
    (Create : Client → Executable → World → StatusOr Handle × World)
    (status : Status) :
    (∀ x : CompileOptions Shape EBO MSC,
      eboToProto x.executable_build_options = Except.error status →
      CompileOptions.ToProto shapeToProto eboToProto serialize x = Except.error status) ∧
    (∀ proto : CompileOptionsProto ShapeProto EBOProto,
      proto.serialized_multi_slice_config = "" →
      eboFromProto proto.executable_build_options = Except.error status →
      (CompileOptions.FromProto shapeFromProto eboFromProto proto :
        StatusOr (CompileOptions Shape EBO MSC)) = Except.error status) ∧
    (∀ (executable : PjRtExecutable HloSharding Comp) (analysis : A),
      executable.GetHloModules = Except.error status →
      PjRtExecutableUtil.RunHloCostAnalysis Accept ForEach ofFloat executable analysis
        = (Except.error status, analysis)) ∧
    (∀ (executable : PjRtExecutable HloSharding Comp) (analysis analysis1 : A)
        (module0 : HloModule HloSharding Comp),
      executable.GetHloModules = Except.ok [module0] →
      Accept module0.entry_computation analysis = (Except.error status, analysis1) →
      PjRtExecutableUtil.RunHloCostAnalysis Accept ForEach ofFloat executable analysis
        = (Except.error status, analysis1)) ∧
    (∀ (client_ : Client) (serialized : String) (options : Options) (world world1 : World),
      DeserializeExecutable (pjrt_client client_) serialized options world
        = (Except.error status, world1) →
      PjRtCompiler.DeserializeLoadedExecutable pjrt_client DeserializeExecutable Create
        client_ serialized options world = (Except.error status, world1)) ∧
    (∀ (client_ : Client) (serialized : String) (options : Options) (world world1 world2 : World)
        (executable : Executable),
      DeserializeExecutable (pjrt_client client_) serialized options world
        = (Except.ok executable, world1) →
      Create client_ executable world1 = (Except.error status, world2) →
      PjRtCompiler.DeserializeLoadedExecutable pjrt_client DeserializeExecutable Create
        client_ serialized options world = (Except.error status, world2)) ∧
    (∀ executable : PjRtExecutable HloSharding Comp,
      executable.GetHloModules = Except.error status →
      executable.GetOutputShardings toProto = none ∧
      executable.GetParameterShardings toProto = none) := by
  refine ⟨?_, ?_, ?_, ?_, ?_, ?_, ?_⟩
  · intro x h
    exact CompileOptions.ToProto_of_error shapeToProto eboToProto serialize x status h
  · intro proto hblob h
    exact CompileOptions.FromProto_of_error shapeFromProto eboFromProto proto status hblob h
  · intro executable analysis h
    simp [PjRtExecutableUtil.RunHloCostAnalysis, h]
  · intro executable analysis analysis1 module0 h hacc
    simp [PjRtExecutableUtil.RunHloCostAnalysis, h, hacc]
  · intro client_ serialized options world world1 h
    simp [PjRtCompiler.DeserializeLoadedExecutable, h]
  · intro client_ serialized options world world1 world2 executable h hcreate
    simp [PjRtCompiler.DeserializeLoadedExecutable, h, hcreate]
  · intro executable h
    simp [PjRtExecutable.GetOutputShardings, PjRtExecutable.GetParameterShardings, h]

/-- Witness for C21 (amended): `badBuildOptions` fails in `ToProto` with the
status of its build options, and cost analysis on `failingHandle` fails with
the status of `GetHloModules`, the analyzer not run. -/
theorem collaborator_failures_propagate_witness :
    CompileOptions.ToProto (fun n => n + 1) eboToList id badBuildOptions
      = Except.error ⟨StatusCode.kInvalidArgument, "no build options"⟩ ∧
    PjRtExecutableUtil.RunHloCostAnalysis countingAccept countingForEach Int.ofNat
        failingHandle 0
      = (Except.error ⟨StatusCode.kInternal, "modules unavailable"⟩, 0) ∧
    PjRtExecutable.GetOutputShardings id failingHandle = none :=
  ⟨(collaborator_failures_propagate (fun n => n + 1) (fun n => n - 1) eboToList eboFromList
      (id : String → String) (id : OpSharding Nat → OpSharding Nat) countingAccept
      countingForEach Int.ofNat (id : Unit → Unit) lengthDeserialize countingCreate
      ⟨StatusCode.kInvalidArgument, "no build options"⟩).1 badBuildOptions rfl,
    (collaborator_failures_propagate (fun n => n + 1) (fun n => n - 1) eboToList eboFromList
      (id : String → String) (id : OpSharding Nat → OpSharding Nat) countingAccept
      countingForEach Int.ofNat (id : Unit → Unit) lengthDeserialize countingCreate
      ⟨StatusCode.kInternal, "modules unavailable"⟩).2.2.1 failingHandle 0 rfl,
    ((collaborator_failures_propagate (fun n => n + 1) (fun n => n - 1) eboToList eboFromList
      (id : String → String) (id : OpSharding Nat → OpSharding Nat) countingAccept
      countingForEach Int.ofNat (id : Unit → Unit) lengthDeserialize countingCreate
      ⟨StatusCode.kInternal, "modules unavailable"⟩).2.2.2.2.2.2 failingHandle rfl).1⟩

end PropagationClaims

/-! ## Claims on the test utilities -/

section FlagClaims

theorem containsChars_iff (needle : List Char) :
    ∀ haystack : List Char,
      absl.containsChars needle haystack = true ↔
        ∃ before after, haystack = before ++ needle ++ after := by
  intro haystack
  induction haystack with
  | nil =>
    simp only [absl.containsChars]
    constructor
    · intro h
      have hn : needle = [] := by
        cases needle with
        | nil => rfl
        | cons c rest => simp [List.isPrefixOf] at h
      exact ⟨[], [], by simp [hn]⟩
    · rintro ⟨before, after, h⟩
      have hn : needle = [] := by
        have hlen := congrArg List.length h
        simp only [List.length_nil, List.length_append] at hlen
        exact List.length_eq_zero.mp (by omega)
      simp [hn, List.isPrefixOf]
  | cons c rest ih =>
    simp only [absl.containsChars, Bool.or_eq_true, ih, List.isPrefixOf_iff_prefix]
    constructor
    · rintro (⟨after, h⟩ | ⟨before, after, h⟩)
      · exact ⟨[], after, by simp [h]⟩
      · exact ⟨c :: before, after, by simp [h]⟩
    · rintro ⟨before, after, h⟩
      cases before with
      | nil => exact Or.inl ⟨after, by simpa using h.symm⟩
      | cons b before1 =>
        simp only [List.cons_append, List.cons.injEq] at h
        exact Or.inr ⟨before1, after, h.2⟩

/-- C25: `IsMlirLoweringEnabled` is a function of the value of `XLA_FLAGS`
alone: false when the variable is unset, and otherwise true exactly when the
value contains `--xla_cpu_use_xla_runtime` and does not contain
`--xla_cpu_use_xla_runtime=false`; equal values give equal results. -/
theorem IsMlirLoweringEnabled_spec :
    IsMlirLoweringEnabled none = false ∧
    (∀ flags : String,
      IsMlirLoweringEnabled (some flags) = true ↔
        ((∃ before after,
            flags.toList = before ++ "--xla_cpu_use_xla_runtime".toList ++ after) ∧
          ¬ ∃ before after,
            flags.toList = before ++ "--xla_cpu_use_xla_runtime=false".toList ++ after)) ∧
    (∀ first second : Option String, first = second →
      IsMlirLoweringEnabled first = IsMlirLoweringEnabled second) := by
  refine ⟨rfl, ?_, ?_⟩
  · intro flags
    simp only [IsMlirLoweringEnabled, absl.StrContains, Bool.and_eq_true, Bool.not_eq_true',
      ← containsChars_iff]
    constructor
    · rintro ⟨h1, h2⟩
      exact ⟨h2, Bool.eq_false_iff.mp h1⟩
    · rintro ⟨h1, h2⟩
      exact ⟨Bool.eq_false_iff.mpr h2, h1⟩
  · intro first second h
    rw [h]

/-- Witness for C25: the flag alone enables, the flag set to `false` does
not, and neither does an unrelated value. -/
theorem IsMlirLoweringEnabled_spec_witness :
    IsMlirLoweringEnabled (some "--xla_cpu_use_xla_runtime") = true ∧
    IsMlirLoweringEnabled (some "--foo --xla_cpu_use_xla_runtime=false") = false ∧
    IsMlirLoweringEnabled (some "--xla_gpu_autotune_level=0") = false ∧
    IsMlirLoweringEnabled none = false :=
  ⟨(IsMlirLoweringEnabled_spec.2.1 "--xla_cpu_use_xla_runtime").mpr
      ⟨⟨[], [], by simp⟩, by
        rintro ⟨before, after, h⟩
        have hlen := congrArg List.length h
        simp at hlen
        have : "--xla_cpu_use_xla_runtime".toList.length = 25 := by decide
        have : "--xla_cpu_use_xla_runtime=false".toList.length = 31 := by decide
        omega⟩,
    by decide, by decide, IsMlirLoweringEnabled_spec.1⟩

end FlagClaims

section IntNextClaims

theorem PopulateWithIntNext.bits_eq (n : Nat) :
    PopulateWithIntNext.bits n = (n &&& 0xBFFF) ||| ((n &&& 0x4000) <<< 1) := by
  unfold PopulateWithIntNext.bits
  apply Nat.mod_eq_of_lt
  have h1 : n &&& 0xBFFF < 2 ^ 16 :=
    lt_of_le_of_lt Nat.and_le_right (by decide)
  have h2 : (n &&& 0x4000) <<< 1 < 2 ^ 16 := by
    have : n &&& 0x4000 ≤ 0x4000 := Nat.and_le_right
    rw [Nat.shiftLeft_eq]
    omega
  exact Nat.or_lt_two_pow h1 h2

theorem PopulateWithIntNext.testBit_bits (n i : Nat) :
    (PopulateWithIntNext.bits n).testBit i
      = ((n.testBit i && (0xBFFF : Nat).testBit i) ||
          (decide (1 ≤ i) && (n.testBit (i - 1) && (0x4000 : Nat).testBit (i - 1)))) := by
  rw [PopulateWithIntNext.bits_eq]
  simp [Nat.testBit_or, Nat.testBit_and, Nat.testBit_shiftLeft]

theorem PopulateWithIntNext.testBit_bits_14 (n : Nat) :
    (PopulateWithIntNext.bits n).testBit 14 = false := by
  rw [PopulateWithIntNext.testBit_bits]
  have h1 : (0xBFFF : Nat).testBit 14 = false := by decide
  have h2 : (0x4000 : Nat).testBit (14 - 1) = false := by decide
  simp [h1, h2]

theorem PopulateWithIntNext.testBit_bits_15 (n : Nat) :
    (PopulateWithIntNext.bits n).testBit 15 = (n.testBit 15 || n.testBit 14) := by
  rw [PopulateWithIntNext.testBit_bits]
  have h1 : (0xBFFF : Nat).testBit 15 = true := by decide
  have h2 : (0x4000 : Nat).testBit (15 - 1) = true := by decide
  simp [h1, h2]

theorem PopulateWithIntNext.testBit_bits_low (n i : Nat) (hi : i ≤ 13) :
    (PopulateWithIntNext.bits n).testBit i = n.testBit i := by
  rw [PopulateWithIntNext.testBit_bits]
  have h1 : (0xBFFF : Nat).testBit i = true := by
    interval_cases i <;> decide
  have h2 : (0x4000 : Nat).testBit (i - 1) = false := by
    interval_cases i <;> decide
  simp [h1, h2]

theorem PopulateWithIntNext.mem_loop (literal : List Nat) :
    ∀ next_value, ∀ x ∈ PopulateWithIntNext.loop next_value literal,
      ∃ counter, x = PopulateWithIntNext.bits counter := by
  induction literal with
  | nil => intro next_value x hx; simp [PopulateWithIntNext.loop] at hx
  | cons e rest ih =>
    intro next_value x hx
    simp only [PopulateWithIntNext.loop, List.mem_cons] at hx
    rcases hx with hx | hx
    · exact ⟨next_value, hx⟩
    · exact ih _ x hx

theorem PopulateWithIntNext.length_loop (literal : List Nat) :
    ∀ next_value, (PopulateWithIntNext.loop next_value literal).length = literal.length := by
  induction literal with
  | nil => intro next_value; rfl
  | cons e rest ih => intro next_value; simp [PopulateWithIntNext.loop, ih]

theorem PopulateWithIntNext.getElem_loop (literal : List Nat) :
    ∀ next_value i, next_value < 65536 → i < literal.length →
      (PopulateWithIntNext.loop next_value literal)[i]?
        = some (PopulateWithIntNext.bits ((next_value + i) % 65536)) := by
  induction literal with
  | nil => intro next_value i _ hi; simp at hi
  | cons e rest ih =>
    intro next_value i hnext hi
    cases i with
    | zero =>
      simp only [PopulateWithIntNext.loop, List.getElem?_cons_zero, Nat.add_zero,
        Nat.mod_eq_of_lt hnext]
    | succ i =>
      simp only [PopulateWithIntNext.loop, List.getElem?_cons_succ]
      rw [ih _ i (Nat.mod_lt _ (by decide)) (by simpa using hi)]
      congr 2
      omega

/-- C26: the pattern `(n & 0xBFFF) | ((n & 0x4000) << 1)` that
`PopulateWithIntNext` stores for a counter value `n` has bit 14 clear, so its
exponent field is not all ones, neither as a half (bits 14..10) nor as a
bfloat16 (bits 14..7), and its sign bit is bit 15 of `n` or bit 14 of `n`;
hence no element that `PopulateWithIntNext<half>` or
`PopulateWithIntNext<bfloat16>` writes is an Inf or a NaN pattern. -/
theorem PopulateWithIntNext_no_inf_nan (n : Nat) (literal : List Nat) :
    PopulateWithIntNext.bits n = (n &&& 0xBFFF) ||| ((n &&& 0x4000) <<< 1) ∧
    (PopulateWithIntNext.bits n).testBit 14 = false ∧
    (PopulateWithIntNext.bits n >>> 10) &&& 0x1F ≠ 0x1F ∧
    (PopulateWithIntNext.bits n >>> 7) &&& 0xFF ≠ 0xFF ∧
    (PopulateWithIntNext.bits n).testBit 15 = (n.testBit 15 || n.testBit 14) ∧
    (∀ x ∈ PopulateWithIntNext_half literal,
      x.testBit 14 = false ∧ (x >>> 10) &&& 0x1F ≠ 0x1F) ∧
    (∀ x ∈ PopulateWithIntNext_bfloat16 literal,
      x.testBit 14 = false ∧ (x >>> 7) &&& 0xFF ≠ 0xFF) := by
  have hhalf : ∀ c, (PopulateWithIntNext.bits c >>> 10) &&& 0x1F ≠ 0x1F := by
    intro c h
    have hbit := congrArg (fun v => Nat.testBit v 4) h
    simp only [Nat.testBit_and, Nat.testBit_shiftRight,
      PopulateWithIntNext.testBit_bits_14 c] at hbit
    revert hbit
    decide
  have hbf : ∀ c, (PopulateWithIntNext.bits c >>> 7) &&& 0xFF ≠ 0xFF := by
    intro c h
    have hbit := congrArg (fun v => Nat.testBit v 7) h
    simp only [Nat.testBit_and, Nat.testBit_shiftRight,
      PopulateWithIntNext.testBit_bits_14 c] at hbit
    revert hbit
    decide
  refine ⟨PopulateWithIntNext.bits_eq n, PopulateWithIntNext.testBit_bits_14 n, hhalf n, hbf n,
    PopulateWithIntNext.testBit_bits_15 n, ?_, ?_⟩
  · intro x hx
    obtain ⟨c, hc⟩ := PopulateWithIntNext.mem_loop literal 0 x hx
    rw [hc]
    exact ⟨PopulateWithIntNext.testBit_bits_14 c, hhalf c⟩
  · intro x hx
    obtain ⟨c, hc⟩ := PopulateWithIntNext.mem_loop literal 0x80 x hx
    rw [hc]
    exact ⟨PopulateWithIntNext.testBit_bits_14 c, hbf c⟩

/-- Witness for C26: the counter `0x7C00`, itself the half pattern of `+Inf`,
is stored as `0xBC00`, and the counter `0xFFFF` as `0xBFFF`. -/
theorem PopulateWithIntNext_no_inf_nan_witness :
    PopulateWithIntNext.bits 0x7C00 = 0xBC00 ∧
    PopulateWithIntNext.bits 0xFFFF = 0xBFFF ∧
    (PopulateWithIntNext.bits 0x7C00 >>> 10) &&& 0x1F ≠ 0x1F ∧
    PopulateWithIntNext_half [0, 0, 0] = [0, 1, 2] ∧
    (∀ x ∈ PopulateWithIntNext_half [0, 0, 0], x.testBit 14 = false ∧
      (x >>> 10) &&& 0x1F ≠ 0x1F) :=
  ⟨by decide, by decide, (PopulateWithIntNext_no_inf_nan 0x7C00 []).2.2.1, by decide,
    (PopulateWithIntNext_no_inf_nan 0 [0, 0, 0]).2.2.2.2.2.1⟩

/-- C27, evaluated where it fails: in a bfloat16 literal of 16258 elements,
the element of index 16257 is written from the counter `0x80 + 16257 =
0x4001`; its pattern is `0x8001`, sign bit set, exponent field zero, mantissa
`1`: a denormal.  Element 0, from the counter `0x80`, is not one. -/
theorem PopulateWithIntNext_bfloat16_denormal :
    (PopulateWithIntNext_bfloat16 (List.replicate 16258 0))[16257]? = some 0x8001 ∧
    bfloat16_is_denormal 0x8001 = true ∧
    (PopulateWithIntNext_bfloat16 (List.replicate 16258 0))[0]? = some 0x80 ∧
    bfloat16_is_denormal 0x80 = false := by
  refine ⟨?_, by decide, ?_, by decide⟩
  · rw [PopulateWithIntNext_bfloat16,
      PopulateWithIntNext.getElem_loop _ 0x80 16257 (by decide)
        (by rw [List.length_replicate]; decide)]
    decide
  · rw [PopulateWithIntNext_bfloat16,
      PopulateWithIntNext.getElem_loop _ 0x80 0 (by decide)
        (by rw [List.length_replicate]; decide)]
    decide

theorem PopulateWithIntNext.bits_injective (m n : Nat) (hm : m < 0x8000) (hn : n < 0x8000)
    (h : PopulateWithIntNext.bits m = PopulateWithIntNext.bits n) : m = n := by
  have hm15 : ∀ i, 15 ≤ i → m.testBit i = false := fun i hi =>
    Nat.testBit_lt_two_pow (lt_of_lt_of_le hm (by
      calc (0x8000 : Nat) = 2 ^ 15 := by decide
        _ ≤ 2 ^ i := Nat.pow_le_pow_right (by decide) hi))
  have hn15 : ∀ i, 15 ≤ i → n.testBit i = false := fun i hi =>
    Nat.testBit_lt_two_pow (lt_of_lt_of_le hn (by
      calc (0x8000 : Nat) = 2 ^ 15 := by decide
        _ ≤ 2 ^ i := Nat.pow_le_pow_right (by decide) hi))
  apply Nat.eq_of_testBit_eq
  intro i
  by_cases hlow : i ≤ 13
  · have hbit := congrArg (fun v => Nat.testBit v i) h
    simp only [PopulateWithIntNext.testBit_bits_low _ i hlow] at hbit
    exact hbit
  · by_cases h14 : i = 14
    · subst h14
      have hbit := congrArg (fun v => Nat.testBit v 15) h
      simp only [PopulateWithIntNext.testBit_bits_15, hm15 15 (le_refl 15),
        hn15 15 (le_refl 15), Bool.false_or] at hbit
      exact hbit
    · rw [hm15 i (by omega), hn15 i (by omega)]

theorem PopulateWithIntNext.loop_eq_map (literal : List Nat) (next_value : Nat)
    (hnext : next_value < 65536) :
    PopulateWithIntNext.loop next_value literal
      = (List.range literal.length).map
          (fun i => PopulateWithIntNext.bits ((next_value + i) % 65536)) := by
  apply List.ext_getElem?
  intro i
  by_cases hi : i < literal.length
  · rw [PopulateWithIntNext.getElem_loop literal next_value i hnext hi]
    simp [List.getElem?_map, List.getElem?_range, hi]
  · have h1 : (PopulateWithIntNext.loop next_value literal)[i]? = none := by
      apply List.getElem?_eq_none
      rw [PopulateWithIntNext.length_loop]; omega
    have h2 : ((List.range literal.length).map
        (fun i => PopulateWithIntNext.bits ((next_value + i) % 65536)))[i]? = none := by
      apply List.getElem?_eq_none
      simp; omega
    rw [h1, h2]

theorem PopulateWithIntNext.nodup_loop (literal : List Nat) (next_value : Nat)
    (h : next_value + literal.length ≤ 0x8000) :
    (PopulateWithIntNext.loop next_value literal).Nodup := by
  by_cases hempty : literal.length = 0
  · have : literal = [] := List.length_eq_zero.mp hempty
    subst this
    simp [PopulateWithIntNext.loop]
  · rw [PopulateWithIntNext.loop_eq_map literal next_value (by omega)]
    apply List.Nodup.map_on _ (List.nodup_range _)
    intro i hi j hj hij
    have hi1 := List.mem_range.mp hi
    have hj1 := List.mem_range.mp hj
    have hmi : (next_value + i) % 65536 = next_value + i := Nat.mod_eq_of_lt (by omega)
    have hmj : (next_value + j) % 65536 = next_value + j := Nat.mod_eq_of_lt (by omega)
    simp only [hmi, hmj] at hij
    have := PopulateWithIntNext.bits_injective _ _ (by omega) (by omega) hij
    omega

theorem PopulateWithIntNext.loop_take (literal : List Nat) :
    ∀ next_value k,
      (PopulateWithIntNext.loop next_value literal).take k
        = PopulateWithIntNext.loop next_value (literal.take k) := by
  induction literal with
  | nil => intro next_value k; simp [PopulateWithIntNext.loop]
  | cons e rest ih =>
    intro next_value k
    cases k with
    | zero => simp [PopulateWithIntNext.loop]
    | succ k => simp [PopulateWithIntNext.loop, ih]

/-- C28: the pattern map of `PopulateWithIntNext` is injective on the counter
values below `0x8000` and not beyond (`0x8000` and `0x4000` have the same
pattern).  So a half literal of at most `0x8000` elements and a bfloat16
literal of at most `0x7F80` elements get pairwise distinct patterns, as do the
first `0x8000`, resp. `0x7F80`, elements of a longer literal, whose next
element (index `0x8000`, resp. `0x7F80`) repeats the pattern of the element
written from the counter `0x4000`. -/
theorem PopulateWithIntNext_distinct (literal : List Nat) :
    (∀ m n, m < 0x8000 → n < 0x8000 →
      PopulateWithIntNext.bits m = PopulateWithIntNext.bits n → m = n) ∧
    PopulateWithIntNext.bits 0x8000 = PopulateWithIntNext.bits 0x4000 ∧
    (literal.length ≤ 0x8000 → (PopulateWithIntNext_half literal).Nodup) ∧
    (literal.length ≤ 0x7F80 → (PopulateWithIntNext_bfloat16 literal).Nodup) ∧
    ((PopulateWithIntNext_half literal).take 0x8000).Nodup ∧
    ((PopulateWithIntNext_bfloat16 literal).take 0x7F80).Nodup ∧
    (0x8000 < literal.length →
      (PopulateWithIntNext_half literal)[0x8000]? = some 0x8000 ∧
      (PopulateWithIntNext_half literal)[0x4000]? = some 0x8000) ∧
    (0x7F80 < literal.length →
      (PopulateWithIntNext_bfloat16 literal)[0x7F80]? = some 0x8000 ∧
      (PopulateWithIntNext_bfloat16 literal)[0x3F80]? = some 0x8000) := by
  refine ⟨PopulateWithIntNext.bits_injective, by decide, ?_, ?_, ?_, ?_, ?_, ?_⟩
  · intro h
    exact PopulateWithIntNext.nodup_loop literal 0 (by omega)
  · intro h
    exact PopulateWithIntNext.nodup_loop literal 0x80 (by omega)
  · rw [PopulateWithIntNext_half, PopulateWithIntNext.loop_take]
    exact PopulateWithIntNext.nodup_loop _ 0 (by
      have := List.length_take_le 0x8000 literal
      omega)
  · rw [PopulateWithIntNext_bfloat16, PopulateWithIntNext.loop_take]
    exact PopulateWithIntNext.nodup_loop _ 0x80 (by
      have := List.length_take_le 0x7F80 literal
      omega)
  · intro h
    constructor
    · rw [PopulateWithIntNext_half,
        PopulateWithIntNext.getElem_loop literal 0 0x8000 (by decide) h]
      decide
    · rw [PopulateWithIntNext_half,
        PopulateWithIntNext.getElem_loop literal 0 0x4000 (by decide) (by omega)]
      decide
  · intro h
    constructor
    · rw [PopulateWithIntNext_bfloat16,
        PopulateWithIntNext.getElem_loop literal 0x80 0x7F80 (by decide) h]
      decide
    · rw [PopulateWithIntNext_bfloat16,
        PopulateWithIntNext.getElem_loop literal 0x80 0x3F80 (by decide) (by omega)]
      decide

/-- Witness for C28: a half literal of four elements gets four distinct
patterns; a half literal of `0x8001` elements repeats `0x8000`. -/
theorem PopulateWithIntNext_distinct_witness :
    [7, 7, 7, 7].length ≤ 0x8000 ∧
    (PopulateWithIntNext_half [7, 7, 7, 7]).Nodup ∧
    PopulateWithIntNext_half [7, 7, 7, 7] = [0, 1, 2, 3] ∧
    (PopulateWithIntNext_half (List.replicate 0x8001 7))[0x8000]? = some 0x8000 ∧
    (PopulateWithIntNext_half (List.replicate 0x8001 7))[0x4000]? = some 0x8000 :=
  ⟨by decide,
    (PopulateWithIntNext_distinct [7, 7, 7, 7]).2.2.1 (by decide),
    by decide,
    ((PopulateWithIntNext_distinct (List.replicate 0x8001 7)).2.2.2.2.2.2.1
      (by rw [List.length_replicate]; decide)).1,
    ((PopulateWithIntNext_distinct (List.replicate 0x8001 7)).2.2.2.2.2.2.1
      (by rw [List.length_replicate]; decide)).2⟩

end IntNextClaims

section IntegralDataClaims

variable {E : Type}

end IntegralDataClaims

section ConstrainedUsesClaims

variable {Shape PrimitiveType Literal E : Type}

/-- The opcodes of the uses that `CreateLiteralForConstrainedUses` supports:
DynamicSlice, DynamicUpdateSlice, Gather, Scatter, Reduce, ReduceWindow,
SelectAndScatter and Sort. -/
def HloOpcode.isSupportedUse : HloOpcode → Bool
  | HloOpcode.kDynamicSlice => true
  | HloOpcode.kDynamicUpdateSlice => true
  | HloOpcode.kGather => true
  | HloOpcode.kScatter => true
  | HloOpcode.kReduce => true
  | HloOpcode.kReduceWindow => true
  | HloOpcode.kSelectAndScatter => true
  | HloOpcode.kSort => true
  | _ => false

/-- The constraint "no duplicates": some use is a Sort. -/
def imposesNoDuplicates (uses : List HloInstruction) : Bool :=
  uses.any (fun use => decide (use.opcode = HloOpcode.kSort))

/-- The constraint "constant init value": some use is a reduction (Reduce,
ReduceWindow, SelectAndScatter). -/
def imposesConstant (uses : List HloInstruction) : Bool :=
  uses.any (fun use =>
    decide (use.opcode = HloOpcode.kReduce) || decide (use.opcode = HloOpcode.kReduceWindow) ||
      decide (use.opcode = HloOpcode.kSelectAndScatter))

/-- A use gives a finite index bound: a dynamic (update) slice with an index
operand that is the parameter, or a gather or scatter with an entry in its
index map, the bound that the entry gives being below `INT64_MAX`. -/
def HloInstruction.givesIndexBound (use : HloInstruction) : Bool :=
  match use.opcode with
  | HloOpcode.kDynamicSlice | HloOpcode.kDynamicUpdateSlice =>
    use.index_operands.any (fun operand =>
      operand.1 && decide (operand.2.1 - operand.2.2 < INT64_MAX))
  | HloOpcode.kGather | HloOpcode.kScatter =>
    use.index_map_dimensions.any (fun dimension => decide (dimension - 1 < INT64_MAX))
  | _ => false

/-- The constraint "finite index bound": some use gives one. -/
def imposesIndexBound (uses : List HloInstruction) : Bool :=
  uses.any HloInstruction.givesIndexBound

theorem foldl_min_operands (operands : List (Bool × Int × Int)) :
    ∀ bound : Int,
      operands.foldl (fun bound operand =>
          if operand.1 then min bound (operand.2.1 - operand.2.2) else bound) bound ≤ bound ∧
      (operands.foldl (fun bound operand =>
          if operand.1 then min bound (operand.2.1 - operand.2.2) else bound) bound < INT64_MAX ↔
        (bound < INT64_MAX ∨
          operands.any (fun operand =>
            operand.1 && decide (operand.2.1 - operand.2.2 < INT64_MAX)) = true)) := by
  induction operands with
  | nil => intro bound; simp
  | cons operand rest ih =>
    intro bound
    obtain ⟨is_param, a, b⟩ := operand
    cases is_param with
    | false =>
      obtain ⟨h1, h2⟩ := ih bound
      simp only [List.foldl_cons, Bool.false_eq_true, if_false, List.any_cons, Bool.false_and,
        Bool.false_or]
      exact ⟨h1, h2⟩
    | true =>
      obtain ⟨h1, h2⟩ := ih (min bound (a - b))
      simp only [List.foldl_cons, if_true, List.any_cons, Bool.true_and, Bool.or_eq_true,
        decide_eq_true_eq]
      refine ⟨le_trans h1 (min_le_left _ _), ?_⟩
      rw [h2, min_lt_iff]
      tauto

theorem foldl_min_dimensions (dimensions : List Int) :
    ∀ bound : Int,
      dimensions.foldl (fun bound dimension => min bound (dimension - 1)) bound ≤ bound ∧
      (dimensions.foldl (fun bound dimension => min bound (dimension - 1)) bound < INT64_MAX ↔
        (bound < INT64_MAX ∨
          dimensions.any (fun dimension => decide (dimension - 1 < INT64_MAX)) = true)) := by
  induction dimensions with
  | nil => intro bound; simp
  | cons d rest ih =>
    intro bound
    obtain ⟨h1, h2⟩ := ih (min bound (d - 1))
    simp only [List.foldl_cons, List.any_cons, Bool.or_eq_true, decide_eq_true_eq]
    refine ⟨le_trans h1 (min_le_left _ _), ?_⟩
    rw [h2, min_lt_iff]
    tauto

theorem CreateLiteralForConstrainedUses.step_unsupported (state : ConstraintState)
    (use : HloInstruction) (h : use.opcode.isSupportedUse = false) :
    CreateLiteralForConstrainedUses.step state use
      = Except.error ⟨StatusCode.kUnimplemented,
          "Constrained operand generation not implemented for " ++ use.ToString ++ "."⟩ := by
  unfold CreateLiteralForConstrainedUses.step
  cases hop : use.opcode <;> simp [hop, HloOpcode.isSupportedUse] at h <;> rfl

theorem CreateLiteralForConstrainedUses.step_supported (state : ConstraintState)
    (use : HloInstruction) (h : use.opcode.isSupportedUse = true) :
    ∃ state1, CreateLiteralForConstrainedUses.step state use = Except.ok state1 ∧
      state1.no_duplicates = (state.no_duplicates || decide (use.opcode = HloOpcode.kSort)) ∧
      state1.needs_constant = (state.needs_constant ||
        (decide (use.opcode = HloOpcode.kReduce) ||
          decide (use.opcode = HloOpcode.kReduceWindow) ||
          decide (use.opcode = HloOpcode.kSelectAndScatter))) ∧
      state1.index_bound ≤ state.index_bound ∧
      (state1.index_bound < INT64_MAX ↔
        (state.index_bound < INT64_MAX ∨ use.givesIndexBound = true)) := by
  unfold CreateLiteralForConstrainedUses.step HloInstruction.givesIndexBound
  cases hop : use.opcode <;> simp [hop, HloOpcode.isSupportedUse] at h
  · exact ⟨_, rfl, by simp, by simp, (foldl_min_operands _ _).1, (foldl_min_operands _ _).2⟩
  · exact ⟨_, rfl, by simp, by simp, (foldl_min_operands _ _).1, (foldl_min_operands _ _).2⟩
  · exact ⟨_, rfl, by simp, by simp, (foldl_min_dimensions _ _).1, (foldl_min_dimensions _ _).2⟩
  · exact ⟨_, rfl, by simp, by simp, (foldl_min_dimensions _ _).1, (foldl_min_dimensions _ _).2⟩
  · exact ⟨_, rfl, by simp, by simp, le_refl _, by simp⟩
  · exact ⟨_, rfl, by simp, by simp, le_refl _, by simp⟩
  · exact ⟨_, rfl, by simp, by simp, le_refl _, by simp⟩
  · exact ⟨_, rfl, by simp, by simp, le_refl _, by simp⟩

theorem CreateLiteralForConstrainedUses.loop_unsupported (uses : List HloInstruction) :
    (∃ use ∈ uses, use.opcode.isSupportedUse = false) →
    ∀ state, ∃ message,
      CreateLiteralForConstrainedUses.loop state uses
        = Except.error ⟨StatusCode.kUnimplemented, message⟩ := by
  induction uses with
  | nil => rintro ⟨use, hmem, _⟩; cases hmem
  | cons head rest ih =>
    rintro ⟨use, hmem, huse⟩ state
    cases hhead : head.opcode.isSupportedUse with
    | false =>
      exact ⟨"Constrained operand generation not implemented for " ++ head.ToString ++ ".", by
        simp only [CreateLiteralForConstrainedUses.loop,
          CreateLiteralForConstrainedUses.step_unsupported state head hhead]⟩
    | true =>
      obtain ⟨state1, hstep, _⟩ :=
        CreateLiteralForConstrainedUses.step_supported state head hhead
      have hrest : ∃ u ∈ rest, u.opcode.isSupportedUse = false := by
        rcases List.mem_cons.mp hmem with h | h
        · subst h; rw [hhead] at huse; cases huse
        · exact ⟨use, h, huse⟩
      obtain ⟨message, hloop⟩ := ih hrest state1
      exact ⟨message, by simp only [CreateLiteralForConstrainedUses.loop, hstep, hloop]⟩

theorem CreateLiteralForConstrainedUses.loop_supported (uses : List HloInstruction) :
    (∀ use ∈ uses, use.opcode.isSupportedUse = true) →
    ∀ state, ∃ state1,
      CreateLiteralForConstrainedUses.loop state uses = Except.ok state1 ∧
      state1.no_duplicates = (state.no_duplicates || imposesNoDuplicates uses) ∧
      state1.needs_constant = (state.needs_constant || imposesConstant uses) ∧
      state1.index_bound ≤ state.index_bound ∧
      (state1.index_bound < INT64_MAX ↔
        (state.index_bound < INT64_MAX ∨ imposesIndexBound uses = true)) := by
  induction uses with
  | nil =>
    intro _ state
    exact ⟨state, rfl, by simp [imposesNoDuplicates], by simp [imposesConstant], le_refl _,
      by simp [imposesIndexBound]⟩
  | cons head rest ih =>
    intro hall state
    obtain ⟨state1, hstep, hnd, hnc, hle, hib⟩ :=
      CreateLiteralForConstrainedUses.step_supported state head
        (hall head (List.mem_cons_self head rest))
    obtain ⟨state2, hloop, hnd2, hnc2, hle2, hib2⟩ :=
      ih (fun use hmem => hall use (List.mem_cons_of_mem head hmem)) state1
    refine ⟨state2, by simp only [CreateLiteralForConstrainedUses.loop, hstep, hloop],
      ?_, ?_, le_trans hle2 hle, ?_⟩
    · rw [hnd2, hnd]; simp [imposesNoDuplicates, Bool.or_assoc]
    · rw [hnc2, hnc]; simp [imposesConstant, Bool.or_assoc]
    · rw [hib2, hib]
      simp only [imposesIndexBound, List.any_cons, Bool.or_eq_true]
      tauto

/-- A use that sorts, a use that reduces, a dynamic slice indexed by the
parameter, and a use of an unsupported opcode, for the examples. -/
def sortUse : HloInstruction :=
  { opcode := HloOpcode.kSort, index_operands := [], index_map_dimensions := [],
    indices_are_sorted := false,
    to_apply := ⟨0, HloOpcode.other 0, []⟩, scatter := ⟨0, HloOpcode.other 0, []⟩,
    ToString := "sort" }

/-- A reduction by addition. -/
def reduceUse : HloInstruction :=
  { sortUse with
    opcode := HloOpcode.kReduce
    to_apply := ⟨2, HloOpcode.kAdd, [(0, HloOpcode.kParameter), (1, HloOpcode.kParameter)]⟩
    ToString := "reduce" }

/-- A dynamic slice of 4 out of 10 elements whose index is the parameter. -/
def sliceUse : HloInstruction :=
  { sortUse with
    opcode := HloOpcode.kDynamicSlice
    index_operands := [(true, 10, 4)]
    ToString := "dynamic-slice" }

/-- A use of an opcode outside the supported ones. -/
def tanhUse : HloInstruction :=
  { sortUse with opcode := HloOpcode.other 7, ToString := "tanh" }

/-- A literal generator that counts its calls in the engine. -/
def countingLiteral (_shape : Nat) (calls : Nat) (_limit : Option (Int × Int))
    (_is_sorted _no_duplicates _use_large_range : Bool) : StatusOr Nat × Nat :=
  (Except.ok calls, calls + 1)

/-- C30: `CreateLiteralForConstrainedUses` returns `Unimplemented`, with the
engine untouched and whatever the literal generators would produce, in both
unsupported situations: when some constrained use has an opcode other than
DynamicSlice, DynamicUpdateSlice, Gather, Scatter, Reduce, ReduceWindow,
SelectAndScatter and Sort; and when all uses are supported but together impose
more than one of the three kinds of constraint (no duplicates from a Sort, a
finite index bound from a slice, gather or scatter, a constant init value
from a reduction). -/
theorem CreateLiteralForConstrainedUses_unimplemented
    (MakeFakeLiteralInternal :
      Shape → E → Option (Int × Int) → Bool → Bool → Bool → StatusOr Literal × E)
    (Zero One : PrimitiveType → Literal) (element_type : Shape → PrimitiveType)
    (constrained_uses : List HloInstruction) (param_shape : Shape) (engine : E)
    (use_large_range : Bool) :
    ((∃ use ∈ constrained_uses, use.opcode.isSupportedUse = false) →
      ∃ message,
        CreateLiteralForConstrainedUses MakeFakeLiteralInternal Zero One element_type
          constrained_uses param_shape engine use_large_range
          = (Except.error ⟨StatusCode.kUnimplemented, message⟩, engine)) ∧
    ((∀ use ∈ constrained_uses, use.opcode.isSupportedUse = true) →
      2 ≤ (if imposesNoDuplicates constrained_uses then 1 else 0) +
          (if imposesIndexBound constrained_uses then 1 else 0) +
          (if imposesConstant constrained_uses then 1 else 0) →
      CreateLiteralForConstrainedUses MakeFakeLiteralInternal Zero One element_type
          constrained_uses param_shape engine use_large_range
        = (Except.error ⟨StatusCode.kUnimplemented,
            "Conflicting operand generation constraints."⟩, engine)) := by
  constructor
  · intro hbad
    obtain ⟨message, hloop⟩ :=
      CreateLiteralForConstrainedUses.loop_unsupported constrained_uses hbad
        { index_bound := INT64_MAX, no_duplicates := false, needs_constant := false,
          needs_sorted_indices := false, constant_type := ConstantType.kUnknown }
    exact ⟨message, by simp only [CreateLiteralForConstrainedUses, hloop]⟩
  · intro hall hcount
    obtain ⟨state, hloop, hnd, hnc, hle, hib⟩ :=
      CreateLiteralForConstrainedUses.loop_supported constrained_uses hall
        { index_bound := INT64_MAX, no_duplicates := false, needs_constant := false,
          needs_sorted_indices := false, constant_type := ConstantType.kUnknown }
    simp only [Bool.false_or, lt_self_iff_false, false_or] at hnd hnc hle hib
    have hne : state.index_bound ≠ INT64_MAX ↔ imposesIndexBound constrained_uses = true := by
      rw [← hib]
      constructor
      · intro h; exact lt_of_le_of_ne hle h
      · intro h; exact ne_of_lt h
    have hgt : (if state.no_duplicates = true then 1 else 0) +
        (if state.index_bound ≠ INT64_MAX then 1 else 0) +
        (if state.needs_constant = true then 1 else 0) > 1 := by
      rw [hnd, hnc]
      by_cases hb : imposesIndexBound constrained_uses = true
      · rw [if_pos (hne.mpr hb)]; rw [if_pos hb] at hcount; omega
      · rw [if_neg (fun h => hb (hne.mp h))]; rw [if_neg hb] at hcount; omega
    simp only [CreateLiteralForConstrainedUses, hloop, hgt, if_true, Unimplemented]

/-- Witness for C30: a use of an unsupported opcode after a sort, and a sort
together with a reduction, both end in `Unimplemented` with no literal
generated (the generator's call count stays 0); a sort alone generates one. -/
theorem CreateLiteralForConstrainedUses_unimplemented_witness :
    CreateLiteralForConstrainedUses countingLiteral id id id [sortUse, tanhUse] 0 0 false
      = (Except.error ⟨StatusCode.kUnimplemented,
          "Constrained operand generation not implemented for tanh."⟩, 0) ∧
    (∃ message,
      CreateLiteralForConstrainedUses countingLiteral id id id [sortUse, tanhUse] 0 0 false
        = (Except.error ⟨StatusCode.kUnimplemented, message⟩, 0)) ∧
    CreateLiteralForConstrainedUses countingLiteral id id id [sortUse, reduceUse] 0 0 false
      = (Except.error ⟨StatusCode.kUnimplemented,
          "Conflicting operand generation constraints."⟩, 0) ∧
    CreateLiteralForConstrainedUses countingLiteral id id id [sliceUse, reduceUse] 0 0 false
      = (Except.error ⟨StatusCode.kUnimplemented,
          "Conflicting operand generation constraints."⟩, 0) ∧
    CreateLiteralForConstrainedUses countingLiteral id id id [sortUse] 0 0 false
      = (Except.ok 0, 1) :=
  ⟨rfl,
    (CreateLiteralForConstrainedUses_unimplemented countingLiteral id id id
      [sortUse, tanhUse] 0 0 false).1 ⟨tanhUse, by simp, rfl⟩,
    (CreateLiteralForConstrainedUses_unimplemented countingLiteral id id id
      [sortUse, reduceUse] 0 0 false).2 (by decide) (by decide),
    (CreateLiteralForConstrainedUses_unimplemented countingLiteral id id id
      [sliceUse, reduceUse] 0 0 false).2 (by decide) (by decide),
    rfl⟩

end ConstrainedUsesClaims

end xla
